import Mathlib

/-!
Buhrlang semantic-analysis core: type algebra, name bindings and patterns.

A shallow embedding of `compiler/Type.cpp`, of `compiler/Pattern.cpp`
(exhaustiveness, the constructor-call rewrite and the lowering of patterns to
comparisons), and of the scopes of `compiler/NameBindings.cpp`.

Conventions of the embedding.

* A C++ pointer that may be null is an `Option`; dereferencing a null pointer,
  a failing `assert` and the fatal `Trace::error` are the three ways a call can
  fail to return, and are the three constructors of `Failure`.
* Objects are values: `clone()` is the identity on values, and a method that
  mutates its receiver returns the new value.
* Source locations are carried by the C++ nodes for diagnostics only and are
  left out.
-/

namespace Buhrlang

/-- Identifier of `Identifier.h`: a string compared by contents. -/
abbrev Identifier := String

/-- The ways a call can fail to return a value. -/
inductive Failure where
  /-- Fatal `Trace::error(message, node)`: analysis stops with this message. -/
  | fatal (message : String)
  /-- A null pointer is dereferenced. -/
  | nullDereference
  /-- An `assert` does not hold. -/
  | assertion
  deriving DecidableEq, Repr

/-- A computation that returns a value or fails. -/
abbrev Result (α : Type) := Except Failure α

instance instDecidableEqResult {α : Type} [DecidableEq α] : DecidableEq (Result α)
  | .ok a, .ok b => if h : a = b then isTrue (by rw [h]) else isFalse (fun e => h (by cases e; rfl))
  | .error a, .error b =>
    if h : a = b then isTrue (by rw [h]) else isFalse (fun e => h (by cases e; rfl))
  | .ok _, .error _ => isFalse (fun e => by cases e)
  | .error _, .ok _ => isFalse (fun e => by cases e)

/-! ## Definitions referenced by types -/

/-- Modelled from the spec: `Type::BuiltInType` is declared in `Type.h`, which is
not among the sources; the kinds are those the spec lists for `builtIn`, and
they are the enumerators `Type.cpp` switches over. -/
inductive BuiltInType where
  | NotBuiltIn | Void | Null | Placeholder | Implicit | Byte | Char | Integer | Long
  | Float | Boolean | String | Lambda | Function | Object | Enumeration
  deriving DecidableEq, Repr

/-- Modelled from the spec: a member of a class as the core observes it
(`MethodDefinition::getName`, `isEnumConstructor`, the size of
`getArgumentList`; `DataMemberDefinition::getName`). `Definition.h` is not among
the sources. -/
inductive MemberDefinition where
  | Method (name : Identifier) (isEnumConstructor : Bool) (argumentCount : Nat)
  | DataMember (name : Identifier)
  | Other
  deriving DecidableEq, Repr

/-- Modelled from the spec: `ClassDefinition` as the core observes it
(`getName`, `isEnumeration`, `isEnumerationVariant`, `isInterface`,
`isMessage`, `getMembers`, `getPrimaryCtorArgDataMembers`). `Definition.h` is
not among the sources. -/
structure ClassDefinition where
  name : Identifier
  isEnumeration : Bool
  isEnumerationVariant : Bool
  isInterface : Bool
  isMessage : Bool
  members : List MemberDefinition
  primaryCtorArgDataMembers : List Identifier
  deriving DecidableEq, Repr

mutual
/-- Type of `Type.h`: the data members that the constructors of `Type.cpp`
initialise, in their order. -/
inductive Ty where
  | mk (builtInType : BuiltInType) (name : Identifier) (genericTypeParameters : List Ty)
      (definition : Option Definition) (functionSignature : Option FunctionSignature)
      (constant : Bool) (reference : Bool) (array : Bool)
/-- Modelled from the spec: a function signature is a (return type, ordered
argument types) pair; its class is not among the sources. -/
inductive FunctionSignature where
  | mk (returnType : Option Ty) (arguments : List Ty)
/-- Modelled from the spec: what a `Definition*` held by a type points to, by
kind (`isClass`, `isGenericTypeParameter`); a generic type parameter definition
exposes `getConcreteType()`. `Definition.h` is not among the sources. -/
inductive Definition where
  | Class (classDef : ClassDefinition)
  | GenericTypeParameter (concreteType : Option Ty)
  | Other
end

namespace Ty

def builtInType : Ty → BuiltInType
  | .mk b _ _ _ _ _ _ _ => b

def name : Ty → Identifier
  | .mk _ n _ _ _ _ _ _ => n

def genericTypeParameters : Ty → List Ty
  | .mk _ _ g _ _ _ _ _ => g

def definition : Ty → Option Definition
  | .mk _ _ _ d _ _ _ _ => d

def functionSignature : Ty → Option FunctionSignature
  | .mk _ _ _ _ f _ _ _ => f

def constant : Ty → Bool
  | .mk _ _ _ _ _ c _ _ => c

def reference : Ty → Bool
  | .mk _ _ _ _ _ _ r _ => r

def array : Ty → Bool
  | .mk _ _ _ _ _ _ _ a => a

end Ty

/-- Operations of the repository that `Type.cpp` calls and whose code is not
among the sources: `FunctionSignature::equals` and
`ClassDefinition::isSubclassOf`. They are parameters of the embedding. -/
structure Externals where
  signatureEquals : FunctionSignature → FunctionSignature → Bool
  isSubclassOf : ClassDefinition → ClassDefinition → Bool

/-- Modelled from the spec: the reserved keywords of `Keyword.h`, which is not
among the sources (`byte`, `char`, `int`, `long`, `float`, `bool`, `string`,
`object`, `var`, and `fun` for the closure interface name). -/
def Keyword.byteString : Identifier := "byte"
/-- Modelled from the spec: keyword `char` of `Keyword.h`. -/
def Keyword.charString : Identifier := "char"
/-- Modelled from the spec: keyword `int` of `Keyword.h`. -/
def Keyword.intString : Identifier := "int"
/-- Modelled from the spec: keyword `long` of `Keyword.h`. -/
def Keyword.longString : Identifier := "long"
/-- Modelled from the spec: keyword `float` of `Keyword.h`. -/
def Keyword.floatString : Identifier := "float"
/-- Modelled from the spec: keyword `bool` of `Keyword.h`. -/
def Keyword.boolString : Identifier := "bool"
/-- Modelled from the spec: keyword `string` of `Keyword.h`. -/
def Keyword.stringString : Identifier := "string"
/-- Modelled from the spec: keyword `object` of `Keyword.h`. -/
def Keyword.objectString : Identifier := "object"
/-- Modelled from the spec: keyword `var` of `Keyword.h`. -/
def Keyword.varString : Identifier := "var"
/-- Modelled from the spec: keyword `fun` of `Keyword.h`. -/
def Keyword.funString : Identifier := "fun"

namespace Ty

/-! ## Constructors and setters (`Type.cpp` 11-130, 287-312) -/

/-- Embeds `Type::Type(const Identifier& n)`. -/
def ofName (n : Identifier) : Ty :=
  .mk .NotBuiltIn n [] none none true true false

/-- The `switch` of `Type::Type(BuiltInType t)`: the name given to the kind; the
default branch leaves the default-constructed (empty) name. -/
def builtInName : BuiltInType → Identifier
  | .Void => "void"
  | .Placeholder => "_"
  | .Implicit => "implicit"
  | .Byte => Keyword.byteString
  | .Char => Keyword.charString
  | .Integer => Keyword.intString
  | .Long => Keyword.longString
  | .Float => Keyword.floatString
  | .Boolean => Keyword.boolString
  | .String => Keyword.stringString
  | .Lambda => "lambda"
  | .Function => Keyword.funString
  | .Object => Keyword.objectString
  | _ => ""

/-- The `switch` of `Type::Type(BuiltInType t)`: the branches that set
`reference = true`. -/
def builtInReference : BuiltInType → Bool
  | .String => true
  | .Lambda => true
  | .Function => true
  | .Object => true
  | _ => false

/-- Embeds `Type::Type(BuiltInType t)`. -/
def ofBuiltIn (t : BuiltInType) : Ty :=
  .mk t (builtInName t) [] none none true (builtInReference t) false

/-- Embeds `Type::clone` through the copy constructor: a deep copy, the same value. -/
def clone (t : Ty) : Ty := t

/-- Embeds `Type::create(BuiltInType t)`. -/
def createBuiltIn (t : BuiltInType) : Ty := ofBuiltIn t

/-- Embeds `Type::create(const Identifier& name)`. -/
def create (name : Identifier) : Ty :=
  if name = "void" then createBuiltIn .Void
  else if name = Keyword.varString then createBuiltIn .Implicit
  else if name = Keyword.byteString then createBuiltIn .Byte
  else if name = Keyword.charString then createBuiltIn .Char
  else if name = Keyword.intString then createBuiltIn .Integer
  else if name = Keyword.longString then createBuiltIn .Long
  else if name = Keyword.floatString then createBuiltIn .Float
  else if name = Keyword.boolString then createBuiltIn .Boolean
  else if name = Keyword.stringString then createBuiltIn .String
  else if name = Keyword.objectString then createBuiltIn .Object
  else ofName name

/-- Embeds `Type::nullTypeInstance`, the type `Type::nullType()` hands out. -/
def nullTypeInstance : Ty := ofBuiltIn .Null

/-- Embeds `Type::voidTypeInstance`. -/
def voidTypeInstance : Ty := ofBuiltIn .Void

/-- Embeds `Type::setConstant` (inline in `Type.h`): sets the flag. -/
def setConstant : Ty → Bool → Ty
  | .mk b n g d f _ r a, c => .mk b n g d f c r a

/-- Embeds `Type::setReference`. -/
def setReference : Ty → Bool → Ty
  | .mk b n g d f c _ a, r => .mk b n g d f c r a

/-- Embeds `Type::setArray`. -/
def setArray : Ty → Bool → Ty
  | .mk b n g d f c r _, a => .mk b n g d f c (if a then true else r) a

/-- Embeds `Type::setDefinition`, for a non-null definition. -/
def setDefinition : Ty → Definition → Ty
  | .mk b n g _ f c r a, d =>
    match d with
    | .Class classDef =>
      let b1 := if classDef.isEnumeration then BuiltInType.Enumeration else b
      let r1 := if classDef.isEnumeration then (if !a then false else r) else r
      let r2 := if classDef.isEnumerationVariant then false else r1
      .mk b1 n g (some d) f c r2 a
    | _ => .mk b n g (some d) f c r a

/-- Embeds `Type::addGenericTypeParameter`. -/
def addGenericTypeParameter : Ty → Ty → Ty
  | .mk b n g d f c r a, p => .mk b n (g ++ [p]) d f c r a

/-! ## Predicates (`Type.h` inline accessors, `Type.cpp` 166-237) -/

/-- Modelled from the spec: the inline kind tests of `Type.h` compare
`builtInType` with the kind they name. -/
def isPlaceholder (t : Ty) : Bool := t.builtInType == .Placeholder
/-- Modelled from the spec: inline kind test of `Type.h`. -/
def isNull (t : Ty) : Bool := t.builtInType == .Null
/-- Modelled from the spec: inline kind test of `Type.h`. -/
def isVoid (t : Ty) : Bool := t.builtInType == .Void
/-- Modelled from the spec: inline kind test of `Type.h`. -/
def isBoolean (t : Ty) : Bool := t.builtInType == .Boolean
/-- Modelled from the spec: inline kind test of `Type.h`. -/
def isEnumeration (t : Ty) : Bool := t.builtInType == .Enumeration
/-- Modelled from the spec: inline kind test of `Type.h`. -/
def isFunction (t : Ty) : Bool := t.builtInType == .Function
/-- Modelled from the spec: inline kind test of `Type.h`. -/
def isObject (t : Ty) : Bool := t.builtInType == .Object
/-- Modelled from the spec: inline test of `Type.h`, any kind but `NotBuiltIn`. -/
def isBuiltIn (t : Ty) : Bool := t.builtInType != .NotBuiltIn
/-- Modelled from the spec: inline flag accessor of `Type.h`. -/
def isReference (t : Ty) : Bool := t.reference
/-- Modelled from the spec: inline flag accessor of `Type.h`. -/
def isArray (t : Ty) : Bool := t.array
/-- Modelled from the spec: inline flag accessor of `Type.h`. -/
def isConstant (t : Ty) : Bool := t.constant

/-- Embeds `Type::isReferenceType`. -/
def isReferenceType : BuiltInType → Bool
  | .Byte => false
  | .Char => false
  | .Integer => false
  | .Long => false
  | .Float => false
  | .Boolean => false
  | .Enumeration => false
  | _ => true

/-- Embeds `Type::isPrimitive`. -/
def isPrimitive (t : Ty) : Bool :=
  if t.isArray then false
  else
    match t.builtInType with
    | .Byte => true
    | .Char => true
    | .Integer => true
    | .Long => true
    | .Float => true
    | .Boolean => true
    | _ => false

/-- Embeds `Type::isInterface`. -/
def isInterface (t : Ty) : Bool :=
  match t.definition with
  | some (.Class classDef) => classDef.isInterface
  | _ => false

/-- Embeds `Type::getClass`. -/
def getClass (t : Ty) : Option ClassDefinition :=
  match t.definition with
  | some (.Class classDef) => some classDef
  | _ => none

/-- Embeds `Type::hasGenericTypeParameters`. -/
def hasGenericTypeParameters (t : Ty) : Bool := !t.genericTypeParameters.isEmpty

/-- Embeds `Type::createArrayElementType`; `none` is the null result. -/
def createArrayElementType (arrayType : Ty) : Option Ty :=
  if !arrayType.isArray then none
  else
    let elementType := (arrayType.clone).setArray false
    if !isReferenceType elementType.builtInType then
      some (elementType.setReference false)
    else
      some elementType

/-- Embeds `Type::getConcreteTypeAssignedToGenericTypeParameter`; `ok none` is the null
result. -/
def getConcreteTypeAssignedToGenericTypeParameter (t : Ty) : Result (Option Ty) :=
  match t.definition with
  | none => .error .assertion
  | some (.GenericTypeParameter (some concreteType)) =>
    .ok (some (((concreteType.clone).setArray t.array).setConstant t.constant))
  | some _ => .ok none

/-! ## Equality and convertibility (`Type.cpp` 239-269, 381-450, 496-559) -/

mutual
/-- Embeds `Type::areEqualNoConstCheck(left, right, checkTypeParameters)`. The call
`left->areTypeParametersMatching(right)` is unfolded in place: the size test,
then the loop `typeParametersLoop`. -/
def areEqualNoConstCheck (ext : Externals) : Ty → Ty → Bool → Result Bool
  | .mk lb ln lg _ lf _ lr la, .mk rb rn rg _ rf _ rr ra, checkTypeParameters =>
    if lb == .Placeholder || rb == .Placeholder then
      if la != ra then .ok false else .ok true
    else if lb == rb && ln == rn && lr == rr && la == ra then
      let signatures : Result Bool :=
        if lb == .Function then
          match lf, rf with
          | some ls, some rs => .ok (ext.signatureEquals ls rs)
          | _, _ => .error .nullDereference
        else .ok true
      match signatures with
      | .error e => .error e
      | .ok false => .ok false
      | .ok true =>
        if checkTypeParameters then
          if lg.length != rg.length then .ok false else typeParametersLoop ext lg rg
        else .ok true
    else .ok false
/-- The loop of `Type::areTypeParametersMatching`, run after the size test: the
two lists are walked together and `*typeParameter != *otherTypeParameter`, the
negation of `operator==`, ends it with `false`. -/
def typeParametersLoop (ext : Externals) : List Ty → List Ty → Result Bool
  | [], _ => .ok true
  | _ :: _, [] => .error .nullDereference
  | l :: ls, r :: rs =>
    match areEqualNoConstCheck ext l r true with
    | .error e => .error e
    | .ok eq =>
      if !(eq && l.constant == r.constant) then .ok false
      else typeParametersLoop ext ls rs
end

/-- Embeds `operator==(const Type&, const Type&)`; `checkTypeParameters` has its
default value `true`. -/
def equal (ext : Externals) (left right : Ty) : Result Bool :=
  match areEqualNoConstCheck ext left right true with
  | .error e => .error e
  | .ok eq => .ok (eq && left.constant == right.constant)

/-- Embeds `operator!=(const Type&, const Type&)`. -/
def notEqual (ext : Externals) (left right : Ty) : Result Bool :=
  match equal ext left right with
  | .error e => .error e
  | .ok eq => .ok (!eq)

/-- Embeds `Type::areTypeParametersMatching`. -/
def areTypeParametersMatching (ext : Externals) (self other : Ty) : Result Bool :=
  if self.genericTypeParameters.length != other.genericTypeParameters.length then .ok false
  else typeParametersLoop ext self.genericTypeParameters other.genericTypeParameters

/-- Embeds `Type::areBuiltInsImplicitlyConvertable`. -/
def areBuiltInsImplicitlyConvertable (fromKind toKind : BuiltInType) : Bool :=
  match fromKind with
  | .String =>
    match toKind with
    | .Object => true
    | _ => false
  | .Byte =>
    match toKind with
    | .Char => true
    | .Integer => true
    | .Long => true
    | .Float => true
    | _ => false
  | .Integer =>
    match toKind with
    | .Long => true
    | _ => false
  | .Char =>
    match toKind with
    | .Byte => true
    | .Integer => true
    | .Long => true
    | .Float => true
    | _ => false
  | _ => false

/-- Embeds `definition->isClass()` followed by `definition->cast<ClassDefinition>()`
on the definition pointer of a type: the class when the definition is one,
`none` when it is of another kind; a null pointer cannot be asked. -/
def definitionAsClass (t : Ty) : Result (Option ClassDefinition) :=
  match t.definition with
  | none => .error .nullDereference
  | some (.Class classDef) => .ok (some classDef)
  | some _ => .ok none

/-- Embeds `Type::areConvertable`. -/
def areConvertable (ext : Externals) (left right : Ty) : Result Bool :=
  let sameNameAndParameters : Result Bool :=
    if left.name == right.name then areTypeParametersMatching ext left right else .ok false
  match sameNameAndParameters with
  | .error e => .error e
  | .ok true => .ok true
  | .ok false =>
    if left.isObject && right.isInterface then .ok true
    else
      match definitionAsClass left with
      | .error e => .error e
      | .ok none => .ok false
      | .ok (some leftClass) =>
        match definitionAsClass right with
        | .error e => .error e
        | .ok none => .ok false
        | .ok (some rightClass) =>
          if ext.isSubclassOf rightClass leftClass then .ok true else .ok false

/-- The chain of kind tests in the middle of `Type::areInitializable`: `ok false`
when one of its branches takes `return false`, `ok true` when control reaches
the comparison of the `array` flags. -/
def kindsAreInitializable (ext : Externals) (left right : Ty) : Result Bool :=
  if left.isEnumeration && right.isEnumeration then
    if left.name != right.name then .ok false
    else areTypeParametersMatching ext left right
  else if left.isFunction && right.isFunction then
    match left.functionSignature, right.functionSignature with
    | some ls, some rs => .ok (ext.signatureEquals ls rs)
    | _, _ => .error .nullDereference
  else if left.isBuiltIn && right.isBuiltIn then
    if left.builtInType != right.builtInType &&
        !areBuiltInsImplicitlyConvertable right.builtInType left.builtInType then .ok false
    else .ok true
  else
    -- At least one type is not built-in. Check the class hierarchy.
    areConvertable ext left right

/-- Embeds `Type::areInitializable`. -/
def areInitializable (ext : Externals) (left right : Ty) : Result Bool :=
  if left.isPlaceholder || right.isPlaceholder then
    if left.isArray != right.isArray then .ok false else .ok true
  else if left.isReference && right.isNull then .ok true
  else
    match kindsAreInitializable ext left right with
    | .error e => .error e
    | .ok false => .ok false
    | .ok true => if left.array != right.array then .ok false else .ok true

/-! ## Rendering (`Type.cpp` 144-164, 339-379) -/

mutual
/-- Embeds `Type::getFullConstructedName`. -/
def getFullConstructedName : Ty → Identifier
  | .mk _ n g _ _ _ _ _ =>
    if g.isEmpty then n
    else ((n ++ "<") ++ fullConstructedNamesLoop g false) ++ ">"
/-- The loop of `Type::getFullConstructedName` over the type parameters: what it
appends to `fullName`, given the current `insertComma`. -/
def fullConstructedNamesLoop : List Ty → Bool → Identifier
  | [], _ => ""
  | typeParameter :: rest, insertComma =>
    ((if insertComma then "," else "") ++ getFullConstructedName typeParameter) ++
      fullConstructedNamesLoop rest true
end

mutual
/-- Embeds `Type::toString`. -/
def toString : Ty → Result String
  | .mk b n g d f c r a =>
    if b == .Null then .ok "null"
    else
      let shown : Result String :=
        if !g.isEmpty then .ok (getFullConstructedName (.mk b n g d f c r a))
        else if b == .Function then closureInterfaceName f
        else .ok n
      match shown with
      | .error e => .error e
      | .ok str => .ok (((if !c then "var " else "") ++ str) ++ (if a then "[]" else ""))
/-- Embeds `Type::getClosureInterfaceName`, on the `functionSignature` member of the
receiver. -/
def closureInterfaceName : Option FunctionSignature → Result String
  | none => .error .assertion
  | some (.mk returnType arguments) =>
    let shownReturn : Result String :=
      match returnType with
      | none => .ok ""
      | some t => toString t
    match shownReturn with
    | .error e => .error e
    | .ok ret =>
      match closureArgumentsLoop arguments false with
      | .error e => .error e
      | .ok args => .ok (((((Keyword.funString ++ " ") ++ ret) ++ "(") ++ args) ++ ")")
/-- The loop of `Type::getClosureInterfaceName` over the argument types. -/
def closureArgumentsLoop : List Ty → Bool → Result String
  | [], _ => .ok ""
  | argumentType :: rest, insertComma =>
    match toString argumentType with
    | .error e => .error e
    | .ok str =>
      match closureArgumentsLoop rest true with
      | .error e => .error e
      | .ok more => .ok (((if insertComma then "," else "") ++ str) ++ more)
end

/-- Embeds `Type::getClosureInterfaceName`. -/
def getClosureInterfaceName (t : Ty) : Result String :=
  closureInterfaceName t.functionSignature

/-- Embeds `Type::areAssignable`. -/
def areAssignable (ext : Externals) (left right : Ty) : Result Bool :=
  if left.isConstant then .ok false else areInitializable ext left right

end Ty

/-! ## Expressions and the analysis context -/

/-- Modelled from the spec: the operators of `Operator.h` (not among the sources)
that `Pattern.cpp` builds expressions with. -/
inductive Operator where
  | Equal | NotEqual | LogicalAnd | GreaterOrEqual | Subtraction | AssignmentExpression
  deriving DecidableEq, Repr

mutual
/-- Modelled from the spec: the expression tree of `Expression.h` (not among the
sources), by concrete kind: the kinds the spec lists as consumed by the pattern
core, the kinds `Pattern.cpp` produces, and `Other` for every kind the pattern
core does not tell apart. -/
inductive Expression where
  | NamedEntity (identifier : Identifier)
  | IntegerLiteral (value : Int)
  | BooleanLiteral (value : Bool)
  | ArrayLiteral (elements : List Expression)
  | Typed (targetType : Ty) (resultName : Expression)
  | ClassDecomposition (type : Ty) (enumVariantName : Identifier) (members : List Member)
  | MemberSelector (left : Expression) (right : Expression)
  | MethodCall (name : Identifier) (arguments : List Expression)
  | Placeholder
  | Wildcard
  | Binary (op : Operator) (left : Expression) (right : Expression)
  | ArraySubscript (array : Expression) (index : Expression)
  | TypeCast (targetType : Ty) (operand : Expression)
  | LocalVariable (type : Ty) (name : Identifier)
  | Null
  | Other (kind : Nat)
/-- Modelled from the spec: `ClassDecompositionExpression::Member`, a member name
expression and its sub-pattern, which may be absent. -/
inductive Member where
  | mk (nameExpr : Expression) (patternExpr : Option Expression)
end

namespace Expression

/-- Modelled from the spec: `Expression::isPlaceholder()`. -/
def isPlaceholder : Expression → Bool
  | .Placeholder => true
  | _ => false

/-- Modelled from the spec: `Expression::isWildcard()`. -/
def isWildcard : Expression → Bool
  | .Wildcard => true
  | _ => false

/-- Modelled from the spec: `Expression::isNamedEntity()`. -/
def isNamedEntity : Expression → Bool
  | .NamedEntity _ => true
  | _ => false

end Expression

namespace Member

def nameExpr : Member → Expression
  | .mk n _ => n

def patternExpr : Member → Option Expression
  | .mk _ p => p

end Member

/-- Modelled from the spec: the analysis `Context` and the capabilities of
expression nodes whose code is not among the sources, as the pattern core uses
them: `Expression::getType()` (null before type checking),
`Expression::typeCheck(context)` (which may be fatal),
`NamedEntityExpression::isReferencingStaticDataMember(context)`,
`NamedEntityExpression::isReferencingName(subject)` and
`Expression::generateVariableName()`; together with the operations `Type.cpp`
calls. -/
structure Context where
  externals : Externals
  getType : Expression → Option Ty
  typeCheck : Expression → Result Ty
  isReferencingStaticDataMember : Expression → Bool
  isReferencingName : Expression → Expression → Bool
  generateVariableName : Expression → Identifier

/-! ## Match coverage (`Pattern.cpp` 7-9, 180-212) -/

def boolTrueCaseName : Identifier := "true"

def boolFalseCaseName : Identifier := "false"

/-- Modelled from the spec: `MatchCoverage` of `Pattern.h` (not among the sources)
holds `notCoveredCases`, a set of identifiers. -/
structure MatchCoverage where
  notCoveredCases : Finset Identifier
  deriving DecidableEq

namespace MatchCoverage

/-- The body of the loop of `MatchCoverage::MatchCoverage` over the members of an
enumeration class. -/
def insertEnumConstructor (cases : Finset Identifier) (member : MemberDefinition) :
    Finset Identifier :=
  match member with
  | .Method name isEnumConstructor _ => if isEnumConstructor then insert name cases else cases
  | _ => cases

/-- Embeds `MatchCoverage::MatchCoverage(const Type* subjectType)`. -/
def create (subjectType : Ty) : Result MatchCoverage :=
  if subjectType.isBoolean then
    .ok ⟨insert boolFalseCaseName (insert boolTrueCaseName ∅)⟩
  else if subjectType.isEnumeration then
    match subjectType.definition with
    | none => .error .nullDereference
    | some (.Class subjectClass) =>
      if subjectClass.isEnumeration then
        .ok ⟨subjectClass.members.foldl insertEnumConstructor ∅⟩
      else .error .assertion
    | some _ => .error .assertion
  else
    .ok ⟨insert "all" ∅⟩

/-- Embeds `MatchCoverage::isCaseCovered`. -/
def isCaseCovered (coverage : MatchCoverage) (caseName : Identifier) : Bool :=
  decide (caseName ∉ coverage.notCoveredCases)

/-- Embeds `MatchCoverage::areAllCasesCovered`. -/
def areAllCasesCovered (coverage : MatchCoverage) : Bool :=
  decide (coverage.notCoveredCases = ∅)

/-- Embeds `MatchCoverage::markCaseAsCovered`. -/
def markCaseAsCovered (coverage : MatchCoverage) (caseName : Identifier) : MatchCoverage :=
  ⟨coverage.notCoveredCases.erase caseName⟩

end MatchCoverage

/-! ## Exhaustiveness of patterns (`Pattern.cpp` 11-35, 250-298, 333-347, 531-600, 776-789) -/

/-- Embeds `patternExpressionCreatesVariable`. -/
def patternExpressionCreatesVariable (patternExpression : Expression) (context : Context) :
    Bool :=
  !context.isReferencingStaticDataMember patternExpression

/-- Embeds `memberPatternIsIrrefutable`; `none` is the null member pattern. -/
def memberPatternIsIrrefutable (memberPattern : Option Expression) (context : Context) : Bool :=
  match memberPattern with
  | none => true
  | some e =>
    if e.isPlaceholder then true
    else if e.isNamedEntity && patternExpressionCreatesVariable e context then true
    else false

/-- Embeds `subject->getType()` followed by a use of the type: a null type cannot
be used. -/
def subjectType (context : Context) (subject : Expression) : Result Ty :=
  match context.getType subject with
  | none => .error .nullDereference
  | some t => .ok t

/-- Embeds `SimplePattern::isMatchExhaustive`: the value returned and the coverage
the call leaves behind. A boolean literal that is not matched against a boolean
subject is not a named entity and falls through to `return false`. -/
def SimplePattern.isMatchExhaustive (expression : Expression) (subject : Expression)
    (coverage : MatchCoverage) (isMatchGuardPresent : Bool) (context : Context) :
    Result (Bool × MatchCoverage) :=
  match expression with
  | .Placeholder => .ok (!isMatchGuardPresent, coverage)
  | .BooleanLiteral value =>
    match subjectType context subject with
    | .error e => .error e
    | .ok t =>
      if t.isBoolean then
        let boolCaseName := if value == true then boolTrueCaseName else boolFalseCaseName
        if coverage.isCaseCovered boolCaseName then
          .error (.fatal "Pattern is unreachable.")
        else if !isMatchGuardPresent then
          let marked := coverage.markCaseAsCovered boolCaseName
          if marked.areAllCasesCovered then .ok (true, marked) else .ok (false, marked)
        else .ok (false, coverage)
      else .ok (false, coverage)
  | .NamedEntity identifier =>
    if !isMatchGuardPresent then
      if context.isReferencingName (.NamedEntity identifier) subject then .ok (true, coverage)
      else if patternExpressionCreatesVariable (.NamedEntity identifier) context then
        .ok (true, coverage)
      else .ok (false, coverage)
    else .ok (false, coverage)
  | _ => .ok (false, coverage)

/-- Embeds `ArrayPattern::isMatchExhaustive`, on the elements of the array literal. -/
def ArrayPattern.isMatchExhaustive (elements : List Expression) (_subject : Expression)
    (coverage : MatchCoverage) (isMatchGuardPresent : Bool) (_context : Context) :
    Result (Bool × MatchCoverage) :=
  match elements with
  | [element] =>
    if element.isWildcard then .ok (!isMatchGuardPresent, coverage) else .ok (false, coverage)
  | _ => .ok (false, coverage)

/-- Embeds `ClassDecompositionPattern::areAllMemberPatternsIrrefutable`. -/
def ClassDecompositionPattern.areAllMemberPatternsIrrefutable (members : List Member)
    (context : Context) : Bool :=
  match members with
  | [] => true
  | member :: rest =>
    if !memberPatternIsIrrefutable member.patternExpr context then false
    else areAllMemberPatternsIrrefutable rest context

/-- Embeds `ClassDecompositionPattern::isEnumMatchExhaustive`. -/
def ClassDecompositionPattern.isEnumMatchExhaustive (members : List Member)
    (enumVariantName : Identifier) (subject : Expression) (coverage : MatchCoverage)
    (isMatchGuardPresent : Bool) (patternType : Ty) (context : Context) :
    Result (Bool × MatchCoverage) :=
  match subjectType context subject with
  | .error e => .error e
  | .ok t =>
    match Ty.areEqualNoConstCheck context.externals t patternType false with
    | .error e => .error e
    | .ok false =>
      match patternType.toString, t.toString with
      | .ok shownPattern, .ok shownSubject =>
        .error (.fatal (((("Enum type in pattern must be the same as the match " ++
          "subject type. Pattern type: ") ++ shownPattern) ++
          ". Match subject type: ") ++ shownSubject))
      | .error e, _ => .error e
      | _, .error e => .error e
    | .ok true =>
      if coverage.isCaseCovered enumVariantName then
        .error (.fatal "Pattern is unreachable.")
      else if !isMatchGuardPresent && areAllMemberPatternsIrrefutable members context then
        let marked := coverage.markCaseAsCovered enumVariantName
        if marked.areAllCasesCovered then .ok (true, marked) else .ok (false, marked)
      else .ok (false, coverage)

/-- Embeds `ClassDecompositionPattern::isMatchExhaustive`, on the type, the enum
variant name and the members of the class decomposition expression. -/
def ClassDecompositionPattern.isMatchExhaustive (type : Ty) (enumVariantName : Identifier)
    (members : List Member) (subject : Expression) (coverage : MatchCoverage)
    (isMatchGuardPresent : Bool) (context : Context) : Result (Bool × MatchCoverage) :=
  match context.typeCheck (.ClassDecomposition type enumVariantName members) with
  | .error e => .error e
  | .ok classPatternType =>
    if enumVariantName != "" then
      isEnumMatchExhaustive members enumVariantName subject coverage isMatchGuardPresent
        classPatternType context
    else
      match subjectType context subject with
      | .error e => .error e
      | .ok t =>
        match Ty.areEqualNoConstCheck context.externals t classPatternType false with
        | .error e => .error e
        | .ok false => .ok (false, coverage)
        | .ok true =>
          if !isMatchGuardPresent && areAllMemberPatternsIrrefutable members context then
            .ok (true, coverage)
          else .ok (false, coverage)

/-- Embeds `TypedPattern::isMatchExhaustive`, on the target type and the result name
of the typed expression. -/
def TypedPattern.isMatchExhaustive (targetType : Ty) (resultName : Expression)
    (subject : Expression) (coverage : MatchCoverage) (isMatchGuardPresent : Bool)
    (context : Context) : Result (Bool × MatchCoverage) :=
  match context.typeCheck (.Typed targetType resultName) with
  | .error e => .error e
  | .ok checkedType =>
    match subjectType context subject with
    | .error e => .error e
    | .ok t =>
      match Ty.areEqualNoConstCheck context.externals t checkedType false with
      | .error e => .error e
      | .ok equal =>
        if equal && !isMatchGuardPresent then .ok (true, coverage) else .ok (false, coverage)

/-- The four concrete pattern kinds of `Pattern.h`, each holding the expression it
was created from. -/
inductive Pattern where
  | SimplePattern (expression : Expression)
  | ArrayPattern (elements : List Expression)
  | ClassDecompositionPattern (type : Ty) (enumVariantName : Identifier)
      (members : List Member)
  | TypedPattern (targetType : Ty) (resultName : Expression)

/-- The virtual call `pattern->isMatchExhaustive(subject, coverage,
isMatchGuardPresent, context)`. -/
def Pattern.isMatchExhaustive (pattern : Pattern) (subject : Expression)
    (coverage : MatchCoverage) (isMatchGuardPresent : Bool) (context : Context) :
    Result (Bool × MatchCoverage) :=
  match pattern with
  | .SimplePattern expression =>
    SimplePattern.isMatchExhaustive expression subject coverage isMatchGuardPresent context
  | .ArrayPattern elements =>
    ArrayPattern.isMatchExhaustive elements subject coverage isMatchGuardPresent context
  | .ClassDecompositionPattern type enumVariantName members =>
    ClassDecompositionPattern.isMatchExhaustive type enumVariantName members subject coverage
      isMatchGuardPresent context
  | .TypedPattern targetType resultName =>
    TypedPattern.isMatchExhaustive targetType resultName subject coverage isMatchGuardPresent
      context

/-- A match with several cases: the calls of `isMatchExhaustive` for the guard-free
patterns of the cases, in order, on the one coverage object of the match. The
result lists what each call returned and gives the coverage left at the end; the
first failing call ends the run. -/
def processCases (cases : List Pattern) (subject : Expression) (coverage : MatchCoverage)
    (context : Context) : Result (List Bool × MatchCoverage) :=
  match cases with
  | [] => .ok ([], coverage)
  | pattern :: rest =>
    match pattern.isMatchExhaustive subject coverage false context with
    | .error e => .error e
    | .ok (exhaustive, coverage1) =>
      match processCases rest subject coverage1 context with
      | .error e => .error e
      | .ok (results, coverage2) => .ok (exhaustive :: results, coverage2)

/-! ## Reachable type values -/

/-- Type values built by the constructors and `Type::create`, followed by any
sequence of `clone`, `setArray`, `setReference`, `setDefinition`,
`createArrayElementType` and `getConcreteTypeAssignedToGenericTypeParameter`. -/
inductive Ty.Reachable : Ty → Prop where
  | ofName (n : Identifier) : Ty.Reachable (Ty.ofName n)
  | ofBuiltIn (k : BuiltInType) : Ty.Reachable (Ty.ofBuiltIn k)
  | create (name : Identifier) : Ty.Reachable (Ty.create name)
  | createBuiltIn (k : BuiltInType) : Ty.Reachable (Ty.createBuiltIn k)
  | clone {t : Ty} : Ty.Reachable t → Ty.Reachable t.clone
  | setArray {t : Ty} (a : Bool) : Ty.Reachable t → Ty.Reachable (t.setArray a)
  | setReference {t : Ty} (r : Bool) : Ty.Reachable t → Ty.Reachable (t.setReference r)
  | setDefinition {t : Ty} (d : Definition) : Ty.Reachable t →
      Ty.Reachable (t.setDefinition d)
  | createArrayElementType {t e : Ty} : Ty.Reachable t →
      t.createArrayElementType = some e → Ty.Reachable e
  | getConcreteType {t c : Ty} : Ty.Reachable t →
      t.getConcreteTypeAssignedToGenericTypeParameter = .ok (some c) → Ty.Reachable c

/-- A definition that is the class of an enumeration variant. -/
def Definition.isEnumerationVariantClass : Definition → Bool
  | .Class classDef => classDef.isEnumerationVariant
  | _ => false

/-- The same sequences, where `setReference(false)` and `setDefinition` with the
class of an enumeration variant are applied to non-array types only. -/
inductive Ty.ReachableKeepingArrays : Ty → Prop where
  | ofName (n : Identifier) : Ty.ReachableKeepingArrays (Ty.ofName n)
  | ofBuiltIn (k : BuiltInType) : Ty.ReachableKeepingArrays (Ty.ofBuiltIn k)
  | create (name : Identifier) : Ty.ReachableKeepingArrays (Ty.create name)
  | createBuiltIn (k : BuiltInType) : Ty.ReachableKeepingArrays (Ty.createBuiltIn k)
  | clone {t : Ty} : Ty.ReachableKeepingArrays t → Ty.ReachableKeepingArrays t.clone
  | setArray {t : Ty} (a : Bool) : Ty.ReachableKeepingArrays t →
      Ty.ReachableKeepingArrays (t.setArray a)
  | setReference {t : Ty} (r : Bool) : Ty.ReachableKeepingArrays t →
      (r = true ∨ t.array = false) → Ty.ReachableKeepingArrays (t.setReference r)
  | setDefinition {t : Ty} (d : Definition) : Ty.ReachableKeepingArrays t →
      (d.isEnumerationVariantClass = false ∨ t.array = false) →
      Ty.ReachableKeepingArrays (t.setDefinition d)
  | createArrayElementType {t e : Ty} : Ty.ReachableKeepingArrays t →
      t.createArrayElementType = some e → Ty.ReachableKeepingArrays e
  | getConcreteType {t c : Ty} : Ty.ReachableKeepingArrays t →
      t.getConcreteTypeAssignedToGenericTypeParameter = .ok (some c) →
      Ty.ReachableKeepingArrays c

/-- Type values built by `Type::create` (either overload), followed by any
sequence of `clone`, `setArray` and `createArrayElementType`. -/
inductive Ty.ReachableByArrayOperations : Ty → Prop where
  | create (name : Identifier) : Ty.ReachableByArrayOperations (Ty.create name)
  | createBuiltIn (k : BuiltInType) : Ty.ReachableByArrayOperations (Ty.createBuiltIn k)
  | clone {t : Ty} : Ty.ReachableByArrayOperations t → Ty.ReachableByArrayOperations t.clone
  | setArray {t : Ty} (a : Bool) : Ty.ReachableByArrayOperations t →
      Ty.ReachableByArrayOperations (t.setArray a)
  | createArrayElementType {t e : Ty} : Ty.ReachableByArrayOperations t →
      t.createArrayElementType = some e → Ty.ReachableByArrayOperations e

/-- The primitive built-in kinds: `Byte`, `Char`, `Integer`, `Long`, `Float`,
`Boolean`. -/
def BuiltInType.isPrimitiveKind : BuiltInType → Bool
  | .Byte => true
  | .Char => true
  | .Integer => true
  | .Long => true
  | .Float => true
  | .Boolean => true
  | _ => false

/-- The names of the members of a class that are enum-constructor methods, in
member order: what the loop of `MatchCoverage::MatchCoverage` inserts. -/
def ClassDefinition.enumConstructorNames (classDef : ClassDefinition) : List Identifier :=
  classDef.members.filterMap fun member =>
    match member with
    | .Method name true _ => some name
    | _ => none

/-- A guard-free case of a match on a subject of type `t` for the enum variant
`variant`: a class decomposition pattern that carries the (non-empty) variant
name, whose checked type equals the subject type under
`areEqualNoConstCheck(.., .., false)`, and whose member sub-patterns are all
irrefutable. -/
def IsVariantCase (context : Context) (t : Ty) (pattern : Pattern) (variant : Identifier) :
    Prop :=
  variant ≠ "" ∧
  ∃ type members patternType,
    pattern = .ClassDecompositionPattern type variant members ∧
    context.typeCheck (.ClassDecomposition type variant members) = .ok patternType ∧
    Ty.areEqualNoConstCheck context.externals t patternType false = .ok true ∧
    ClassDecompositionPattern.areAllMemberPatternsIrrefutable members context = true

/-- Sample enumeration `E` with the variants `A` and `B(x)`. -/
def sampleEnumClass : ClassDefinition :=
  { name := "E", isEnumeration := true, isEnumerationVariant := false, isInterface := false,
    isMessage := false,
    members := [.Method "A" true 0, .DataMember "__tag", .Method "B" true 1,
      .Method "show" false 0],
    primaryCtorArgDataMembers := [] }

/-- The type of the sample enumeration, as `Type::create` and `setDefinition` build it. -/
def sampleEnumType : Ty := (Ty.create "E").setDefinition (.Class sampleEnumClass)

/-- Sample cases on the sample enumeration: `B(x: y)` then `A`. -/
def sampleEnumCases : List Pattern :=
  [.ClassDecompositionPattern (Ty.create "E") "B"
      [.mk (.NamedEntity "x") (some (.NamedEntity "y"))],
    .ClassDecompositionPattern (Ty.create "E") "A" []]

/-! ## Initialisation by an expression and common type (`Type.cpp` 635-692) -/

/-- Embeds `Type::isInitializableByExpression`; the type of the expression is read
through the context, and `Type::create(Type::Byte)` replaces it for an integer
literal below 256. -/
def Ty.isInitializableByExpression (context : Context) (left : Ty) (expression : Expression) :
    Result Bool :=
  match context.getType expression with
  | none => .ok false
  | some right =>
    let right1 :=
      match expression with
      | .IntegerLiteral value =>
        -- Implicitly convert to byte.
        if value < 256 then Ty.createBuiltIn .Byte else right
      | _ => right
    Ty.areInitializable context.externals left right1

/-- Embeds `Type::isAssignableByExpression`. -/
def Ty.isAssignableByExpression (context : Context) (left : Ty) (expression : Expression) :
    Result Bool :=
  if left.isConstant then .ok false else Ty.isInitializableByExpression context left expression

/-- The loop of `Type::calculateCommonType` over the type parameters of two
enumerations: `true` when it leaves through `return currentType`, `false` when
it runs to the end of the previous type's parameters. -/
def Ty.commonTypeLoop : List Ty → List Ty → Bool
  | previous :: previousRest, current :: currentRest =>
    if previous.isPlaceholder && !current.isPlaceholder then true
    else Ty.commonTypeLoop previousRest currentRest
  | _, _ => false

/-- Embeds `Type::calculateCommonType`, for a non-null `currentType`; `none` is the
null pointer, as argument and as result. -/
def Ty.calculateCommonType (ext : Externals) (previousType : Option Ty) (currentType : Ty) :
    Result (Option Ty) :=
  match previousType with
  | none => .ok (some currentType)
  | some previous =>
    if currentType.isNull && previous.isReference then .ok (some previous)
    else if previous.isNull && currentType.isReference then .ok (some currentType)
    else
      match Ty.areInitializable ext previous currentType with
      | .error e => .error e
      | .ok false => .ok none
      | .ok true =>
        if previous.isEnumeration && currentType.isEnumeration then
          if previous.genericTypeParameters.length != currentType.genericTypeParameters.length
          then .error .assertion
          else if Ty.commonTypeLoop previous.genericTypeParameters
              currentType.genericTypeParameters then .ok (some currentType)
          else .ok (some previous)
        else .ok (some previous)

/-- The common type as the specification words it: the reference side when the
other side is null; otherwise absent when `areInitializable(prev, cur)` is
false; otherwise `cur` when both are enumerations and at some position the
parameter of `prev` is a placeholder while that of `cur` is not; otherwise
`prev`. A failing `areInitializable` fails the whole. -/
def Ty.calculateCommonTypeSpec (ext : Externals) (prev cur : Ty) : Result (Option Ty) :=
  if cur.isNull && prev.isReference then .ok (some prev)
  else if prev.isNull && cur.isReference then .ok (some cur)
  else
    match Ty.areInitializable ext prev cur with
    | .error e => .error e
    | .ok false => .ok none
    | .ok true =>
      if prev.isEnumeration && cur.isEnumeration &&
          (List.zip prev.genericTypeParameters cur.genericTypeParameters).any
            (fun pair => pair.1.isPlaceholder && !pair.2.isPlaceholder)
      then .ok (some cur)
      else .ok (some prev)

mutual
/-- Every function type in the type, the type itself and recursively its generic
type parameters, carries a function signature. -/
def Ty.signaturesPresent : Ty → Bool
  | .mk b _ g _ f _ _ _ =>
    (if b == .Function then f.isSome else true) && Ty.signaturesPresentAll g
/-- Every type of the list has its function signatures present. -/
def Ty.signaturesPresentAll : List Ty → Bool
  | [] => true
  | t :: rest => Ty.signaturesPresent t && Ty.signaturesPresentAll rest
end

/-! ## Name bindings (`NameBindings.cpp`) -/

/-- Modelled from the spec: `VariableDeclaration` (its header is not among the
sources) as the core uses it, a type and the identifier that `getIdentifier()`
returns. -/
structure VariableDeclaration where
  type : Ty
  identifier : Identifier

/-- Modelled from the spec: `Binding::ReferencedEntity` of `NameBindings.h` (not
among the sources), the kinds of binding the spec lists and `NameBindings.cpp`
names. -/
inductive Binding.ReferencedEntity where
  | LocalObject | Class | Method | DataMember | GenericTypeParameter | Label
  deriving DecidableEq, Repr

/-- Binding of `NameBindings.h`: the data members that the constructors of
`NameBindings.cpp` initialise, in their order. `NameBindings.cpp` stores and
hands back the pointers to definitions and to method definitions without ever
looking at what they point to, so their pointees are the type parameters `δ`
and `μ`. -/
structure Binding (δ μ : Type) where
  referencedEntity : Binding.ReferencedEntity
  definition : Option δ
  localObject : Option VariableDeclaration
  methodList : List μ

namespace Binding

/-- Embeds `Binding::Binding(ReferencedEntity e)`. -/
def ofEntity {δ μ : Type} (e : Binding.ReferencedEntity) : Binding δ μ :=
  ⟨e, none, none, []⟩

/-- Embeds `Binding::Binding(ReferencedEntity e, VariableDeclaration* o)`. -/
def ofLocalObject {δ μ : Type} (e : Binding.ReferencedEntity) (o : VariableDeclaration) : Binding δ μ :=
  ⟨e, none, some o, []⟩

/-- Embeds `Binding::Binding(ReferencedEntity e, Definition* d)`. -/
def ofDefinition {δ μ : Type} (e : Binding.ReferencedEntity) (d : δ) : Binding δ μ :=
  ⟨e, some d, none, []⟩

/-- Embeds `Binding::Binding(ReferencedEntity e, MethodDefinition* d)`. -/
def ofMethod {δ μ : Type} (e : Binding.ReferencedEntity) (d : μ) : Binding δ μ :=
  ⟨e, none, none, [d]⟩

/-- Embeds `Binding::isReferencingType`. -/
def isReferencingType {δ μ : Type} (binding : Binding δ μ) : Bool :=
  match binding.referencedEntity with
  | .Class => true
  | .GenericTypeParameter => true
  | _ => false

end Binding

/-- Modelled from the spec: `BindingMap` of `NameBindings.h`, a map from
identifier to binding with one entry per key, as the list of its entries. The
map keeps its entries in key order; no operation of `NameBindings.cpp` depends
on that order, and the list keeps them in the order they were inserted. -/
abbrev BindingMap (δ μ : Type) := List (Identifier × Binding δ μ)

namespace BindingMap

/-- The map operation `bindings.find(name)`: the binding of the entry found, `none`
for `bindings.end()`. -/
def find {δ μ : Type} : BindingMap δ μ → Identifier → Option (Binding δ μ)
  | [], _ => none
  | (key, binding) :: rest, name => if key = name then some binding else find rest name

/-- The map operation `bindings.insert(make_pair(name, binding))`: the map after
the call and the `.second` of its result, `false` when the key is present
already, in which case the map is left as it is. -/
def insert {δ μ : Type} (bindings : BindingMap δ μ) (name : Identifier)
    (binding : Binding δ μ) : BindingMap δ μ × Bool :=
  match find bindings name with
  | some _ => (bindings, false)
  | none => (bindings ++ [(name, binding)], true)

/-- The map operation `bindings.erase(name)`. -/
def erase {δ μ : Type} (bindings : BindingMap δ μ) (name : Identifier) : BindingMap δ μ :=
  bindings.filter fun entry => entry.1 != name

end BindingMap

/-- NameBindings of `NameBindings.h`: the bindings of the scope and the pointer to
the enclosing scope, null for the outermost one. -/
inductive NameBindings (δ μ : Type) where
  | mk (bindings : BindingMap δ μ) (enclosing : Option (NameBindings δ μ))

namespace NameBindings

def bindings {δ μ : Type} : NameBindings δ μ → BindingMap δ μ
  | .mk b _ => b

def enclosing {δ μ : Type} : NameBindings δ μ → Option (NameBindings δ μ)
  | .mk _ e => e

/-- Embeds `NameBindings::NameBindings()`. -/
def empty {δ μ : Type} : NameBindings δ μ := .mk [] none

/-- Embeds `NameBindings::NameBindings(NameBindings* enc)`. -/
def withEnclosing {δ μ : Type} (enc : Option (NameBindings δ μ)) : NameBindings δ μ :=
  .mk [] enc

/-- Embeds `NameBindings::lookup`. -/
def lookup {δ μ : Type} : NameBindings δ μ → Identifier → Option (Binding δ μ)
  | .mk bindings enclosing, name =>
    match BindingMap.find bindings name with
    | none =>
      match enclosing with
      | some enc => lookup enc name
      | none => none
    | some binding => some binding

/-- Embeds `NameBindings::lookupType`. -/
def lookupType {δ μ : Type} : NameBindings δ μ → Identifier → Option δ
  | .mk bindings enclosing, name =>
    match BindingMap.find bindings name with
    | some binding =>
      if !binding.isReferencingType then
        match enclosing with
        | some enc => lookupType enc name
        | none => none
      else binding.definition
    | none =>
      match enclosing with
      | some enc => lookupType enc name
      | none => none

/-- Embeds `NameBindings::lookupLocal`. -/
def lookupLocal {δ μ : Type} (scope : NameBindings δ μ) (name : Identifier) :
    Option (Binding δ μ) :=
  BindingMap.find scope.bindings name

/-- The statement `return bindings.insert(make_pair(name, binding)).second;` that
ends the insert operations: the value returned and the scope after the call. -/
def insertBinding {δ μ : Type} (scope : NameBindings δ μ) (name : Identifier)
    (binding : Binding δ μ) : Bool × NameBindings δ μ :=
  ((BindingMap.insert scope.bindings name binding).2,
    .mk (BindingMap.insert scope.bindings name binding).1 scope.enclosing)

/-- Embeds `NameBindings::insertLocalObject`. -/
def insertLocalObject {δ μ : Type} (scope : NameBindings δ μ)
    (localObject : VariableDeclaration) : Bool × NameBindings δ μ :=
  insertBinding scope localObject.identifier (Binding.ofLocalObject .LocalObject localObject)

/-- Embeds `NameBindings::insertClass`. -/
def insertClass {δ μ : Type} (scope : NameBindings δ μ) (name : Identifier) (classDef : δ) :
    Bool × NameBindings δ μ :=
  insertBinding scope name (Binding.ofDefinition .Class classDef)

/-- Embeds `NameBindings::insertDataMember`. -/
def insertDataMember {δ μ : Type} (scope : NameBindings δ μ) (name : Identifier)
    (dataMemberDef : δ) : Bool × NameBindings δ μ :=
  insertBinding scope name (Binding.ofDefinition .DataMember dataMemberDef)

/-- Embeds `NameBindings::insertMethod`. -/
def insertMethod {δ μ : Type} (scope : NameBindings δ μ) (name : Identifier) (methodDef : μ) :
    Bool × NameBindings δ μ :=
  insertBinding scope name (Binding.ofMethod .Method methodDef)

/-- Embeds `NameBindings::insertGenericTypeParameter`. -/
def insertGenericTypeParameter {δ μ : Type} (scope : NameBindings δ μ) (name : Identifier)
    (genericTypeParameterDef : δ) : Bool × NameBindings δ μ :=
  insertBinding scope name (Binding.ofDefinition .GenericTypeParameter genericTypeParameterDef)

/-- The scopes of a chain from the current scope to the outermost one, each by its
own bindings. -/
def chain {δ μ : Type} : NameBindings δ μ → List (BindingMap δ μ)
  | .mk bindings enclosing =>
    match enclosing with
    | some enc => bindings :: chain enc
    | none => [bindings]

end NameBindings

/-- What an insert operation of a scope owes its caller, for the name and the
binding it is to add: it returns `true` exactly when the scope does not bind
the name locally; on `true` the scope then binds the name locally to that
binding; on `false` the scope is as it was. -/
def NameBindings.InsertsAs {δ μ : Type} (scope : NameBindings δ μ) (name : Identifier)
    (binding : Binding δ μ) (result : Bool × NameBindings δ μ) : Prop :=
  (result.1 = true ↔ scope.lookupLocal name = none) ∧
  (result.1 = true → result.2.lookupLocal name = some binding) ∧
  (result.1 = false → result.2 = scope)

/-- Sample chain of two scopes: a block that binds the locals `x` and `A`, inside a
class scope that binds the class `A`, the data member `x` and the method `f`. -/
def sampleScope : NameBindings String String :=
  .mk [("x", Binding.ofLocalObject .LocalObject ⟨Ty.create "int", "x"⟩),
      ("A", Binding.ofLocalObject .LocalObject ⟨Ty.create "bool", "A"⟩)]
    (some (.mk [("A", Binding.ofDefinition .Class "class A"),
      ("x", Binding.ofDefinition .DataMember "member x"),
      ("f", Binding.ofMethod .Method "method f")] none))

/-- Sample generic type `List<int>`. -/
def sampleListOfInt : Ty := (Ty.create "List").addGenericTypeParameter (Ty.create "int")

/-- Sample generic type `List<var int>`: its type parameter is not constant. -/
def sampleListOfVarInt : Ty :=
  (Ty.create "List").addGenericTypeParameter ((Ty.create "int").setConstant false)

/-! ## Name bindings: the remaining operations (`NameBindings.cpp` 33-78, 116-220) -/

/-- Embeds `Binding::Binding(const Binding& other)`. -/
def Binding.copy {δ μ : Type} (other : Binding δ μ) : Binding δ μ :=
  ⟨other.referencedEntity, other.definition, other.localObject, other.methodList⟩

/-- A change made to a binding through the pointer that `lookupLocal(name)`
returned: the entry found for the name holds the changed binding afterwards. -/
def BindingMap.modify {δ μ : Type} :
    BindingMap δ μ → Identifier → (Binding δ μ → Binding δ μ) → BindingMap δ μ
  | [], _, _ => []
  | (key, binding) :: rest, name, change =>
    if key = name then (key, change binding) :: rest
    else (key, binding) :: BindingMap.modify rest name change

/-- A map holds one entry per key. -/
def BindingMap.UniqueKeys {δ μ : Type} (bindings : BindingMap δ μ) : Prop :=
  (bindings.map Prod.fst).Nodup

namespace NameBindings

/-- Embeds `NameBindings::copyFrom`. -/
def copyFrom {δ μ : Type} (scope : NameBindings δ μ) (other : NameBindings δ μ) :
    NameBindings δ μ :=
  .mk (other.bindings.foldl
      (fun bindings entry => (BindingMap.insert bindings entry.1 (Binding.copy entry.2)).1)
      scope.bindings)
    scope.enclosing

/-- The `switch` of `NameBindings::use`: the kinds of binding that are imported. -/
def isUsable (entity : Binding.ReferencedEntity) : Bool :=
  match entity with
  | .Class => true
  | .Method => true
  | .DataMember => true
  | _ => false

/-- Embeds `NameBindings::use`. -/
def use {δ μ : Type} (scope : NameBindings δ μ) (usedNamespace : NameBindings δ μ) :
    NameBindings δ μ :=
  .mk (usedNamespace.bindings.foldl
      (fun bindings entry =>
        if isUsable entry.2.referencedEntity then
          (BindingMap.insert bindings entry.1 (Binding.copy entry.2)).1
        else bindings)
      scope.bindings)
    scope.enclosing

/-- The loop of `NameBindings::removeObsoleteLocalBindings` over the entries of the
map: the entries it leaves. A local object binding without a declaration cannot
be asked for its identifier. -/
def removeObsoleteLoop {δ μ : Type} : BindingMap δ μ → Result (BindingMap δ μ)
  | [] => .ok []
  | (nameInBindings, binding) :: rest =>
    if binding.referencedEntity = .LocalObject then
      match binding.localObject with
      | none => .error .nullDereference
      | some localObject =>
        if nameInBindings != localObject.identifier then removeObsoleteLoop rest
        else
          match removeObsoleteLoop rest with
          | .error e => .error e
          | .ok kept => .ok ((nameInBindings, binding) :: kept)
    else
      match removeObsoleteLoop rest with
      | .error e => .error e
      | .ok kept => .ok ((nameInBindings, binding) :: kept)

/-- Embeds `NameBindings::removeObsoleteLocalBindings`. -/
def removeObsoleteLocalBindings {δ μ : Type} (scope : NameBindings δ μ) :
    Result (NameBindings δ μ) :=
  match removeObsoleteLoop scope.bindings with
  | .error e => .error e
  | .ok kept => .ok (.mk kept scope.enclosing)

/-- Embeds `NameBindings::removeDataMember`. -/
def removeDataMember {δ μ : Type} (scope : NameBindings δ μ) (name : Identifier) :
    Bool × NameBindings δ μ :=
  match scope.lookupLocal name with
  | none => (false, scope)
  | some binding =>
    if binding.referencedEntity != .DataMember then (false, scope)
    else (true, .mk (BindingMap.erase scope.bindings name) scope.enclosing)

/-- Embeds `NameBindings::overloadMethod`. -/
def overloadMethod {δ μ : Type} (scope : NameBindings δ μ) (name : Identifier)
    (methodDef : μ) : Bool × NameBindings δ μ :=
  match scope.lookupLocal name with
  | none => scope.insertMethod name methodDef
  | some binding =>
    if binding.referencedEntity != .Method then (false, scope)
    else
      (true, .mk (BindingMap.modify scope.bindings name fun found =>
          { found with methodList := found.methodList ++ [methodDef] })
        scope.enclosing)

/-- Embeds `NameBindings::updateMethodName`. -/
def updateMethodName {δ μ : Type} (scope : NameBindings δ μ) (oldName newName : Identifier) :
    Bool × NameBindings δ μ :=
  match scope.lookupLocal oldName with
  | none => (false, scope)
  | some binding =>
    if binding.referencedEntity != .Method then (false, scope)
    else
      ((BindingMap.insert (BindingMap.erase scope.bindings oldName) newName binding).2,
        .mk (BindingMap.insert (BindingMap.erase scope.bindings oldName) newName binding).1
          scope.enclosing)

/-- Embeds `NameBindings::removeLastOverloadedMethod`. The list operation `pop_back`
requires a non-empty list. -/
def removeLastOverloadedMethod {δ μ : Type} (scope : NameBindings δ μ) (name : Identifier) :
    Result (Bool × NameBindings δ μ) :=
  match scope.lookupLocal name with
  | none => .ok (false, scope)
  | some binding =>
    if binding.referencedEntity != .Method then .ok (false, scope)
    else if binding.methodList.isEmpty then .error .assertion
    else
      .ok (true, .mk (BindingMap.modify scope.bindings name fun found =>
          { found with methodList := found.methodList.dropLast })
        scope.enclosing)

/-- Embeds `NameBindings::insertLabel`. -/
def insertLabel {δ μ : Type} (scope : NameBindings δ μ) (label : Identifier) :
    Bool × NameBindings δ μ :=
  match scope.lookup label with
  | some _ => (false, scope)
  | none =>
    (true, .mk (BindingMap.insert scope.bindings label (Binding.ofEntity .Label)).1
      scope.enclosing)

/-- Successive calls `overloadMethod(name, d)` for the definitions of a list, in
order, on one scope: what each call returned and the scope after the last. -/
def overloadMethods {δ μ : Type} (scope : NameBindings δ μ) (name : Identifier) :
    List μ → List Bool × NameBindings δ μ
  | [] => ([], scope)
  | methodDef :: rest =>
    ((scope.overloadMethod name methodDef).1 ::
        ((scope.overloadMethod name methodDef).2.overloadMethods name rest).1,
      ((scope.overloadMethod name methodDef).2.overloadMethods name rest).2)

end NameBindings

/-- Sample class scope with the overloaded method `f`, the method `g` and the data
member `x`. -/
def sampleScopeOfMethods : NameBindings String String :=
  .mk [("f", ⟨.Method, none, none, ["f(int)", "f(bool)"]⟩),
    ("g", ⟨.Method, none, none, ["g()"]⟩),
    ("x", Binding.ofDefinition .DataMember "member x")] none

/-- A binding is kept by `removeObsoleteLocalBindings` under its key when it is not
a local object binding, or its declaration carries the key as identifier. -/
def Binding.isCurrentUnder {δ μ : Type} (key : Identifier) (binding : Binding δ μ) : Prop :=
  binding.referencedEntity ≠ .LocalObject ∨
    ∃ declaration, binding.localObject = some declaration ∧ key = declaration.identifier

/-- Sample block scope after the declaration bound as `x` was renamed `x_1`: the
key `x` is obsolete, the local `y` and the label `done` are current. -/
def sampleScopeAfterRename : NameBindings String String :=
  .mk [("x", Binding.ofLocalObject .LocalObject ⟨Ty.create "int", "x_1"⟩),
    ("y", Binding.ofLocalObject .LocalObject ⟨Ty.create "int", "y"⟩),
    ("done", Binding.ofEntity .Label)] none

/-- Coverage after `markCaseAsCovered` for each name of a list, in order. -/
def MatchCoverage.markCasesAsCovered (coverage : MatchCoverage) :
    List Identifier → MatchCoverage
  | [] => coverage
  | caseName :: rest => (coverage.markCaseAsCovered caseName).markCasesAsCovered rest

/-! ## Constructor calls rewritten as class decompositions (`Pattern.cpp` 46-177, 225-239) -/

/-- Modelled from the spec: the `MethodDefinition` of an enum constructor as the
rewrite reads it (`Definition.h` is not among the sources): `getName()`, the
size of `getArgumentList()`, the name of `getClass()`, and the names of the
primary constructor data members of the nested variant class
`getClass()->getNestedClass(Symbol::makeEnumVariantClassName(name))`, `none`
when there is no such nested class. -/
structure EnumConstructor where
  name : Identifier
  argumentCount : Nat
  enumName : Identifier
  variantDataMembers : Option (List Identifier)

/-- The `MethodCallExpression` that `getConstructorCall` hands to the rewrite, as
the rewrite reads it: `getName()`, `getArguments()` and
`getEnumCtorMethodDefinition()`, null for a call that is not an enum
constructor call. -/
structure ConstructorCall where
  name : Identifier
  arguments : List Expression
  enumCtorMethodDefinition : Option EnumConstructor

/-- Modelled from the spec: the name resolution of `Expression.cpp` (not among the
sources) that `getConstructorCall` calls:
`MethodCallExpression::tryResolveEnumConstructor(context)` followed by
`getEnumCtorMethodDefinition()`, on the name and arguments of the call;
`NamedEntityExpression::getCall(context, true)` on the identifier; and
`MemberSelectorExpression::getRhsCall(context)` on the two sides of the
selector. The last two return null for an expression that is not a call. -/
structure CallResolution where
  tryResolveEnumConstructor : Identifier → List Expression → Option EnumConstructor
  getCall : Identifier → Option ConstructorCall
  getRhsCall : Expression → Expression → Option ConstructorCall

/-- A `ClassDecompositionExpression` by its parts: the type, the enum variant name
(empty when there is none) and the members in the order of `addMember`. -/
structure ClassDecompositionExpression where
  type : Ty
  enumVariantName : Identifier
  members : List Member

/-- The expression node of a class decomposition. -/
def ClassDecompositionExpression.toExpression (e : ClassDecompositionExpression) : Expression :=
  .ClassDecomposition e.type e.enumVariantName e.members

/-- Modelled from the spec: `Symbol::makeEnumVariantDataName` (its code is not among
the sources), the name `__<VariantName>_data` of the data field of a variant. -/
def Symbol.makeEnumVariantDataName (enumVariantName : Identifier) : Identifier :=
  ("__" ++ enumVariantName) ++ "_data"

/-- Embeds `getConstructorCall`. -/
def getConstructorCall (resolution : CallResolution) (e : Expression) : Option ConstructorCall :=
  match e with
  | .MethodCall name arguments =>
    some ⟨name, arguments, resolution.tryResolveEnumConstructor name arguments⟩
  | .NamedEntity identifier => resolution.getCall identifier
  | .MemberSelector left right => resolution.getRhsCall left right
  | _ => none

/-- The body of the two loops over the pattern arguments: an argument that is a
constructor call is replaced by its rewrite (the recursive call of
`createClassDecompositionExpr`, here `rewrite`), any other argument is kept.
`none` stands for a rewrite that has not returned. -/
def rewriteArgument (resolution : CallResolution)
    (rewrite : ConstructorCall → Option (Result ClassDecompositionExpression))
    (patternExpr : Expression) : Option (Result Expression) :=
  match getConstructorCall resolution patternExpr with
  | some constructorCall =>
    match rewrite constructorCall with
    | none => none
    | some (.error e) => some (.error e)
    | some (.ok decomposition) => some (.ok decomposition.toExpression)
  | none => some (.ok patternExpr)

/-- The loop of `createClassDecompositionFromConstructorCall` and of
`createClassDecompositionFromEnumCtorCall`: the data members (`j`) and the
pattern arguments (`i`) are walked together until the arguments end, and each
step adds the member made by `memberName` from the data member, with the
rewritten argument as its pattern. -/
def decompositionMembersLoop (resolution : CallResolution)
    (rewrite : ConstructorCall → Option (Result ClassDecompositionExpression))
    (memberName : Identifier → Expression) :
    List Identifier → List Expression → Option (Result (List Member))
  | _, [] => some (.ok [])
  | [], _ :: _ => some (.error .nullDereference)
  | dataMember :: dataMembers, patternExpr :: patternArgs =>
    match rewriteArgument resolution rewrite patternExpr with
    | none => none
    | some (.error e) => some (.error e)
    | some (.ok rewritten) =>
      match decompositionMembersLoop resolution rewrite memberName dataMembers patternArgs with
      | none => none
      | some (.error e) => some (.error e)
      | some (.ok members) => some (.ok (.mk (memberName dataMember) (some rewritten) :: members))

/-- Embeds `createClassDecompositionFromConstructorCall`, with the recursive call of
`createClassDecompositionExpr` as `rewrite`. -/
def createClassDecompositionFromConstructorCall (context : Context)
    (resolution : CallResolution)
    (rewrite : ConstructorCall → Option (Result ClassDecompositionExpression))
    (constructorCall : ConstructorCall) : Option (Result ClassDecompositionExpression) :=
  match context.typeCheck (.ClassDecomposition (Ty.create constructorCall.name) "" []) with
  | .error e => some (.error e)
  | .ok type =>
    match type.definition with
    | none => some (.error .nullDereference)
    | some (.Class classDef) =>
      if classDef.primaryCtorArgDataMembers.length != constructorCall.arguments.length then
        some (.error (.fatal "Wrong number of arguments in constructor pattern."))
      else
        match decompositionMembersLoop resolution rewrite (fun name => .NamedEntity name)
            classDef.primaryCtorArgDataMembers constructorCall.arguments with
        | none => none
        | some (.error e) => some (.error e)
        | some (.ok members) => some (.ok ⟨Ty.create constructorCall.name, "", members⟩)
    | some _ => some (.error .assertion)

/-- Embeds `createClassDecompositionFromEnumCtorCall`, with the recursive call of
`createClassDecompositionExpr` as `rewrite`. -/
def createClassDecompositionFromEnumCtorCall (context : Context)
    (resolution : CallResolution)
    (rewrite : ConstructorCall → Option (Result ClassDecompositionExpression))
    (enumConstructorCall : ConstructorCall) (enumConstructor : EnumConstructor) :
    Option (Result ClassDecompositionExpression) :=
  match context.typeCheck
      (.ClassDecomposition (Ty.create enumConstructor.enumName) enumConstructor.name []) with
  | .error e => some (.error e)
  | .ok _ =>
    if enumConstructor.argumentCount != enumConstructorCall.arguments.length then
      some (.error (.fatal "Wrong number of arguments in enum constructor pattern."))
    else if enumConstructorCall.arguments.isEmpty then
      some (.ok ⟨Ty.create enumConstructor.enumName, enumConstructor.name, []⟩)
    else
      match enumConstructor.variantDataMembers with
      | none => some (.error .nullDereference)
      | some variantDataMembers =>
        if variantDataMembers.length != enumConstructorCall.arguments.length then
          some (.error .assertion)
        else
          match decompositionMembersLoop resolution rewrite
              (fun name =>
                .MemberSelector
                  (.NamedEntity (Symbol.makeEnumVariantDataName enumConstructor.name))
                  (.NamedEntity name))
              variantDataMembers enumConstructorCall.arguments with
          | none => none
          | some (.error e) => some (.error e)
          | some (.ok members) =>
            some (.ok ⟨Ty.create enumConstructor.enumName, enumConstructor.name, members⟩)

/-- Embeds `createClassDecompositionExpr`. The recursion follows the calls that the
name resolution returns for the arguments; `fuel` bounds its depth, and `none`
is the answer of a run that needs more. -/
def createClassDecompositionExpr (context : Context) (resolution : CallResolution) :
    Nat → ConstructorCall → Option (Result ClassDecompositionExpression)
  | 0, _ => none
  | fuel + 1, constructorCall =>
    match constructorCall.enumCtorMethodDefinition with
    | some enumConstructor =>
      createClassDecompositionFromEnumCtorCall context resolution
        (createClassDecompositionExpr context resolution fuel) constructorCall enumConstructor
    | none =>
      createClassDecompositionFromConstructorCall context resolution
        (createClassDecompositionExpr context resolution fuel) constructorCall

/-- Embeds `Pattern::create`; `fuel` bounds the depth of the rewrite of a
constructor call. -/
def Pattern.create (context : Context) (resolution : CallResolution) (fuel : Nat)
    (e : Expression) : Option (Result Pattern) :=
  match e with
  | .ArrayLiteral elements => some (.ok (.ArrayPattern elements))
  | .Typed targetType resultName => some (.ok (.TypedPattern targetType resultName))
  | .ClassDecomposition type enumVariantName members =>
    some (.ok (.ClassDecompositionPattern type enumVariantName members))
  | _ =>
    match getConstructorCall resolution e with
    | some constructorCall =>
      match createClassDecompositionExpr context resolution fuel constructorCall with
      | none => none
      | some (.error failure) => some (.error failure)
      | some (.ok decomposition) =>
        some (.ok (.ClassDecompositionPattern decomposition.type decomposition.enumVariantName
          decomposition.members))
    | none => some (.ok (.SimplePattern e))

/-- Context of the sample rewrites: the classes `Point(x, y)` and `Box(content)`;
type checking a decomposition of a type gives the type with its class, and
fails on an unknown type. -/
def sampleClassContext : Context :=
  { externals := ⟨fun _ _ => true, fun _ _ => false⟩
    getType := fun _ => none
    typeCheck := fun e =>
      match e with
      | .ClassDecomposition type _ _ =>
        if type.name = "Point" then
          .ok (type.setDefinition (.Class ⟨"Point", false, false, false, false, [], ["x", "y"]⟩))
        else if type.name = "Box" then
          .ok (type.setDefinition (.Class ⟨"Box", false, false, false, false, [], ["content"]⟩))
        else .error (.fatal "Unknown type.")
      | _ => .error (.fatal "Unknown type.")
    isReferencingStaticDataMember := fun _ => false
    isReferencingName := fun _ _ => false
    generateVariableName := fun _ => "m" }

/-- Resolution of the sample rewrites: no call is an enum constructor call, no name
and no member selector is a call. -/
def sampleResolution : CallResolution :=
  ⟨fun _ _ => none, fun _ => none, fun _ _ => none⟩

/-! ## Lowering of patterns to comparisons (`Pattern.cpp` 37-44, 349-517, 602-765, 791-831) -/

/-- A `VariableDeclarationStatement` as
`VariableDeclarationStatement::create(type, identifier, initExpression, location)`
leaves it (`Statement.h` 45-49, 111-113): the declaration and the init
expression, null for a variable that is not initialised. -/
structure VariableDeclarationStatement where
  declaration : VariableDeclaration
  initExpression : Option Expression

/-- The call `VariableDeclarationStatement::create(type, identifier, initExpression,
location)`. -/
def VariableDeclarationStatement.create (type : Ty) (identifier : Identifier)
    (initExpression : Option Expression) : VariableDeclarationStatement :=
  ⟨⟨type, identifier⟩, initExpression⟩

/-- The two lists that every `Pattern` owns (`Pattern.cpp` 214): `declarations`
and `temporaries`, in the order of `push_back`. -/
structure PatternLists where
  declarations : List VariableDeclarationStatement
  temporaries : List VariableDeclarationStatement

/-- The lists of a pattern that has just been constructed. -/
def PatternLists.empty : PatternLists := ⟨[], []⟩

/-- Modelled from the spec: `Pattern::cloneVariableDeclarations(from)` calls
`Utils::cloneList`, which is not among the sources; the lists of `from` are
merged into the own lists, after what they already hold. -/
def PatternLists.cloneVariableDeclarations (lists other : PatternLists) : PatternLists :=
  ⟨lists.declarations ++ other.declarations, lists.temporaries ++ other.temporaries⟩

def matchSubjectLengthName : Identifier := "__match_subject_length"

/-- Modelled from the spec: `CommonNames::enumTagVariableName` (its table is not
among the sources), the tag field `__tag` of an enum subject. -/
def CommonNames.enumTagVariableName : Identifier := "__tag"

/-- Modelled from the spec: `Symbol::makeEnumVariantTagName` (its code is not among
the sources), the name `__<VariantName>_tag` of the tag constant of a variant. -/
def Symbol.makeEnumVariantTagName (enumVariantName : Identifier) : Identifier :=
  ("__" ++ enumVariantName) ++ "_tag"

/-- Modelled from the spec: `Expression::transform(context)` of `Expression.cpp`
(not among the sources), which `generateMemberComparisonExpression` applies to
the member selector of a nested decomposition in a scratch copy of the context
before type checking it there; it may be fatal. -/
structure SelectorAnalysis where
  transform : Expression → Result Expression

/-- Embeds `generateMatchSubjectMemberSelector`. -/
def generateMatchSubjectMemberSelector (subject : Expression) (memberName : Expression) :
    Expression :=
  .MemberSelector subject memberName

/-! ### Array patterns -/

/-- The loop of `ArrayPattern::generateLengthComparisonExpression`, from the values
of `numberOfElements` and `wildcardPresent` on entry. The count stays far below
the range of `int` for an array literal that fits in memory. -/
def ArrayPattern.lengthLoop : List Expression → Int → Bool → Result (Int × Bool)
  | [], numberOfElements, wildcardPresent => .ok (numberOfElements, wildcardPresent)
  | element :: rest, numberOfElements, wildcardPresent =>
    if element.isWildcard then
      if wildcardPresent then
        .error (.fatal "Wilcard \x27..\x27 can only be present once in an array pattern.")
      else lengthLoop rest numberOfElements true
    else lengthLoop rest (numberOfElements + 1) wildcardPresent

/-- Embeds `ArrayPattern::generateLengthComparisonExpression`, on the elements of
the array literal. -/
def ArrayPattern.generateLengthComparisonExpression (elements : List Expression) :
    Result Expression :=
  match ArrayPattern.lengthLoop elements 0 false with
  | .error e => .error e
  | .ok (numberOfElements, wildcardPresent) =>
    let op := if wildcardPresent then Operator.GreaterOrEqual else Operator.Equal
    .ok (.Binary op (.NamedEntity matchSubjectLengthName) (.IntegerLiteral numberOfElements))

/-- An iterator `i` into the elements of the array literal that can be
dereferenced: the elements before it, the element `*i`, and the elements after
it. -/
structure ElementIterator where
  before : List Expression
  element : Expression
  after : List Expression

/-- The elements the iterator walks. -/
def ElementIterator.elements (i : ElementIterator) : List Expression :=
  i.before ++ i.element :: i.after

/-- Embeds `ArrayPattern::generateArraySubscriptExpression`:
`std::distance(elements.begin(), i)` is the number of elements before `i` and
`std::distance(i, elements.end())` the number of elements from `i` on; both
stay far below the range of `int`. -/
def ArrayPattern.generateArraySubscriptExpression (subject : Expression) (i : ElementIterator)
    (toTheRightOfWildcard : Bool) : Expression :=
  let indexExpression : Expression :=
    if toTheRightOfWildcard then
      let reverseIndex : Int := ((i.after.length + 1 : Nat) : Int)
      .Binary .Subtraction (.NamedEntity matchSubjectLengthName) (.IntegerLiteral reverseIndex)
    else
      .IntegerLiteral ((i.before.length : Nat) : Int)
  .ArraySubscript subject indexExpression

/-- Embeds `ArrayPattern::generateNamedEntityElementComparisonExpression`, for the
named entity `identifier` at `i`: the comparison, null for none, and the lists
of the pattern after the call. -/
def ArrayPattern.generateNamedEntityElementComparisonExpression (subject : Expression)
    (i : ElementIterator) (identifier : Identifier) (context : Context)
    (toTheRightOfWildcard : Bool) (lists : PatternLists) : Option Expression × PatternLists :=
  if patternExpressionCreatesVariable i.element context then
    let matchSubjectElementExpression :=
      ArrayPattern.generateArraySubscriptExpression subject i toTheRightOfWildcard
    (none,
      { lists with
        declarations := lists.declarations ++
          [VariableDeclarationStatement.create (Ty.createBuiltIn .Implicit) identifier
            (some matchSubjectElementExpression)] })
  else
    (some (.Binary .Equal
      (ArrayPattern.generateArraySubscriptExpression subject i toTheRightOfWildcard) i.element),
      lists)

/-- Embeds `ArrayPattern::generateElementComparisonExpression`. -/
def ArrayPattern.generateElementComparisonExpression (subject : Expression)
    (i : ElementIterator) (context : Context) (toTheRightOfWildcard : Bool)
    (lists : PatternLists) : Option Expression × PatternLists :=
  match i.element with
  | .NamedEntity identifier =>
    ArrayPattern.generateNamedEntityElementComparisonExpression subject i identifier context
      toTheRightOfWildcard lists
  | .Placeholder => (none, lists)
  | .Wildcard => (none, lists)
  | _ =>
    (some (.Binary .Equal
      (ArrayPattern.generateArraySubscriptExpression subject i toTheRightOfWildcard) i.element),
      lists)

/-- The loop of `ArrayPattern::generateComparisonExpression`, with the iterator at
the first of `remaining`, after the elements `before`. -/
def ArrayPattern.elementsLoop (subject : Expression) (context : Context) :
    List Expression → List Expression → Bool → Expression → PatternLists →
      Expression × PatternLists
  | _, [], _, comparison, lists => (comparison, lists)
  | before, element :: after, toTheRightOfWildcard, comparison, lists =>
    let step := ArrayPattern.generateElementComparisonExpression subject
      ⟨before, element, after⟩ context toTheRightOfWildcard lists
    let comparison1 : Expression :=
      match step.1 with
      | some elementComparison => .Binary .LogicalAnd comparison elementComparison
      | none => comparison
    ArrayPattern.elementsLoop subject context (before ++ [element]) after
      (if element.isWildcard then true else toTheRightOfWildcard) comparison1 step.2

/-- Embeds `ArrayPattern::generateComparisonExpression`, on the elements of the
array literal: the comparison and the lists of the pattern after the call. -/
def ArrayPattern.generateComparisonExpression (elements : List Expression)
    (subject : Expression) (context : Context) (lists : PatternLists) :
    Result (Expression × PatternLists) :=
  match ArrayPattern.generateLengthComparisonExpression elements with
  | .error e => .error e
  | .ok comparison =>
    .ok (ArrayPattern.elementsLoop subject context [] elements false comparison lists)

/-- Modelled from the spec: `BuiltInTypes::arrayLengthMethodName` (its table is not
among the sources), the method `length` of an array. -/
def BuiltInTypes.arrayLengthMethodName : Identifier := "length"

/-- Embeds `ArrayPattern::generateMatchSubjectLengthDeclaration`. -/
def ArrayPattern.generateMatchSubjectLengthDeclaration (subject : Expression) :
    VariableDeclarationStatement :=
  let arrayLengthSelector : Expression :=
    .MemberSelector subject (.NamedEntity BuiltInTypes.arrayLengthMethodName)
  VariableDeclarationStatement.create (Ty.createBuiltIn .Integer) matchSubjectLengthName
    (some arrayLengthSelector)

/-! ### Typed patterns -/

/-- The temporary that receives the cast subject, of `TypedPattern` and of
`ClassDecompositionPattern`: its name `__<name of the type>_<mangled subject>`. -/
def castedSubjectName (type : Ty) (subject : Expression) (context : Context) : Identifier :=
  (("__" ++ type.name) ++ "_") ++ context.generateVariableName subject

/-- The test `(castedSubject = (castedSubjectType)(subject)) != null` that
`TypedPattern` and `ClassDecompositionPattern` build. -/
def castComparison (castedSubjectType : Ty) (name : Identifier) (subject : Expression) :
    Expression :=
  .Binary .NotEqual
    (.Binary .AssignmentExpression (.LocalVariable castedSubjectType name)
      (.TypeCast castedSubjectType subject))
    .Null

/-- Embeds `TypedPattern::generateComparisonExpression`, on the target type and the
result name of the typed expression; `typedExpression->getType()` is the type
that type checking has left on the expression. -/
def TypedPattern.generateComparisonExpression (targetType : Ty) (resultName : Expression)
    (subject : Expression) (context : Context) (lists : PatternLists) :
    Result (Expression × PatternLists) :=
  match context.getType (.Typed targetType resultName) with
  | none => .error .nullDereference
  | some checkedType =>
    let name := castedSubjectName checkedType subject context
    let castedSubjectType := (checkedType.clone).setConstant false
    let temporaries := lists.temporaries ++
      [VariableDeclarationStatement.create castedSubjectType name none]
    let castedSubject : Expression := .LocalVariable castedSubjectType name
    let declarations :=
      match resultName with
      | .NamedEntity identifier =>
        lists.declarations ++
          [VariableDeclarationStatement.create (Ty.createBuiltIn .Implicit) identifier
            (some castedSubject)]
      | _ => lists.declarations
    .ok (castComparison castedSubjectType name subject, ⟨declarations, temporaries⟩)

/-! ### Class decomposition patterns -/

/-- Embeds `ClassDecompositionPattern::generateEnumVariantTagComparisonExpression`. -/
def ClassDecompositionPattern.generateEnumVariantTagComparisonExpression (context : Context)
    (subject : Expression) (enumVariantName : Identifier) : Result Expression :=
  match subjectType context subject with
  | .error e => .error e
  | .ok type =>
    let enumName := type.getFullConstructedName
    let tagMember : Expression :=
      .MemberSelector subject (.NamedEntity CommonNames.enumTagVariableName)
    let tagConstant : Expression :=
      .MemberSelector (.NamedEntity enumName)
        (.NamedEntity (Symbol.makeEnumVariantTagName enumVariantName))
    .ok (.Binary .Equal tagMember tagConstant)

/-- Embeds `ClassDecompositionPattern::generateTypeComparisonExpression`, on the
parts of the class decomposition expression: the comparison, null for none; the
subject that `*subject` holds after the call; and the lists of the pattern. -/
def ClassDecompositionPattern.generateTypeComparisonExpression (context : Context)
    (type : Ty) (enumVariantName : Identifier) (members : List Member)
    (originalSubject : Expression) (lists : PatternLists) :
    Result (Option Expression × Expression × PatternLists) :=
  if enumVariantName != "" then
    match generateEnumVariantTagComparisonExpression context originalSubject
        enumVariantName with
    | .error e => .error e
    | .ok comparison => .ok (some comparison, originalSubject, lists)
  else
    match context.getType (.ClassDecomposition type enumVariantName members),
        context.getType originalSubject with
    | some classDecompositionType, some originalSubjectType =>
      match Ty.areEqualNoConstCheck context.externals originalSubjectType
          classDecompositionType false with
      | .error e => .error e
      | .ok true => .ok (none, originalSubject, lists)
      | .ok false =>
        let name := castedSubjectName classDecompositionType originalSubject context
        let castedSubjectType := (classDecompositionType.clone).setConstant false
        let temporaries := lists.temporaries ++
          [VariableDeclarationStatement.create castedSubjectType name none]
        let castedSubject : Expression := .LocalVariable castedSubjectType name
        .ok (some (castComparison castedSubjectType name originalSubject), castedSubject,
          { lists with temporaries := temporaries })
    | _, _ => .error .nullDereference

/-- Embeds `ClassDecompositionPattern::generateVariableCreatedByMemberPattern`: the
lists of the pattern after the call. -/
def ClassDecompositionPattern.generateVariableCreatedByMemberPattern (member : Member)
    (subject : Expression) (context : Context) (lists : PatternLists) : PatternLists :=
  let patternVar : Option Identifier :=
    match member.patternExpr with
    | none =>
      match member.nameExpr with
      | .NamedEntity identifier => some identifier
      | _ => none
    | some (.NamedEntity identifier) =>
      if !patternExpressionCreatesVariable (.NamedEntity identifier) context then none
      else some identifier
    | some _ => none
  match patternVar with
  | some identifier =>
    { lists with
      declarations := lists.declarations ++
        [VariableDeclarationStatement.create (Ty.createBuiltIn .Implicit) identifier
          (some (generateMatchSubjectMemberSelector subject member.nameExpr))] }
  | none => lists

/-- The conjunction of the loop of `generateComparisonExpression`: the member
comparison alone while there is no comparison yet, `comparison && member`
afterwards. A null member comparison (a nested decomposition that needs no
test) leaves a null comparison null; as the right operand of a conjunction it
gives a node with a null operand, which is no expression of this embedding:
the run ends there as a null dereference, which is what the first walk of that
node is. -/
def ClassDecompositionPattern.conjoin (comparison memberComparison : Option Expression) :
    Result (Option Expression) :=
  match comparison, memberComparison with
  | none, memberComparison => .ok memberComparison
  | some comparison, some memberComparison =>
    .ok (some (.Binary .LogicalAnd comparison memberComparison))
  | some _, none => .error .nullDereference

mutual
/-- The loop of `ClassDecompositionPattern::generateComparisonExpression` over the
members, from the comparison and the (effective) subject that
`generateTypeComparisonExpression` has left. -/
def ClassDecompositionPattern.membersLoop (context : Context) (analysis : SelectorAnalysis) :
    List Member → Expression → Option Expression → PatternLists →
      Result (Option Expression × PatternLists)
  | [], _, comparison, lists => .ok (comparison, lists)
  | member :: rest, subject, comparison, lists =>
    if memberPatternIsIrrefutable member.patternExpr context then
      ClassDecompositionPattern.membersLoop context analysis rest subject comparison
        (ClassDecompositionPattern.generateVariableCreatedByMemberPattern member subject
          context lists)
    else
      match ClassDecompositionPattern.generateMemberComparisonExpression context analysis
          member subject lists with
      | .error e => .error e
      | .ok (memberComparison, lists1) =>
        match ClassDecompositionPattern.conjoin comparison memberComparison with
        | .error e => .error e
        | .ok comparison1 =>
          ClassDecompositionPattern.membersLoop context analysis rest subject comparison1
            lists1
/-- Embeds `ClassDecompositionPattern::generateMemberComparisonExpression`. For a
nested class decomposition the call of `generateComparisonExpression` on the new
pattern is unfolded in place: `generateTypeComparisonExpression`, then the loop
over its members, both on the fresh lists of the new pattern. -/
def ClassDecompositionPattern.generateMemberComparisonExpression (context : Context)
    (analysis : SelectorAnalysis) :
    Member → Expression → PatternLists → Result (Option Expression × PatternLists)
  | .mk _ none, _, _ => .error .nullDereference
  | .mk nameExpr (some (.ClassDecomposition type enumVariantName members)), subject, lists =>
    match analysis.transform (generateMatchSubjectMemberSelector subject nameExpr) with
    | .error e => .error e
    | .ok subjectMemberSelector =>
      match context.typeCheck subjectMemberSelector with
      | .error e => .error e
      | .ok _ =>
        match ClassDecompositionPattern.generateTypeComparisonExpression context type
            enumVariantName members subjectMemberSelector PatternLists.empty with
        | .error e => .error e
        | .ok (comparison, effectiveSubject, nestedLists) =>
          match ClassDecompositionPattern.membersLoop context analysis members
              effectiveSubject comparison nestedLists with
          | .error e => .error e
          | .ok (comparisonExpression, nestedLists1) =>
            .ok (comparisonExpression, lists.cloneVariableDeclarations nestedLists1)
  | .mk nameExpr (some patternExpr), subject, lists =>
    .ok (some (.Binary .Equal (generateMatchSubjectMemberSelector subject nameExpr)
      patternExpr), lists)
end

/-- Embeds `ClassDecompositionPattern::generateComparisonExpression`, on the parts
of the class decomposition expression: the comparison, null for none, and the
lists of the pattern after the call. -/
def ClassDecompositionPattern.generateComparisonExpression (context : Context)
    (analysis : SelectorAnalysis) (type : Ty) (enumVariantName : Identifier)
    (members : List Member) (subject : Expression) (lists : PatternLists) :
    Result (Option Expression × PatternLists) :=
  match ClassDecompositionPattern.generateTypeComparisonExpression context type
      enumVariantName members subject lists with
  | .error e => .error e
  | .ok (comparison, effectiveSubject, lists1) =>
    ClassDecompositionPattern.membersLoop context analysis members effectiveSubject comparison
      lists1

/-! ## Types without placeholders -/

mutual
/-- The type contains no placeholder: it is not of kind `Placeholder`, and neither
is any of its generic type parameters, recursively. -/
def Ty.hasNoPlaceholder : Ty → Bool
  | .mk b _ g _ _ _ _ _ => b != .Placeholder && Ty.hasNoPlaceholderAll g
/-- No type of the list contains a placeholder. -/
def Ty.hasNoPlaceholderAll : List Ty → Bool
  | [] => true
  | t :: rest => Ty.hasNoPlaceholder t && Ty.hasNoPlaceholderAll rest
end

/-! ## The lowering as the specification words it -/

/-- The subscript index of the element at position `p` of an array pattern, as the
specification words it: the literal `p` when no wildcard stands before the
position, `__match_subject_length - (n - p)` when one does, `n` being the
number of elements. -/
def ArrayPattern.indexAt (elements : List Expression) (p : Nat) : Expression :=
  if (elements.take p).any Expression.isWildcard then
    .Binary .Subtraction (.NamedEntity matchSubjectLengthName)
      (.IntegerLiteral ((elements.length - p : Nat) : Int))
  else .IntegerLiteral ((p : Nat) : Int)

/-- What the element at position `p` of an array pattern contributes, as the
specification words it: the conjunct and the declaration, each absent for
none. A wildcard or placeholder contributes nothing, a named entity that
introduces a binding the declaration `var name = subject[index]`, any other
element the conjunct `subject[index] == element`. -/
def ArrayPattern.contributionAt (context : Context) (subject : Expression)
    (elements : List Expression) (p : Nat) (element : Expression) :
    Option Expression × Option VariableDeclarationStatement :=
  let subscript : Expression := .ArraySubscript subject (ArrayPattern.indexAt elements p)
  match element with
  | .Wildcard => (none, none)
  | .Placeholder => (none, none)
  | .NamedEntity name =>
    if patternExpressionCreatesVariable (.NamedEntity name) context then
      (none, some (VariableDeclarationStatement.create (Ty.createBuiltIn .Implicit) name
        (some subscript)))
    else (some (.Binary .Equal subscript element), none)
  | _ => (some (.Binary .Equal subscript element), none)

/-- The contributions of the elements of an array pattern, in left-to-right
order. -/
def ArrayPattern.contributions (context : Context) (subject : Expression)
    (elements : List Expression) :
    List (Option Expression × Option VariableDeclarationStatement) :=
  elements.enum.map fun pe => ArrayPattern.contributionAt context subject elements pe.1 pe.2

/-- The conjunction, left to right, of a comparison with further conjuncts. -/
def conjoinAll (comparison : Expression) (conjuncts : List Expression) : Expression :=
  conjuncts.foldl (fun c t => .Binary .LogicalAnd c t) comparison

/-- The value at run time of an index expression of the array lowering, where
`__match_subject_length` holds `length`: an integer literal, the length, or a
difference of such. -/
def ArrayPattern.indexValue (length : Int) : Expression → Option Int
  | .IntegerLiteral value => some value
  | .NamedEntity identifier => if identifier = matchSubjectLengthName then some length else none
  | .Binary .Subtraction left right =>
    match ArrayPattern.indexValue length left, ArrayPattern.indexValue length right with
    | some l, some r => some (l - r)
    | _, _ => none
  | _ => none

/-- Whether a length test of the array lowering holds at run time, where
`__match_subject_length` holds `length`. -/
def ArrayPattern.lengthTestHolds (length : Int) : Expression → Option Bool
  | .Binary .Equal left right =>
    match ArrayPattern.indexValue length left, ArrayPattern.indexValue length right with
    | some l, some r => some (decide (l = r))
    | _, _ => none
  | .Binary .GreaterOrEqual left right =>
    match ArrayPattern.indexValue length left, ArrayPattern.indexValue length right with
    | some l, some r => some (decide (r ≤ l))
    | _, _ => none
  | _ => none

/-- The sub-pattern of the member is itself a class decomposition. -/
def Member.isNestedDecomposition (member : Member) : Bool :=
  match member.patternExpr with
  | some (.ClassDecomposition _ _ _) => true
  | _ => false

/-- What a member of a class decomposition contributes against the effective
subject, as the specification words it, for a sub-pattern that is not itself a
class decomposition: the term and the declaration, each absent for none. A
named entity that introduces a binding contributes the declaration
`var name = subject.<member>`, a placeholder nothing, any other sub-pattern the
term `subject.<member> == p`. A member without sub-pattern binds the member
name itself when that is a named entity. -/
def ClassDecompositionPattern.memberContribution (context : Context) (subject : Expression)
    (member : Member) : Option Expression × Option VariableDeclarationStatement :=
  let selector : Expression := .MemberSelector subject member.nameExpr
  match member.patternExpr with
  | none =>
    match member.nameExpr with
    | .NamedEntity name =>
      (none, some (VariableDeclarationStatement.create (Ty.createBuiltIn .Implicit) name
        (some selector)))
    | _ => (none, none)
  | some .Placeholder => (none, none)
  | some (.NamedEntity name) =>
    if patternExpressionCreatesVariable (.NamedEntity name) context then
      (none, some (VariableDeclarationStatement.create (Ty.createBuiltIn .Implicit) name
        (some selector)))
    else (some (.Binary .Equal selector (.NamedEntity name)), none)
  | some p => (some (.Binary .Equal selector p), none)

/-- The conjunction, left to right, of the terms after the discrimination term,
which may be absent; absent when there is no term at all. -/
def ClassDecompositionPattern.conjunction (discrimination : Option Expression)
    (terms : List Expression) : Option Expression :=
  terms.foldl
    (fun comparison term =>
      match comparison with
      | none => some term
      | some c => some (.Binary .LogicalAnd c term))
    discrimination

/-! ## Samples of the lowering -/

/-- Context of the sample lowerings: a typed expression and a class decomposition
have the type they name, before and after type checking; every other
expression has the type `subjectTy`; no name refers to a static data member;
every subject is mangled as `m`. -/
def sampleLoweringContext (subjectTy : Ty) : Context :=
  { externals := ⟨fun _ _ => true, fun _ _ => false⟩
    getType := fun e =>
      match e with
      | .Typed targetType _ => some targetType
      | .ClassDecomposition type _ _ => some type
      | _ => some subjectTy
    typeCheck := fun e =>
      match e with
      | .Typed targetType _ => .ok targetType
      | .ClassDecomposition type _ _ => .ok type
      | _ => .ok subjectTy
    isReferencingStaticDataMember := fun _ => false
    isReferencingName := fun _ _ => false
    generateVariableName := fun _ => "m" }

/-- A selector analysis that leaves every expression as it is. -/
def sampleSelectorAnalysis : SelectorAnalysis := ⟨fun e => .ok e⟩

/-- The array pattern `[a, .., b]`. -/
def sampleArrayPattern : List Expression :=
  [.NamedEntity "a", .Wildcard, .NamedEntity "b"]

/-- The members of the decomposition `Point(x: 0, y: y)`. -/
def samplePointMembers : List Member :=
  [.mk (.NamedEntity "x") (some (.IntegerLiteral 0)),
    .mk (.NamedEntity "y") (some (.NamedEntity "y"))]

/-- Sample operations for concrete runs: every pair of signatures is equal and no
class is a subclass of another. -/
def sampleExternals : Externals := ⟨fun _ _ => true, fun _ _ => false⟩

/-- Sample context for concrete runs: every expression has type `subjectTy`, type
checking an expression gives `patternTy`, no name refers to a static data member
or back to the subject. -/
def sampleContext (subjectTy patternTy : Ty) : Context :=
  ⟨sampleExternals, fun _ => some subjectTy, fun _ => .ok patternTy, fun _ => false,
    fun _ _ => false, fun _ => "m"⟩

/-! ## Theorems: exhaustiveness -/

/-- A freshly built coverage for a boolean subject holds the two boolean cases. -/
theorem MatchCoverage.create_of_isBoolean (t : Ty) (hb : t.isBoolean = true) :
    MatchCoverage.create t = .ok ⟨insert boolFalseCaseName (insert boolTrueCaseName ∅)⟩ := by
  simp [MatchCoverage.create, hb]

/-- C5: for every subject, coverage and context, `SimplePattern::isMatchExhaustive`
on the placeholder `_` raises no error, leaves the coverage as it was, and
returns `true` exactly when no match guard is present. -/
theorem C5_placeholder_exhaustive_iff_no_guard (subject : Expression)
    (coverage : MatchCoverage) (isMatchGuardPresent : Bool) (context : Context) :
    ∃ exhaustive,
      SimplePattern.isMatchExhaustive .Placeholder subject coverage isMatchGuardPresent
        context = .ok (exhaustive, coverage) ∧
      (exhaustive = true ↔ isMatchGuardPresent = false) := by
  refine ⟨!isMatchGuardPresent, rfl, ?_⟩
  cases isMatchGuardPresent <;> simp

/-- C2: for a boolean subject and the coverage freshly built from its type, the
guard-free cases `true` then `false` give: first call returns `false` and
leaves `{false}`, second call returns `true` and leaves the empty set, and no
call fails; likewise for `false` then `true`, the first call leaving `{true}`. -/
theorem C2_boolean_cases_exhaust (subject : Expression) (context : Context) (t : Ty)
    (ht : context.getType subject = some t) (hb : t.isBoolean = true) :
    ∃ fresh, MatchCoverage.create t = .ok fresh ∧
      SimplePattern.isMatchExhaustive (.BooleanLiteral true) subject fresh false context
        = .ok (false, ⟨{"false"}⟩) ∧
      SimplePattern.isMatchExhaustive (.BooleanLiteral false) subject ⟨{"false"}⟩ false
        context = .ok (true, ⟨∅⟩) ∧
      SimplePattern.isMatchExhaustive (.BooleanLiteral false) subject fresh false context
        = .ok (false, ⟨{"true"}⟩) ∧
      SimplePattern.isMatchExhaustive (.BooleanLiteral true) subject ⟨{"true"}⟩ false
        context = .ok (true, ⟨∅⟩) := by
  refine ⟨_, MatchCoverage.create_of_isBoolean t hb, ?_, ?_, ?_, ?_⟩ <;>
    simp only [SimplePattern.isMatchExhaustive, subjectType, ht, hb] <;> decide

/-- C2 at a concrete boolean subject `b`. -/
theorem C2_boolean_cases_exhaust_witness :
    ∃ fresh, MatchCoverage.create (Ty.createBuiltIn .Boolean) = .ok fresh ∧
      SimplePattern.isMatchExhaustive (.BooleanLiteral true) (.NamedEntity "b") fresh false
        (sampleContext (Ty.createBuiltIn .Boolean) (Ty.createBuiltIn .Boolean))
        = .ok (false, ⟨{"false"}⟩) ∧
      SimplePattern.isMatchExhaustive (.BooleanLiteral false) (.NamedEntity "b")
        ⟨{"false"}⟩ false
        (sampleContext (Ty.createBuiltIn .Boolean) (Ty.createBuiltIn .Boolean))
        = .ok (true, ⟨∅⟩) ∧
      SimplePattern.isMatchExhaustive (.BooleanLiteral false) (.NamedEntity "b") fresh false
        (sampleContext (Ty.createBuiltIn .Boolean) (Ty.createBuiltIn .Boolean))
        = .ok (false, ⟨{"true"}⟩) ∧
      SimplePattern.isMatchExhaustive (.BooleanLiteral true) (.NamedEntity "b")
        ⟨{"true"}⟩ false
        (sampleContext (Ty.createBuiltIn .Boolean) (Ty.createBuiltIn .Boolean))
        = .ok (true, ⟨∅⟩) :=
  C2_boolean_cases_exhaust (.NamedEntity "b")
    (sampleContext (Ty.createBuiltIn .Boolean) (Ty.createBuiltIn .Boolean))
    (Ty.createBuiltIn .Boolean) rfl rfl

/-- C3: for a boolean subject, `SimplePattern::isMatchExhaustive` on the boolean
literal `b` fails with the fatal "Pattern is unreachable." exactly when the case
named `b` is already covered in the coverage passed in, with or without a
guard; and on a fresh coverage the guard-free cases `true`, `true` pass the
first call and fail so on the second. -/
theorem C3_unreachable_iff_case_covered (subject : Expression) (context : Context) (t : Ty)
    (ht : context.getType subject = some t) (hb : t.isBoolean = true) :
    (∀ (b : Bool) (coverage : MatchCoverage) (isMatchGuardPresent : Bool),
      SimplePattern.isMatchExhaustive (.BooleanLiteral b) subject coverage
          isMatchGuardPresent context = .error (.fatal "Pattern is unreachable.") ↔
        coverage.isCaseCovered (if b = true then boolTrueCaseName else boolFalseCaseName)
          = true) ∧
    ∃ fresh exhaustive afterFirst,
      MatchCoverage.create t = .ok fresh ∧
      SimplePattern.isMatchExhaustive (.BooleanLiteral true) subject fresh false context
        = .ok (exhaustive, afterFirst) ∧
      SimplePattern.isMatchExhaustive (.BooleanLiteral true) subject afterFirst false context
        = .error (.fatal "Pattern is unreachable.") := by
  constructor
  · intro b coverage isMatchGuardPresent
    simp only [SimplePattern.isMatchExhaustive, subjectType, ht, hb, if_true, beq_iff_eq]
    by_cases hc :
        coverage.isCaseCovered (if b = true then boolTrueCaseName else boolFalseCaseName) = true
    · simp [hc]
    · have hc0 : coverage.isCaseCovered
          (if b = true then boolTrueCaseName else boolFalseCaseName) = false := by
        simpa using hc
      simp only [hc0, Bool.false_eq_true, if_false, iff_false]
      cases isMatchGuardPresent
      · simp only [Bool.not_false, if_true]
        generalize (coverage.markCaseAsCovered _) = marked
        cases marked.areAllCasesCovered <;> simp
      · simp
  · refine ⟨_, false, ⟨{"false"}⟩, MatchCoverage.create_of_isBoolean t hb, ?_, ?_⟩ <;>
      simp only [SimplePattern.isMatchExhaustive, subjectType, ht, hb] <;> decide

/-- C3 at a concrete boolean subject `b`. -/
theorem C3_unreachable_iff_case_covered_witness :
    (∀ (b : Bool) (coverage : MatchCoverage) (isMatchGuardPresent : Bool),
      SimplePattern.isMatchExhaustive (.BooleanLiteral b) (.NamedEntity "b") coverage
          isMatchGuardPresent
          (sampleContext (Ty.createBuiltIn .Boolean) (Ty.createBuiltIn .Boolean))
          = .error (.fatal "Pattern is unreachable.") ↔
        coverage.isCaseCovered (if b = true then boolTrueCaseName else boolFalseCaseName)
          = true) ∧
    ∃ fresh exhaustive afterFirst,
      MatchCoverage.create (Ty.createBuiltIn .Boolean) = .ok fresh ∧
      SimplePattern.isMatchExhaustive (.BooleanLiteral true) (.NamedEntity "b") fresh false
        (sampleContext (Ty.createBuiltIn .Boolean) (Ty.createBuiltIn .Boolean))
        = .ok (exhaustive, afterFirst) ∧
      SimplePattern.isMatchExhaustive (.BooleanLiteral true) (.NamedEntity "b") afterFirst
        false (sampleContext (Ty.createBuiltIn .Boolean) (Ty.createBuiltIn .Boolean))
        = .error (.fatal "Pattern is unreachable.") :=
  C3_unreachable_iff_case_covered (.NamedEntity "b")
    (sampleContext (Ty.createBuiltIn .Boolean) (Ty.createBuiltIn .Boolean))
    (Ty.createBuiltIn .Boolean) rfl rfl

/-- C4: for every pattern kind, subject, coverage and context, a call of
`isMatchExhaustive` with a match guard present that returns at all returns
`false` and leaves the coverage as it was. -/
theorem C4_guard_suppresses_coverage (pattern : Pattern) (subject : Expression)
    (coverage : MatchCoverage) (context : Context) (exhaustive : Bool)
    (after : MatchCoverage)
    (h : pattern.isMatchExhaustive subject coverage true context = .ok (exhaustive, after)) :
    exhaustive = false ∧ after = coverage := by
  have done : ∀ {r : Result (Bool × MatchCoverage)},
      r = .ok (false, coverage) → r = .ok (exhaustive, after) →
        exhaustive = false ∧ after = coverage := by
    intro r h1 h2
    rw [h1] at h2
    simp only [Except.ok.injEq, Prod.mk.injEq] at h2
    exact ⟨h2.1.symm, h2.2.symm⟩
  cases pattern <;>
    simp only [Pattern.isMatchExhaustive, SimplePattern.isMatchExhaustive,
      ArrayPattern.isMatchExhaustive, ClassDecompositionPattern.isMatchExhaustive,
      ClassDecompositionPattern.isEnumMatchExhaustive, TypedPattern.isMatchExhaustive,
      Bool.not_true, Bool.and_false, Bool.false_and, Bool.false_eq_true, if_false] at h <;>
    (repeat' split at h) <;>
    first
      | exact done rfl h
      | exact absurd h (by simp)

/-- C4 at a concrete input: the guarded case `true` on a boolean subject with a
fresh coverage. -/
theorem C4_guard_suppresses_coverage_witness :
    (Pattern.SimplePattern (.BooleanLiteral true)).isMatchExhaustive (.NamedEntity "b")
        ⟨{"false", "true"}⟩ true
        (sampleContext (Ty.createBuiltIn .Boolean) (Ty.createBuiltIn .Boolean))
      = .ok (false, ⟨{"false", "true"}⟩) ∧
    (false = false ∧ (⟨{"false", "true"}⟩ : MatchCoverage) = ⟨{"false", "true"}⟩) :=
  ⟨by decide,
    C4_guard_suppresses_coverage (.SimplePattern (.BooleanLiteral true)) (.NamedEntity "b")
      ⟨{"false", "true"}⟩
      (sampleContext (Ty.createBuiltIn .Boolean) (Ty.createBuiltIn .Boolean)) false
      ⟨{"false", "true"}⟩ (by decide)⟩

/-- The loop of the coverage constructor collects the enum-constructor names. -/
theorem MatchCoverage.foldl_insertEnumConstructor (members : List MemberDefinition) :
    ∀ cases : Finset Identifier,
      members.foldl MatchCoverage.insertEnumConstructor cases =
        cases ∪ (members.filterMap fun member =>
          match member with
          | .Method name true _ => some name
          | _ => none).toFinset := by
  induction members with
  | nil => intro cases; simp
  | cons member rest ih =>
    intro cases
    rw [List.foldl_cons, ih]
    cases member with
    | Method name isEnumConstructor n =>
      cases isEnumConstructor
      · simp [MatchCoverage.insertEnumConstructor]
      · ext x
        simp [MatchCoverage.insertEnumConstructor]
    | DataMember name => simp [MatchCoverage.insertEnumConstructor]
    | Other => simp [MatchCoverage.insertEnumConstructor]

/-- A freshly built coverage for an enumeration subject holds the names of the
enum constructors of its class. -/
theorem MatchCoverage.create_of_isEnumeration (t : Ty) (enumClass : ClassDefinition)
    (henum : t.isEnumeration = true) (hdef : t.definition = some (.Class enumClass))
    (hcls : enumClass.isEnumeration = true) :
    MatchCoverage.create t = .ok ⟨enumClass.enumConstructorNames.toFinset⟩ := by
  have hb : t.isBoolean = false := by
    simp only [Ty.isEnumeration, Ty.isBoolean, beq_iff_eq] at henum ⊢
    rw [henum]; decide
  simp [MatchCoverage.create, hb, henum, hdef, hcls,
    MatchCoverage.foldl_insertEnumConstructor, ClassDefinition.enumConstructorNames]

/-- One guard-free variant case on a coverage that still holds the variant: the
call returns, erases the variant, and answers whether nothing is left. -/
theorem variantCase_step (context : Context) (subject : Expression) (t : Ty)
    (ht : context.getType subject = some t) (pattern : Pattern) (variant : Identifier)
    (coverage : MatchCoverage) (hcase : IsVariantCase context t pattern variant)
    (hv : variant ∈ coverage.notCoveredCases) :
    pattern.isMatchExhaustive subject coverage false context =
      .ok (decide (coverage.notCoveredCases.erase variant = ∅),
        ⟨coverage.notCoveredCases.erase variant⟩) := by
  obtain ⟨hne, type, members, patternType, rfl, hcheck, heq, hirr⟩ := hcase
  simp only [Pattern.isMatchExhaustive, ClassDecompositionPattern.isMatchExhaustive,
    ClassDecompositionPattern.isEnumMatchExhaustive, hcheck, subjectType, ht, heq, hirr,
    MatchCoverage.isCaseCovered, MatchCoverage.markCaseAsCovered,
    MatchCoverage.areAllCasesCovered]
  simp [hne, hv]
  split <;> simp_all

/-- Processing one guard-free case per remaining variant empties the coverage;
only the last call answers `true`. -/
theorem processCases_variants (context : Context) (subject : Expression) (t : Ty)
    (ht : context.getType subject = some t) :
    ∀ (cases : List Pattern) (variants : List Identifier) (coverage : MatchCoverage),
      List.Forall₂ (IsVariantCase context t) cases variants → variants.Nodup →
      coverage.notCoveredCases = variants.toFinset →
      ∃ final, processCases cases subject coverage context =
          .ok ((List.range cases.length).map (fun i => decide (i + 1 = cases.length)), final) ∧
        final.notCoveredCases = ∅ := by
  intro cases
  induction cases with
  | nil =>
    intro variants coverage hcases _ hcov
    cases hcases
    exact ⟨coverage, by simp [processCases], by simpa using hcov⟩
  | cons pattern rest ih =>
    intro variants coverage hcases hnodup hcov
    cases hcases with
    | cons hcase hrest =>
      rename_i variant others
      have hv : variant ∈ coverage.notCoveredCases := by simp [hcov]
      have hnot : variant ∉ others := (List.nodup_cons.mp hnodup).1
      have herase : coverage.notCoveredCases.erase variant = others.toFinset := by
        rw [hcov, List.toFinset_cons, Finset.erase_insert]
        simpa using hnot
      obtain ⟨final, hrun, hfinal⟩ :=
        ih others ⟨coverage.notCoveredCases.erase variant⟩ hrest
          (List.nodup_cons.mp hnodup).2 herase
      refine ⟨final, ?_, hfinal⟩
      have hlen : rest.length = others.length := hrest.length_eq
      have hempty : (coverage.notCoveredCases.erase variant = ∅) ↔ rest.length = 0 := by
        rw [herase, hlen, List.toFinset_eq_empty_iff, List.length_eq_zero]
      rw [processCases, variantCase_step context subject t ht pattern variant coverage hcase hv]
      simp only [hrun, List.length_cons, List.range_succ_eq_map, List.map_cons, List.map_map]
      congr 2
      simp [hempty]

/-- C1: for an enumeration subject whose class has the enum-constructor names `S`
and the coverage freshly built from its type, processing one guard-free
enum-variant class decomposition case of the subject's type per variant of `S`,
each variant once, in any order, with irrefutable member sub-patterns: the
coverage is built, no call fails, the call of case `i` returns `true` exactly
when it is the last case, and the coverage set is empty at the end. -/
theorem C1_enum_variants_exhaust (context : Context) (subject : Expression) (t : Ty)
    (enumClass : ClassDefinition) (cases : List Pattern) (variants : List Identifier)
    (ht : context.getType subject = some t) (henum : t.isEnumeration = true)
    (hdef : t.definition = some (.Class enumClass))
    (hcls : enumClass.isEnumeration = true)
    (hcases : List.Forall₂ (IsVariantCase context t) cases variants)
    (honce : variants.Nodup)
    (hall : variants.toFinset = enumClass.enumConstructorNames.toFinset) :
    ∃ fresh final,
      MatchCoverage.create t = .ok fresh ∧
      processCases cases subject fresh context =
        .ok ((List.range cases.length).map (fun i => decide (i + 1 = cases.length)), final) ∧
      final.notCoveredCases = ∅ := by
  obtain ⟨final, hrun, hfinal⟩ :=
    processCases_variants context subject t ht cases variants
      ⟨enumClass.enumConstructorNames.toFinset⟩ hcases honce hall.symm
  exact ⟨_, final, MatchCoverage.create_of_isEnumeration t enumClass henum hdef hcls, hrun,
    hfinal⟩

/-- C1 at the sample enumeration `E` with variants `A`, `B`, matched by the cases
`B(x: y)` then `A`: the calls return `false` then `true`. -/
theorem C1_enum_variants_exhaust_witness :
    (["B", "A"] : List Identifier).Nodup ∧
    (["B", "A"] : List Identifier).toFinset = sampleEnumClass.enumConstructorNames.toFinset ∧
    ∃ fresh final,
      MatchCoverage.create sampleEnumType = .ok fresh ∧
      processCases sampleEnumCases (.NamedEntity "e") fresh
          (sampleContext sampleEnumType sampleEnumType) =
        .ok ([false, true], final) ∧
      final.notCoveredCases = ∅ :=
  ⟨by decide, by decide,
    C1_enum_variants_exhaust (sampleContext sampleEnumType sampleEnumType) (.NamedEntity "e")
      sampleEnumType sampleEnumClass sampleEnumCases ["B", "A"] rfl rfl rfl rfl
      (.cons ⟨by decide, _, _, _, rfl, rfl, by decide, by decide⟩
        (.cons ⟨by decide, _, _, _, rfl, rfl, by decide, by decide⟩ .nil))
      (by decide) (by decide)⟩

/-! ## Theorems: type algebra -/

/-- C6, refuted as stated: `int[]` and the null type are not placeholders,
`areInitializable(int[], null)` returns `true`, and their `array` flags differ. -/
theorem C6_counterexample_null_into_array :
    ((Ty.createBuiltIn .Integer).setArray true).isPlaceholder = false ∧
    Ty.nullTypeInstance.isPlaceholder = false ∧
    Ty.areInitializable sampleExternals ((Ty.createBuiltIn .Integer).setArray true)
      Ty.nullTypeInstance = .ok true ∧
    ((Ty.createBuiltIn .Integer).setArray true).array ≠ Ty.nullTypeInstance.array := by
  decide

/-- C6, amended: for all types `a` and `b`, neither of which is a placeholder and
which are not a reference `a` with a null `b`, if `areInitializable(a, b)`
returns `true` then `a.array == b.array`. -/
theorem C6_initializable_same_array (ext : Externals) (a b : Ty)
    (ha : a.isPlaceholder = false) (hb : b.isPlaceholder = false)
    (hnull : ¬(a.isReference = true ∧ b.isNull = true))
    (h : Ty.areInitializable ext a b = .ok true) : a.array = b.array := by
  have hnull0 : (a.isReference && b.isNull) = false := by
    simpa [Bool.and_eq_true] using hnull
  simp only [Ty.areInitializable, ha, hb, hnull0, Bool.or_self, Bool.false_eq_true,
    if_false] at h
  split at h
  · exact absurd h (by simp)
  · exact absurd h (by simp)
  · by_cases harr : a.array = b.array
    · exact harr
    · have : (a.array != b.array) = true := by simpa using harr
      rw [this] at h
      exact absurd h (by simp)

/-- C6 amended, at `int` initialised from `byte`. -/
theorem C6_initializable_same_array_witness :
    Ty.areInitializable sampleExternals (Ty.createBuiltIn .Integer) (Ty.createBuiltIn .Byte)
      = .ok true ∧
    (Ty.createBuiltIn .Integer).array = (Ty.createBuiltIn .Byte).array :=
  ⟨by decide,
    C6_initializable_same_array sampleExternals (Ty.createBuiltIn .Integer)
      (Ty.createBuiltIn .Byte) (by decide) (by decide) (by decide) (by decide)⟩

/-- C7, refuted as stated: the null type and the placeholder type are not
references, yet `areInitializable(a, null)` returns `true` for both; the array
of placeholders is a reference, yet the call returns `false`; and a user type
with the empty name whose reference flag was cleared also gets `true`. -/
theorem C7_counterexample_null_and_placeholder :
    (Ty.nullTypeInstance.reference = false ∧
      Ty.areInitializable sampleExternals Ty.nullTypeInstance Ty.nullTypeInstance
        = .ok true) ∧
    ((Ty.createBuiltIn .Placeholder).reference = false ∧
      Ty.areInitializable sampleExternals (Ty.createBuiltIn .Placeholder) Ty.nullTypeInstance
        = .ok true) ∧
    (((Ty.createBuiltIn .Placeholder).setArray true).reference = true ∧
      Ty.areInitializable sampleExternals ((Ty.createBuiltIn .Placeholder).setArray true)
        Ty.nullTypeInstance = .ok false) ∧
    (((Ty.create "").setReference false).reference = false ∧
      Ty.areInitializable sampleExternals ((Ty.create "").setReference false)
        Ty.nullTypeInstance = .ok true) := by
  decide

/-- C7, amended: for every type `a` that is neither a placeholder nor of kind
null, and that is built-in or has a non-empty name, `areInitializable(a, null)`
returns `true` if and only if `a.reference` is true. -/
theorem C7_null_initializes_references (ext : Externals) (a : Ty)
    (hp : a.isPlaceholder = false) (hn : a.isNull = false)
    (hname : a.isBuiltIn = true ∨ a.name ≠ "") :
    Ty.areInitializable ext a Ty.nullTypeInstance = .ok true ↔ a.reference = true := by
  have e1 : Ty.nullTypeInstance.isPlaceholder = false := by decide
  have e2 : Ty.nullTypeInstance.isNull = true := by decide
  have e3 : Ty.nullTypeInstance.isEnumeration = false := by decide
  have e4 : Ty.nullTypeInstance.isFunction = false := by decide
  have e5 : Ty.nullTypeInstance.isBuiltIn = true := by decide
  have e6 : Ty.nullTypeInstance.builtInType = .Null := by decide
  have e7 : Ty.nullTypeInstance.name = "" := by decide
  have e8 : Ty.nullTypeInstance.isInterface = false := by decide
  have e9 : Ty.definitionAsClass Ty.nullTypeInstance = .error .nullDereference := by decide
  constructor
  · intro h
    by_contra hr
    have hr0 : a.isReference = false := by simpa [Ty.isReference] using hr
    simp only [Ty.areInitializable, hp, e1, hr0, e2, Bool.or_self, Bool.false_and,
      Bool.false_eq_true, if_false] at h
    have hkinds : Ty.kindsAreInitializable ext a Ty.nullTypeInstance ≠ .ok true := by
      simp only [Ty.kindsAreInitializable, e3, e4, e5, e6, Bool.and_false, Bool.and_true,
        Bool.false_eq_true, if_false]
      by_cases hbi : a.isBuiltIn = true
      · have hkind : (a.builtInType != BuiltInType.Null) = true := by
          simpa [Ty.isNull] using hn
        have hconv : Ty.areBuiltInsImplicitlyConvertable .Null a.builtInType = false := rfl
        simp [hbi, hkind, hconv]
      · have hne : (a.name == "") = false := by
          rcases hname with h1 | h1
          · exact absurd h1 hbi
          · simpa using h1
        have hobj : a.isObject = false := by
          have : a.builtInType = .NotBuiltIn := by simpa [Ty.isBuiltIn] using hbi
          simp [Ty.isObject, this]
        simp only [hbi, Bool.false_eq_true, if_false, Ty.areConvertable, e7, hne, hobj, e8, e9,
          Bool.and_self]
        cases Ty.definitionAsClass a with
        | error e => simp
        | ok c => cases c <;> simp
    revert h
    cases hk : Ty.kindsAreInitializable ext a Ty.nullTypeInstance with
    | error e => simp
    | ok r =>
      cases r
      · simp
      · exact absurd hk hkinds
  · intro hr
    have hr1 : a.isReference = true := hr
    simp [Ty.areInitializable, hp, e1, hr1, e2]

/-- C7 amended, at the reference type `string` and at the value type `int`. -/
theorem C7_null_initializes_references_witness :
    (Ty.areInitializable sampleExternals (Ty.create "string") Ty.nullTypeInstance = .ok true ↔
      (Ty.create "string").reference = true) ∧
    (Ty.create "string").reference = true ∧
    Ty.areInitializable sampleExternals (Ty.create "int") Ty.nullTypeInstance = .ok false :=
  ⟨C7_null_initializes_references sampleExternals (Ty.create "string") (by decide)
      (by decide) (Or.inl (by decide)),
    by decide, by decide⟩

/-- Outside the placeholder rule, types that `areEqualNoConstCheck` equates agree
on kind, name, reference flag and array flag. -/
theorem Ty.areEqualNoConstCheck_fields (ext : Externals) (left right : Ty)
    (checkTypeParameters : Bool) (hl : left.isPlaceholder = false)
    (hr : right.isPlaceholder = false)
    (h : Ty.areEqualNoConstCheck ext left right checkTypeParameters = .ok true) :
    left.builtInType = right.builtInType ∧ left.name = right.name ∧
      left.reference = right.reference ∧ left.array = right.array := by
  cases left with
  | mk lb ln lg ld lf lc lr la =>
    cases right with
    | mk rb rn rg rd rf rc rr ra =>
      simp only [Ty.isPlaceholder, Ty.builtInType] at hl hr
      simp only [Ty.areEqualNoConstCheck, hl, hr, Bool.or_self, Bool.false_eq_true,
        if_false] at h
      split at h
      · rename_i hfields
        simpa [Ty.builtInType, Ty.name, Ty.reference, Ty.array, and_assoc] using hfields
      · exact absurd h (by simp)

/-- C8, refuted as stated: the null type and the placeholder type are equated by
`areEqualNoConstCheck` in both argument orders and by `==`, and the placeholder
type is not of kind null. -/
theorem C8_counterexample_placeholder_equals_null :
    Ty.areEqualNoConstCheck sampleExternals Ty.nullTypeInstance
      (Ty.createBuiltIn .Placeholder) true = .ok true ∧
    Ty.areEqualNoConstCheck sampleExternals (Ty.createBuiltIn .Placeholder)
      Ty.nullTypeInstance true = .ok true ∧
    Ty.equal sampleExternals Ty.nullTypeInstance (Ty.createBuiltIn .Placeholder) = .ok true ∧
    (Ty.createBuiltIn .Placeholder).builtInType ≠ .Null := by
  decide

/-- C8, amended: for every type `t` that is not a placeholder and every type `n`
of kind null, `areEqualNoConstCheck(n, t)`, `areEqualNoConstCheck(t, n)` (with
either value of `checkTypeParameters`), `n == t` and `t == n` can return `true`
only when `t` is itself of kind null. -/
theorem C8_null_equals_only_null (ext : Externals) (n t : Ty) (checkTypeParameters : Bool)
    (hn : n.builtInType = .Null) (ht : t.isPlaceholder = false)
    (h : Ty.areEqualNoConstCheck ext n t checkTypeParameters = .ok true ∨
      Ty.areEqualNoConstCheck ext t n checkTypeParameters = .ok true ∨
      Ty.equal ext n t = .ok true ∨ Ty.equal ext t n = .ok true) :
    t.builtInType = .Null := by
  have hnp : n.isPlaceholder = false := by simp [Ty.isPlaceholder, hn]
  have ofEqual : ∀ l r : Ty, Ty.equal ext l r = .ok true →
      Ty.areEqualNoConstCheck ext l r true = .ok true := by
    intro l r he
    simp only [Ty.equal] at he
    cases hk : Ty.areEqualNoConstCheck ext l r true with
    | error e => rw [hk] at he; exact absurd he (by simp)
    | ok b =>
      rw [hk] at he
      cases b
      · exact absurd he (by simp)
      · rfl
  rcases h with h | h | h | h
  · exact ((Ty.areEqualNoConstCheck_fields ext n t _ hnp ht h).1).symm.trans hn
  · exact ((Ty.areEqualNoConstCheck_fields ext t n _ ht hnp h).1).trans hn
  · exact ((Ty.areEqualNoConstCheck_fields ext n t _ hnp ht (ofEqual n t h)).1).symm.trans hn
  · exact ((Ty.areEqualNoConstCheck_fields ext t n _ ht hnp (ofEqual t n h)).1).trans hn

/-- C8 amended, at the null type compared with itself. -/
theorem C8_null_equals_only_null_witness :
    Ty.areEqualNoConstCheck sampleExternals Ty.nullTypeInstance Ty.nullTypeInstance true
      = .ok true ∧
    Ty.nullTypeInstance.builtInType = .Null :=
  ⟨by decide,
    C8_null_equals_only_null sampleExternals Ty.nullTypeInstance Ty.nullTypeInstance true
      (by decide) (by decide) (Or.inl (by decide))⟩

/-- Every type that `Type::create` gives is a non-array type. -/
theorem Ty.create_array (name : Identifier) : (Ty.create name).array = false := by
  unfold Ty.create
  repeat' split
  all_goals rfl

/-- C9, refuted as stated: `int`, made an array by `setArray(true)` and then given
`setReference(false)`, is reachable and has `array` true with `reference`
false. -/
theorem C9_counterexample_setReference_on_array :
    Ty.Reachable (((Ty.createBuiltIn .Integer).setArray true).setReference false) ∧
    (((Ty.createBuiltIn .Integer).setArray true).setReference false).array = true ∧
    (((Ty.createBuiltIn .Integer).setArray true).setReference false).reference = false :=
  ⟨.setReference false (.setArray true (.createBuiltIn .Integer)), by decide, by decide⟩

/-- C9, amended: every type value reachable from the constructors and
`Type::create` by `clone`, `setArray`, `createArrayElementType`,
`getConcreteTypeAssignedToGenericTypeParameter`, `setReference(r)` with `r` true
or on a non-array type, and `setDefinition(d)` with `d` not the class of an
enumeration variant or on a non-array type, has `reference` true whenever
`array` is true. -/
theorem C9_array_implies_reference (t : Ty) (h : Ty.ReachableKeepingArrays t)
    (ha : t.array = true) : t.reference = true := by
  induction h with
  | ofName n => exact absurd ha (by simp [Ty.ofName, Ty.array])
  | ofBuiltIn k => exact absurd ha (by simp [Ty.ofBuiltIn, Ty.array])
  | create name => exact absurd ha (by simp [Ty.create_array])
  | createBuiltIn k => exact absurd ha (by simp [Ty.createBuiltIn, Ty.ofBuiltIn, Ty.array])
  | clone _ ih => exact ih ha
  | @setArray t a _ ih =>
    cases t with
    | mk b n g d f c r arr =>
      simp only [Ty.setArray, Ty.array] at ha
      simp [Ty.setArray, Ty.reference, ha]
  | @setReference t r _ hguard ih =>
    cases t with
    | mk b n g d f c r0 arr =>
      simp only [Ty.setReference, Ty.array] at ha hguard
      rcases hguard with hr | hr
      · simp [Ty.setReference, Ty.reference, hr]
      · rw [hr] at ha; exact absurd ha (by simp)
  | @setDefinition t d _ hguard ih =>
    cases t with
    | mk b n g d0 f c r arr =>
      cases d with
      | Class classDef =>
        simp only [Ty.setDefinition, Ty.array] at ha
        simp only [Ty.array] at hguard
        have ih0 : r = true := ih ha
        have hvar : classDef.isEnumerationVariant = false := by
          rcases hguard with hv | hv
          · exact hv
          · rw [hv] at ha; exact absurd ha (by simp)
        simp [Ty.setDefinition, Ty.reference, hvar, ih0, ha]
      | GenericTypeParameter concreteType => exact ih ha
      | Other => exact ih ha
  | @createArrayElementType t e _ hcreate ih =>
    cases t with
    | mk b n g d f c r arr =>
      simp only [Ty.createArrayElementType, Ty.isArray, Ty.array, Ty.clone, Ty.setArray,
        Ty.builtInType, Ty.setReference] at hcreate
      split at hcreate
      · exact absurd hcreate (by simp)
      · split at hcreate <;>
        · simp only [Option.some.injEq] at hcreate
          rw [← hcreate] at ha
          exact absurd ha (by simp [Ty.array])
  | @getConcreteType t c _ hget ih =>
    simp only [Ty.getConcreteTypeAssignedToGenericTypeParameter] at hget
    split at hget
    · exact absurd hget (by simp)
    · rename_i concreteType _
      simp only [Except.ok.injEq, Option.some.injEq] at hget
      cases concreteType with
      | mk b n g d f c0 r arr =>
        rw [← hget] at ha ⊢
        generalize t.array = ta at ha ⊢
        generalize t.constant = tc at ha ⊢
        simp only [Ty.clone, Ty.setArray, Ty.setConstant, Ty.array] at ha
        simp [Ty.clone, Ty.setArray, Ty.setConstant, Ty.reference, ha]
    · exact absurd hget (by simp)

/-- C9 amended, at `int[]`. -/
theorem C9_array_implies_reference_witness :
    ((Ty.create "int").setArray true).array = true ∧
    ((Ty.create "int").setArray true).reference = true :=
  ⟨by decide,
    C9_array_implies_reference ((Ty.create "int").setArray true)
      (.setArray true (.create "int")) (by decide)⟩

/-- C10, the code at the failing input: `int` after `setArray(true)` and
`setArray(false)` is reachable by the array operations, is of the primitive kind
`Integer`, is not an array, and still has `reference` true; whereas
`createArrayElementType` on the same array type gives `reference` false. -/
theorem C10_setArray_false_keeps_reference :
    Ty.ReachableByArrayOperations (((Ty.create "int").setArray true).setArray false) ∧
    (((Ty.create "int").setArray true).setArray false).builtInType = .Integer ∧
    (((Ty.create "int").setArray true).setArray false).builtInType.isPrimitiveKind = true ∧
    (((Ty.create "int").setArray true).setArray false).array = false ∧
    (((Ty.create "int").setArray true).setArray false).reference = true ∧
    (((Ty.create "int").setArray true).createArrayElementType).map Ty.reference
      = some false :=
  ⟨.setArray false (.setArray true (.create "int")), by decide, by decide, by decide,
    by decide, by decide⟩

/-- C11: `areBuiltInsImplicitlyConvertable(from, to)` is true exactly for
`Byte` to `Char`, `Integer`, `Long`, `Float`; `Char` to `Byte`, `Integer`,
`Long`, `Float`; `Integer` to `Long`; `String` to `Object`; it is false for
`Integer` to `Byte` and for every pair with `from == to`. -/
theorem C11_implicit_conversion_table :
    (∀ fromKind toKind : BuiltInType,
      Ty.areBuiltInsImplicitlyConvertable fromKind toKind = true ↔
        (fromKind = .Byte ∧
          (toKind = .Char ∨ toKind = .Integer ∨ toKind = .Long ∨ toKind = .Float)) ∨
        (fromKind = .Char ∧
          (toKind = .Byte ∨ toKind = .Integer ∨ toKind = .Long ∨ toKind = .Float)) ∨
        (fromKind = .Integer ∧ toKind = .Long) ∨
        (fromKind = .String ∧ toKind = .Object)) ∧
    Ty.areBuiltInsImplicitlyConvertable .Integer .Byte = false ∧
    ∀ kind : BuiltInType, Ty.areBuiltInsImplicitlyConvertable kind kind = false := by
  refine ⟨?_, rfl, ?_⟩
  · intro fromKind toKind
    cases fromKind <;> cases toKind <;> simp [Ty.areBuiltInsImplicitlyConvertable]
  · intro kind
    cases kind <;> rfl

/-- The loop over two parameter lists of the same length returns `true` exactly
when `operator==` returns `true` at every position. -/
theorem Ty.typeParametersLoop_eq_ok_true (ext : Externals) :
    ∀ ls rs : List Ty, ls.length = rs.length →
      (Ty.typeParametersLoop ext ls rs = .ok true ↔
        List.Forall₂ (fun l r => Ty.equal ext l r = .ok true) ls rs) := by
  intro ls
  induction ls with
  | nil =>
    intro rs hlen
    cases rs with
    | nil => simp [Ty.typeParametersLoop]
    | cons r rs => simp at hlen
  | cons l ls ih =>
    intro rs hlen
    cases rs with
    | nil => simp at hlen
    | cons r rs =>
      have hlen1 : ls.length = rs.length := by simpa using hlen
      rw [List.forall₂_cons, ← ih rs hlen1]
      simp only [Ty.typeParametersLoop, Ty.equal]
      cases hk : Ty.areEqualNoConstCheck ext l r true with
      | error e => simp
      | ok eq =>
        cases eq
        · simp
        · by_cases hc : l.constant = r.constant
          · simp [hc]
          · simp [hc]

/-- C12, refuted as stated: `List<int>` and `List<var int>` are not placeholders,
agree on kind, name, reference and array, are not function types, and have one
type parameter each, `int` and `var int`, which `areEqualNoConstCheck` equates;
yet `areEqualNoConstCheck(List<int>, List<var int>, true)` returns `false`. -/
theorem C12_counterexample_constant_parameter :
    (sampleListOfInt.isPlaceholder = false ∧ sampleListOfVarInt.isPlaceholder = false ∧
      sampleListOfInt.builtInType = sampleListOfVarInt.builtInType ∧
      sampleListOfInt.name = sampleListOfVarInt.name ∧
      sampleListOfInt.reference = sampleListOfVarInt.reference ∧
      sampleListOfInt.array = sampleListOfVarInt.array ∧
      sampleListOfInt.isFunction = false) ∧
    (sampleListOfInt.genericTypeParameters = [Ty.create "int"] ∧
      sampleListOfVarInt.genericTypeParameters = [(Ty.create "int").setConstant false] ∧
      Ty.areEqualNoConstCheck sampleExternals (Ty.create "int")
        ((Ty.create "int").setConstant false) true = .ok true) ∧
    Ty.areEqualNoConstCheck sampleExternals sampleListOfInt sampleListOfVarInt true
      = .ok false :=
  ⟨by decide, ⟨rfl, rfl, by decide⟩, by decide⟩

/-- C12, amended: `areEqualNoConstCheck(L, R, true)` returns `true` if and only if
either at least one of the two is a placeholder and the `array` flags are
equal, or neither is a placeholder, kind, name, reference and array all match,
the function signatures are present and equal when `L` is a function type, and
the generic parameter lists have the same length and are pointwise equal under
`==`, which also compares the constant flags of the parameters. -/
theorem C12_equality_characterised (ext : Externals) (left right : Ty) :
    Ty.areEqualNoConstCheck ext left right true = .ok true ↔
      ((left.isPlaceholder = true ∨ right.isPlaceholder = true) ∧ left.array = right.array) ∨
      (left.isPlaceholder = false ∧ right.isPlaceholder = false ∧
        left.builtInType = right.builtInType ∧ left.name = right.name ∧
        left.reference = right.reference ∧ left.array = right.array ∧
        (left.isFunction = true → ∃ ls rs, left.functionSignature = some ls ∧
          right.functionSignature = some rs ∧ ext.signatureEquals ls rs = true) ∧
        left.genericTypeParameters.length = right.genericTypeParameters.length ∧
        List.Forall₂ (fun l r => Ty.equal ext l r = .ok true)
          left.genericTypeParameters right.genericTypeParameters) := by
  cases left with
  | mk lb ln lg ld lf lc lr la =>
    cases right with
    | mk rb rn rg rd rf rc rr ra =>
      simp only [Ty.isPlaceholder, Ty.builtInType, Ty.name, Ty.reference, Ty.array,
        Ty.isFunction, Ty.functionSignature, Ty.genericTypeParameters,
        Ty.areEqualNoConstCheck]
      by_cases hp : (lb == BuiltInType.Placeholder || rb == BuiltInType.Placeholder) = true
      · have hp1 : (lb == BuiltInType.Placeholder) = true ∨ (rb == BuiltInType.Placeholder) = true := by
          simpa [Bool.or_eq_true] using hp
        have hp2 : ¬((lb == BuiltInType.Placeholder) = false ∧ (rb == BuiltInType.Placeholder) = false) := by
          rcases hp1 with h | h <;> simp [h]
        simp only [hp, if_true]
        constructor
        · intro h
          left
          refine ⟨hp1, ?_⟩
          by_contra ha
          have : (la != ra) = true := by simpa using ha
          rw [this] at h
          exact absurd h (by simp)
        · rintro (⟨_, ha⟩ | h)
          · simp [ha]
          · exact absurd ⟨h.1, h.2.1⟩ hp2
      · have hl : (lb == BuiltInType.Placeholder) = false := by
          cases h : (lb == BuiltInType.Placeholder) <;> simp_all
        have hr : (rb == BuiltInType.Placeholder) = false := by
          cases h : (rb == BuiltInType.Placeholder) <;> simp_all
        simp only [hl, hr, Bool.or_self, Bool.false_eq_true, if_false, false_or, or_self,
          false_and, true_and]
        by_cases hf : (lb == rb && ln == rn && lr == rr && la == ra) = true
        · have hf1 : lb = rb ∧ ln = rn ∧ lr = rr ∧ la = ra := by
            simpa [Bool.and_eq_true, and_assoc] using hf
          obtain ⟨h1, h2, h3, h4⟩ := hf1
          subst h1 h2 h3 h4
          simp only [beq_self_eq_true, Bool.and_self, if_true, true_and]
          by_cases hfn : (lb == BuiltInType.Function) = true
          · simp only [hfn, if_true, true_implies]
            cases lf with
            | none => simp
            | some ls =>
              cases rf with
              | none => simp
              | some rs =>
                cases hs : ext.signatureEquals ls rs
                · simp [hs]
                · by_cases hlen : lg.length = rg.length
                  · simp [hs, hlen, Ty.typeParametersLoop_eq_ok_true ext lg rg hlen]
                  · simp [hs, hlen]
          · simp only [hfn, Bool.false_eq_true, if_false, false_implies, true_and]
            by_cases hlen : lg.length = rg.length
            · simp [hlen, Ty.typeParametersLoop_eq_ok_true ext lg rg hlen]
            · simp [hlen]
        · have hf0 : (lb == rb && ln == rn && lr == rr && la == ra) = false := by
            simpa using hf
          simp only [hf0, Bool.false_eq_true, if_false]
          constructor
          · intro h; exact absurd h (by simp)
          · rintro ⟨h1, h2, h3, h4, _⟩
            subst h1 h2 h3 h4
            simp at hf0

/-- C13: for built-in types `L` and `R`, neither a placeholder, not both
enumerations, not both function types, and not a reference `L` with a null `R`,
`areInitializable(L, R)` returns, and returns `true` exactly when the kinds are
equal or the kind of `R` converts implicitly to that of `L`, and the `array` flags are
equal. -/
theorem C13_builtins_initializable (ext : Externals) (left right : Ty)
    (hlb : left.isBuiltIn = true) (hrb : right.isBuiltIn = true)
    (hlp : left.isPlaceholder = false) (hrp : right.isPlaceholder = false)
    (henum : ¬(left.isEnumeration = true ∧ right.isEnumeration = true))
    (hfun : ¬(left.isFunction = true ∧ right.isFunction = true))
    (hnull : ¬(left.isReference = true ∧ right.isNull = true)) :
    Ty.areInitializable ext left right =
      .ok ((left.builtInType == right.builtInType ||
          Ty.areBuiltInsImplicitlyConvertable right.builtInType left.builtInType) &&
        left.array == right.array) := by
  have h1 : (left.isReference && right.isNull) = false := by
    simpa [Bool.and_eq_true] using hnull
  have h2 : (left.isEnumeration && right.isEnumeration) = false := by
    simpa [Bool.and_eq_true] using henum
  have h3 : (left.isFunction && right.isFunction) = false := by
    simpa [Bool.and_eq_true] using hfun
  simp only [Ty.areInitializable, Ty.kindsAreInitializable, hlp, hrp, h1, h2, h3, hlb, hrb,
    Bool.or_self, Bool.and_self, Bool.false_eq_true, if_false, if_true]
  by_cases hk : left.builtInType = right.builtInType
  · by_cases ha : left.array = right.array <;> simp [hk, ha]
  · by_cases hc : Ty.areBuiltInsImplicitlyConvertable right.builtInType left.builtInType = true
    · by_cases ha : left.array = right.array <;> simp [hk, hc, ha]
    · simp [hk, hc]

/-- C13 at `int` from `byte`, which is accepted, and at `byte` from `int`, which
is not. -/
theorem C13_builtins_initializable_witness :
    Ty.areInitializable sampleExternals (Ty.createBuiltIn .Integer) (Ty.createBuiltIn .Byte)
      = .ok true ∧
    Ty.areInitializable sampleExternals (Ty.createBuiltIn .Byte) (Ty.createBuiltIn .Integer)
      = .ok false :=
  ⟨C13_builtins_initializable sampleExternals (Ty.createBuiltIn .Integer)
      (Ty.createBuiltIn .Byte) (by decide) (by decide) (by decide) (by decide) (by decide)
      (by decide) (by decide),
    C13_builtins_initializable sampleExternals (Ty.createBuiltIn .Byte)
      (Ty.createBuiltIn .Integer) (by decide) (by decide) (by decide) (by decide) (by decide)
      (by decide) (by decide)⟩

mutual
/-- With a reflexive `FunctionSignature::equals`, a type whose function signatures
are present is equated with itself by `areEqualNoConstCheck`. -/
theorem Ty.areEqualNoConstCheck_self (ext : Externals)
    (hrefl : ∀ s, ext.signatureEquals s s = true) :
    ∀ (t : Ty) (checkTypeParameters : Bool), t.signaturesPresent = true →
      Ty.areEqualNoConstCheck ext t t checkTypeParameters = .ok true
  | .mk b n g d f c r a, checkTypeParameters, h => by
    simp only [Ty.signaturesPresent, Bool.and_eq_true] at h
    obtain ⟨hf, hg⟩ := h
    have hloop := Ty.typeParametersLoop_self ext hrefl g hg
    simp only [Ty.areEqualNoConstCheck, Bool.or_self, beq_self_eq_true, Bool.and_self,
      bne_self_eq_false, if_true]
    by_cases hp : (b == BuiltInType.Placeholder) = true
    · simp [hp]
    · by_cases hfn : (b == BuiltInType.Function) = true
      · rw [if_pos hfn] at hf
        cases f with
        | none => simp at hf
        | some s => cases checkTypeParameters <;> simp [hp, hfn, hrefl, hloop]
      · cases checkTypeParameters <;> simp [hp, hfn, hloop]
/-- The loop of `areTypeParametersMatching` on a list against itself. -/
theorem Ty.typeParametersLoop_self (ext : Externals)
    (hrefl : ∀ s, ext.signatureEquals s s = true) :
    ∀ ts : List Ty, Ty.signaturesPresentAll ts = true →
      Ty.typeParametersLoop ext ts ts = .ok true
  | [], _ => by simp [Ty.typeParametersLoop]
  | t :: ts, h => by
    simp only [Ty.signaturesPresentAll, Bool.and_eq_true] at h
    have h1 := Ty.areEqualNoConstCheck_self ext hrefl t true h.1
    have h2 := Ty.typeParametersLoop_self ext hrefl ts h.2
    simp [Ty.typeParametersLoop, h1, h2]
end

/-- A type is its own match in `areTypeParametersMatching`. -/
theorem Ty.areTypeParametersMatching_self (ext : Externals)
    (hrefl : ∀ s, ext.signatureEquals s s = true) (t : Ty) (h : t.signaturesPresent = true) :
    Ty.areTypeParametersMatching ext t t = .ok true := by
  cases t with
  | mk b n g d f c r a =>
    simp only [Ty.signaturesPresent, Bool.and_eq_true] at h
    simp [Ty.areTypeParametersMatching, Ty.genericTypeParameters,
      Ty.typeParametersLoop_self ext hrefl g h.2]

/-- A type initialises a slot of its own type. -/
theorem Ty.areInitializable_self (ext : Externals)
    (hrefl : ∀ s, ext.signatureEquals s s = true) (t : Ty) (h : t.signaturesPresent = true) :
    Ty.areInitializable ext t t = .ok true := by
  have hm := Ty.areTypeParametersMatching_self ext hrefl t h
  simp only [Ty.areInitializable, Ty.kindsAreInitializable, Ty.areConvertable, Bool.or_self,
    Bool.and_self, bne_self_eq_false, beq_self_eq_true, hm, Bool.false_and, if_true,
    Bool.false_eq_true, if_false, Ty.isArray]
  by_cases hp : t.isPlaceholder = true
  · simp [hp]
  · by_cases hn : (t.isReference && t.isNull) = true
    · simp [hp, hn]
    · by_cases he : t.isEnumeration = true
      · simp [hp, hn, he]
      · by_cases hfn : t.isFunction = true
        · cases t with
          | mk b n g d f c r a =>
            simp only [Ty.isFunction, Ty.builtInType] at hfn
            simp only [Ty.signaturesPresent, hfn, if_true, Bool.and_eq_true] at h
            cases f with
            | none => simp at h
            | some s =>
              simp [hp, hn, he, Ty.isFunction, Ty.builtInType, hfn, Ty.functionSignature,
                hrefl]
        · by_cases hb : t.isBuiltIn = true
          · simp [hp, hn, he, hfn, hb]
          · simp [hp, hn, he, hfn, hb]

/-- The loop of `calculateCommonType` never widens a list against itself. -/
theorem Ty.commonTypeLoop_self : ∀ ts : List Ty, Ty.commonTypeLoop ts ts = false
  | [] => by simp [Ty.commonTypeLoop]
  | t :: ts => by
    have := Ty.commonTypeLoop_self ts
    cases hp : t.isPlaceholder <;> simp [Ty.commonTypeLoop, hp, this]

/-- C14, refuted as stated: for the function type that `Type::create(Function)`
gives, which has no signature yet, `calculateCommonType(t, t)` dereferences the
null signature and returns nothing. -/
theorem C14_counterexample_function_without_signature :
    Ty.calculateCommonType sampleExternals (some (Ty.createBuiltIn .Function))
      (Ty.createBuiltIn .Function) = .error .nullDereference := by
  rfl

/-- C14, amended: with a reflexive `FunctionSignature::equals`, for every type `t`
in which every function type, `t` itself and recursively its generic type
parameters, carries a function signature, `calculateCommonType(t, t)` returns
`t` itself. -/
theorem C14_common_type_of_type_with_itself (ext : Externals)
    (hrefl : ∀ s, ext.signatureEquals s s = true) (t : Ty) (h : t.signaturesPresent = true) :
    Ty.calculateCommonType ext (some t) t = .ok (some t) := by
  simp only [Ty.calculateCommonType, Ty.areInitializable_self ext hrefl t h, bne_self_eq_false,
    Bool.false_eq_true, if_false, Ty.commonTypeLoop_self]
  (repeat' split) <;> rfl

/-- C14 amended, at `List<int>`. -/
theorem C14_common_type_of_type_with_itself_witness :
    sampleListOfInt.signaturesPresent = true ∧
    Ty.calculateCommonType sampleExternals (some sampleListOfInt) sampleListOfInt
      = .ok (some sampleListOfInt) :=
  ⟨by decide,
    C14_common_type_of_type_with_itself sampleExternals (fun _ => rfl) sampleListOfInt
      (by decide)⟩

/-- On lists of the same length the loop of `calculateCommonType` answers whether
some position has a placeholder on the previous side and none on the current
side. -/
theorem Ty.commonTypeLoop_eq_any :
    ∀ ps cs : List Ty,
      Ty.commonTypeLoop ps cs =
        (List.zip ps cs).any (fun pair => pair.1.isPlaceholder && !pair.2.isPlaceholder)
  | [], _ => by simp [Ty.commonTypeLoop]
  | _ :: _, [] => by simp [Ty.commonTypeLoop]
  | p :: ps, c :: cs => by
    have ih := Ty.commonTypeLoop_eq_any ps cs
    simp only [Ty.commonTypeLoop, List.zip_cons_cons, List.any_cons, ih]
    cases (p.isPlaceholder && !c.isPlaceholder) <;> simp

/-- Two enumerations that `areInitializable` accepts, the null rule apart, have
as many type parameters as each other. -/
theorem Ty.areInitializable_enumerations_length (ext : Externals) (prev cur : Ty)
    (hp : prev.isEnumeration = true) (hc : cur.isEnumeration = true)
    (h : Ty.areInitializable ext prev cur = .ok true) :
    prev.genericTypeParameters.length = cur.genericTypeParameters.length := by
  have hpk : prev.builtInType = .Enumeration := by simpa [Ty.isEnumeration] using hp
  have hck : cur.builtInType = .Enumeration := by simpa [Ty.isEnumeration] using hc
  have h1 : prev.isPlaceholder = false := by simp [Ty.isPlaceholder, hpk]
  have h2 : cur.isPlaceholder = false := by simp [Ty.isPlaceholder, hck]
  have h3 : cur.isNull = false := by simp [Ty.isNull, hck]
  simp only [Ty.areInitializable, Ty.kindsAreInitializable, h1, h2, h3, hp, hc, Bool.or_self,
    Bool.and_false, Bool.and_self, Bool.false_eq_true, if_false, if_true,
    Ty.areTypeParametersMatching] at h
  by_contra hlen
  have hlen1 : (prev.genericTypeParameters.length != cur.genericTypeParameters.length)
      = true := by simpa using hlen
  rw [hlen1] at h
  simp only [if_true] at h
  split at h
  · exact absurd h (by simp)
  · exact absurd h (by simp)
  · rename_i heq
    split at heq <;> exact absurd heq (by simp)

/-- C15: for present types `prev` and `cur`, `calculateCommonType(prev, cur)` is
`prev` when `cur` is null and `prev` a reference; else `cur` when `prev` is
null and `cur` a reference; else absent when `areInitializable(prev, cur)` is
false; else `cur` when both are enumerations and at some position the generic
parameter of `prev` is a placeholder while that of `cur` is not; else `prev`;
and it fails only where `areInitializable(prev, cur)` fails. -/
theorem C15_common_type_cases (ext : Externals) (prev cur : Ty) :
    Ty.calculateCommonType ext (some prev) cur = Ty.calculateCommonTypeSpec ext prev cur := by
  simp only [Ty.calculateCommonType, Ty.calculateCommonTypeSpec]
  split
  · rfl
  · split
    · rfl
    · cases hinit : Ty.areInitializable ext prev cur with
      | error e => rfl
      | ok b =>
        cases b
        · rfl
        · simp only []
          by_cases he : (prev.isEnumeration && cur.isEnumeration) = true
          · have he1 : prev.isEnumeration = true ∧ cur.isEnumeration = true := by
              simpa [Bool.and_eq_true] using he
            have hlen := Ty.areInitializable_enumerations_length ext prev cur he1.1 he1.2 hinit
            rw [he, hlen]
            simp only [bne_self_eq_false, Bool.false_eq_true, if_false, Bool.true_and,
              Ty.commonTypeLoop_eq_any, if_true]
          · have he0 : (prev.isEnumeration && cur.isEnumeration) = false := by simpa using he
            simp [he0]

/-- A user-named type renders as its name. -/
theorem Ty.toString_ofName (name : Identifier) : (Ty.ofName name).toString = .ok name := by
  simp [Ty.ofName, Ty.toString]

/-- C16, refuted as stated: `Type::create("var")` is the implicit type, which
renders as `implicit`, not as `var`. -/
theorem C16_counterexample_var :
    (Ty.create "var").toString = .ok "implicit" ∧ ("implicit" : Identifier) ≠ "var" := by
  decide

/-- C16, amended: for every identifier other than `var`, the keywords `void`,
`byte`, `char`, `int`, `long`, `float`, `bool`, `string`, `object` and every
user name included, `Type::create(name).toString()` returns `name`. -/
theorem C16_create_toString_roundtrip (name : Identifier) (h : name ≠ "var") :
    (Ty.create name).toString = .ok name := by
  unfold Ty.create
  split
  · next h1 => rw [h1]; decide
  · split
    · next h1 => exact absurd h1 h
    · split
      · next h1 => rw [h1]; decide
      · split
        · next h1 => rw [h1]; decide
        · split
          · next h1 => rw [h1]; decide
          · split
            · next h1 => rw [h1]; decide
            · split
              · next h1 => rw [h1]; decide
              · split
                · next h1 => rw [h1]; decide
                · split
                  · next h1 => rw [h1]; decide
                  · split
                    · next h1 => rw [h1]; decide
                    · exact Ty.toString_ofName name

/-- C16 amended, at the user name `Foo` and at the keyword `int`. -/
theorem C16_create_toString_roundtrip_witness :
    (Ty.create "Foo").toString = .ok "Foo" ∧ (Ty.create "int").toString = .ok "int" :=
  ⟨C16_create_toString_roundtrip "Foo" (by decide),
    C16_create_toString_roundtrip "int" (by decide)⟩

/-- C17: for every slot type `L`, `isInitializableByExpression(L, e)` is `false`
when `e` has no type; is `areInitializable(L, Byte)` when `e` has a type and is
an integer literal below 256; and is `areInitializable(L, type(e))` for every
other typed `e`. So an integer literal below 256 initialises a `byte` slot, and
an integer literal of 256 or more, typed `int`, does not. -/
theorem C17_initializable_by_expression (context : Context) (left : Ty) :
    (∀ expression : Expression, context.getType expression = none →
      Ty.isInitializableByExpression context left expression = .ok false) ∧
    (∀ (value : Int) (right : Ty), context.getType (.IntegerLiteral value) = some right →
      value < 256 →
      Ty.isInitializableByExpression context left (.IntegerLiteral value) =
        Ty.areInitializable context.externals left (Ty.createBuiltIn .Byte)) ∧
    (∀ (expression : Expression) (right : Ty), context.getType expression = some right →
      (∀ value : Int, expression = .IntegerLiteral value → 256 ≤ value) →
      Ty.isInitializableByExpression context left expression =
        Ty.areInitializable context.externals left right) ∧
    (∀ (value : Int) (right : Ty), context.getType (.IntegerLiteral value) = some right →
      value < 256 →
      Ty.isInitializableByExpression context (Ty.createBuiltIn .Byte) (.IntegerLiteral value)
        = .ok true) ∧
    (∀ value : Int,
      context.getType (.IntegerLiteral value) = some (Ty.createBuiltIn .Integer) →
      256 ≤ value →
      Ty.isInitializableByExpression context (Ty.createBuiltIn .Byte) (.IntegerLiteral value)
        = .ok false) := by
  refine ⟨?_, ?_, ?_, ?_, ?_⟩
  · intro expression h
    simp [Ty.isInitializableByExpression, h]
  · intro value right h hv
    simp [Ty.isInitializableByExpression, h, hv]
  · intro expression right h hv
    cases expression with
    | IntegerLiteral value =>
      have : ¬ value < 256 := not_lt.mpr (hv value rfl)
      simp [Ty.isInitializableByExpression, h, this]
    | _ => simp [Ty.isInitializableByExpression, h]
  · intro value right h hv
    simp only [Ty.isInitializableByExpression, h, hv, if_true]
    rfl
  · intro value h hv
    have : ¬ value < 256 := not_lt.mpr hv
    simp only [Ty.isInitializableByExpression, h, this, if_false]
    rfl

/-- C17 at the literals `7` and `300`, typed `int`, for a `byte` slot. -/
theorem C17_initializable_by_expression_witness :
    Ty.isInitializableByExpression
        (sampleContext (Ty.createBuiltIn .Integer) (Ty.createBuiltIn .Integer))
        (Ty.createBuiltIn .Byte) (.IntegerLiteral 7) = .ok true ∧
    Ty.isInitializableByExpression
        (sampleContext (Ty.createBuiltIn .Integer) (Ty.createBuiltIn .Integer))
        (Ty.createBuiltIn .Byte) (.IntegerLiteral 300) = .ok false :=
  ⟨(C17_initializable_by_expression
      (sampleContext (Ty.createBuiltIn .Integer) (Ty.createBuiltIn .Integer))
      (Ty.createBuiltIn .Byte)).2.2.2.1 7 (Ty.createBuiltIn .Integer) rfl (by decide),
    (C17_initializable_by_expression
      (sampleContext (Ty.createBuiltIn .Integer) (Ty.createBuiltIn .Integer))
      (Ty.createBuiltIn .Byte)).2.2.2.2 300 rfl (by decide)⟩

/-- The entries put in front are looked through first. -/
theorem BindingMap.find_append {δ μ : Type} (front back : BindingMap δ μ) (name : Identifier) :
    BindingMap.find (front ++ back) name =
      (BindingMap.find front name).orElse fun _ => BindingMap.find back name := by
  induction front with
  | nil => simp [BindingMap.find]
  | cons entry rest ih =>
    obtain ⟨key, binding⟩ := entry
    by_cases h : key = name
    · simp [BindingMap.find, h]
    · simp [BindingMap.find, h, ih]

/-- The insert statement of a scope meets the contract of an insert operation. -/
theorem NameBindings.insertBinding_insertsAs {δ μ : Type} (scope : NameBindings δ μ)
    (name : Identifier) (binding : Binding δ μ) :
    scope.InsertsAs name binding (scope.insertBinding name binding) := by
  cases scope with
  | mk bindings enclosing =>
    simp only [NameBindings.InsertsAs, NameBindings.insertBinding, NameBindings.lookupLocal,
      NameBindings.bindings, NameBindings.enclosing, BindingMap.insert]
    cases h : BindingMap.find bindings name with
    | none => simp [BindingMap.find_append, h, BindingMap.find]
    | some found => simp

/-- Looking a name up walks the chain and stops at the first scope that binds it. -/
theorem NameBindings.lookup_eq_some_iff {δ μ : Type} :
    ∀ (scope : NameBindings δ μ) (name : Identifier) (binding : Binding δ μ),
      scope.lookup name = some binding ↔
        ∃ inner held outer, scope.chain = inner ++ held :: outer ∧
          (∀ s ∈ inner, BindingMap.find s name = none) ∧
          BindingMap.find held name = some binding
  | .mk bindings none, name, binding => by
    simp only [NameBindings.lookup, NameBindings.chain]
    constructor
    · intro h
      refine ⟨[], bindings, [], rfl, by simp, ?_⟩
      cases hf : BindingMap.find bindings name with
      | none => rw [hf] at h; simp at h
      | some b => rw [hf] at h; simpa using h
    · rintro ⟨inner, held, outer, hchain, _, hheld⟩
      cases inner with
      | nil =>
        simp only [List.nil_append, List.cons.injEq] at hchain
        rw [hchain.1, hheld]
      | cons s inner =>
        simp only [List.cons_append, List.cons.injEq] at hchain
        exact absurd hchain.2 (by simp)
  | .mk bindings (some enc), name, binding => by
    have ih := NameBindings.lookup_eq_some_iff enc name binding
    simp only [NameBindings.lookup, NameBindings.chain]
    cases hf : BindingMap.find bindings name with
    | none =>
      simp only [ih]
      constructor
      · rintro ⟨inner, held, outer, hchain, hinner, hheld⟩
        refine ⟨bindings :: inner, held, outer, by simp [hchain], ?_, hheld⟩
        intro s hs
        rcases List.mem_cons.mp hs with h | h
        · rw [h]; exact hf
        · exact hinner s h
      · rintro ⟨inner, held, outer, hchain, hinner, hheld⟩
        cases inner with
        | nil =>
          simp only [List.nil_append, List.cons.injEq] at hchain
          rw [← hchain.1, hf] at hheld
          simp at hheld
        | cons s inner =>
          simp only [List.cons_append, List.cons.injEq] at hchain
          exact ⟨inner, held, outer, hchain.2, fun t ht => hinner t (List.mem_cons_of_mem _ ht),
            hheld⟩
    | some b =>
      constructor
      · intro h
        exact ⟨[], bindings, enc.chain, rfl, by simp, by simpa [hf] using h⟩
      · rintro ⟨inner, held, outer, hchain, hinner, hheld⟩
        cases inner with
        | nil =>
          simp only [List.nil_append, List.cons.injEq] at hchain
          rw [← hchain.1, hf] at hheld
          simpa using hheld
        | cons s inner =>
          simp only [List.cons_append, List.cons.injEq] at hchain
          have := hinner s (List.mem_cons_self _ _)
          rw [← hchain.1, hf] at this
          simp at this

/-- Looking a name up finds nothing exactly when no scope of the chain binds it. -/
theorem NameBindings.lookup_eq_none_iff {δ μ : Type} :
    ∀ (scope : NameBindings δ μ) (name : Identifier),
      scope.lookup name = none ↔ ∀ s ∈ scope.chain, BindingMap.find s name = none
  | .mk bindings none, name => by
    simp only [NameBindings.lookup, NameBindings.chain]
    cases hf : BindingMap.find bindings name <;> simp [hf]
  | .mk bindings (some enc), name => by
    have ih := NameBindings.lookup_eq_none_iff enc name
    simp only [NameBindings.lookup, NameBindings.chain]
    cases hf : BindingMap.find bindings name <;> simp [hf, ih]

/-- C18: for every chain of nested scopes and every name, `lookup(name)` returns
the binding held by the innermost scope of the chain, from the current scope
toward the root, that binds the name; it returns absent exactly when no scope
of the chain binds the name; and `lookupLocal(name)` returns the binding of the
current scope only, whatever the enclosing scopes are. -/
theorem C18_lookup_innermost {δ μ : Type} (scope : NameBindings δ μ) (name : Identifier) :
    (∀ binding : Binding δ μ, scope.lookup name = some binding ↔
      ∃ inner held outer, scope.chain = inner ++ held :: outer ∧
        (∀ s ∈ inner, BindingMap.find s name = none) ∧
        BindingMap.find held name = some binding) ∧
    (scope.lookup name = none ↔ ∀ s ∈ scope.chain, BindingMap.find s name = none) ∧
    scope.lookupLocal name = BindingMap.find scope.bindings name ∧
    ∀ other : Option (NameBindings δ μ),
      (NameBindings.mk scope.bindings other).lookupLocal name = scope.lookupLocal name :=
  ⟨NameBindings.lookup_eq_some_iff scope name, NameBindings.lookup_eq_none_iff scope name, rfl,
    fun _ => rfl⟩

/-- Looking a type up walks the chain and stops at the first scope that binds the
name to a class or a generic type parameter. -/
theorem NameBindings.lookupType_eq_some_iff {δ μ : Type} :
    ∀ (scope : NameBindings δ μ) (name : Identifier) (d : δ),
      scope.lookupType name = some d ↔
        ∃ inner held outer binding, scope.chain = inner ++ held :: outer ∧
          (∀ s ∈ inner, ∀ b, BindingMap.find s name = some b → b.isReferencingType = false) ∧
          BindingMap.find held name = some binding ∧ binding.isReferencingType = true ∧
          binding.definition = some d
  | .mk bindings none, name, d => by
    simp only [NameBindings.lookupType, NameBindings.chain]
    constructor
    · intro h
      cases hf : BindingMap.find bindings name with
      | none => rw [hf] at h; simp at h
      | some b =>
        rw [hf] at h
        cases hr : b.isReferencingType with
        | false => simp [hr] at h
        | true =>
          simp only [hr, Bool.not_true, Bool.false_eq_true, if_false] at h
          exact ⟨[], bindings, [], b, rfl, by simp, hf, hr, h⟩
    · rintro ⟨inner, held, outer, binding, hchain, _, hheld, hr, hd⟩
      cases inner with
      | nil =>
        simp only [List.nil_append, List.cons.injEq] at hchain
        rw [hchain.1, hheld]
        simp [hr, hd]
      | cons s inner =>
        simp only [List.cons_append, List.cons.injEq] at hchain
        exact absurd hchain.2 (by simp)
  | .mk bindings (some enc), name, d => by
    have ih := NameBindings.lookupType_eq_some_iff enc name d
    simp only [NameBindings.lookupType, NameBindings.chain]
    have skip : (∀ b, BindingMap.find bindings name = some b → b.isReferencingType = false) →
        (enc.lookupType name = some d ↔
          ∃ inner held outer binding, bindings :: enc.chain = inner ++ held :: outer ∧
            (∀ s ∈ inner, ∀ b, BindingMap.find s name = some b →
              b.isReferencingType = false) ∧
            BindingMap.find held name = some binding ∧ binding.isReferencingType = true ∧
            binding.definition = some d) := by
      intro hskip
      rw [ih]
      constructor
      · rintro ⟨inner, held, outer, binding, hchain, hinner, hrest⟩
        refine ⟨bindings :: inner, held, outer, binding, by simp [hchain], ?_, hrest⟩
        intro s hs
        rcases List.mem_cons.mp hs with h | h
        · rw [h]; exact hskip
        · exact hinner s h
      · rintro ⟨inner, held, outer, binding, hchain, hinner, hheld, hr, hd⟩
        cases inner with
        | nil =>
          simp only [List.nil_append, List.cons.injEq] at hchain
          rw [← hchain.1] at hheld
          rw [hskip binding hheld] at hr
          simp at hr
        | cons s inner =>
          simp only [List.cons_append, List.cons.injEq] at hchain
          exact ⟨inner, held, outer, binding, hchain.2,
            fun t ht => hinner t (List.mem_cons_of_mem _ ht), hheld, hr, hd⟩
    cases hf : BindingMap.find bindings name with
    | none => exact skip (by simp [hf])
    | some b =>
      cases hr : b.isReferencingType with
      | false =>
        simp only [hr, Bool.not_false, if_true]
        apply skip
        intro b1 hb1
        rw [hf] at hb1
        simp only [Option.some.injEq] at hb1
        rw [← hb1]; exact hr
      | true =>
        simp only [hr, Bool.not_true, Bool.false_eq_true, if_false]
        constructor
        · intro h
          exact ⟨[], bindings, enc.chain, b, rfl, by simp, hf, hr, h⟩
        · rintro ⟨inner, held, outer, binding, hchain, hinner, hheld, _, hd⟩
          cases inner with
          | nil =>
            simp only [List.nil_append, List.cons.injEq] at hchain
            rw [← hchain.1, hf] at hheld
            simp only [Option.some.injEq] at hheld
            rw [hheld]; exact hd
          | cons s inner =>
            simp only [List.cons_append, List.cons.injEq] at hchain
            have := hinner s (List.mem_cons_self _ _) b (by rw [← hchain.1]; exact hf)
            rw [hr] at this
            simp at this

/-- Looking a type up finds nothing exactly when no scope of the chain binds the
name to a class or a generic type parameter, provided such bindings hold their
definition. -/
theorem NameBindings.lookupType_eq_none_iff {δ μ : Type} :
    ∀ (scope : NameBindings δ μ) (name : Identifier),
      (∀ s ∈ scope.chain, ∀ b, BindingMap.find s name = some b →
        b.isReferencingType = true → b.definition ≠ none) →
      (scope.lookupType name = none ↔
        ∀ s ∈ scope.chain, ∀ b, BindingMap.find s name = some b →
          b.isReferencingType = false)
  | .mk bindings none, name, hwf => by
    simp only [NameBindings.chain, List.mem_singleton, forall_eq] at hwf
    simp only [NameBindings.lookupType, NameBindings.chain, List.mem_singleton, forall_eq]
    cases hf : BindingMap.find bindings name with
    | none => simp
    | some b =>
      cases hr : b.isReferencingType with
      | false => simp [hr]
      | true =>
        have := hwf b hf hr
        simp [hr, this]
  | .mk bindings (some enc), name, hwf => by
    simp only [NameBindings.chain, List.mem_cons, forall_eq_or_imp] at hwf
    have ih := NameBindings.lookupType_eq_none_iff enc name hwf.2
    simp only [NameBindings.lookupType, NameBindings.chain, List.mem_cons, forall_eq_or_imp]
    cases hf : BindingMap.find bindings name with
    | none => simp [ih]
    | some b =>
      cases hr : b.isReferencingType with
      | false => simp [hr, ih]
      | true =>
        have := hwf.1 b hf hr
        simp [hr, this]

/-- C19: a binding references a type exactly when its kind is `Class` or
`GenericTypeParameter`; for every chain of scopes and every name,
`lookupType(name)` returns the definition held by the innermost scope's binding
of the name that references a type, skipping the scopes that bind the name to
another kind; and, such bindings holding their definition, it returns absent
exactly when no scope of the chain binds the name to a binding that references
a type. -/
theorem C19_lookupType_innermost_type {δ μ : Type} (scope : NameBindings δ μ)
    (name : Identifier) :
    (∀ binding : Binding δ μ, binding.isReferencingType = true ↔
      binding.referencedEntity = .Class ∨ binding.referencedEntity = .GenericTypeParameter) ∧
    (∀ d : δ, scope.lookupType name = some d ↔
      ∃ inner held outer binding, scope.chain = inner ++ held :: outer ∧
        (∀ s ∈ inner, ∀ b, BindingMap.find s name = some b → b.isReferencingType = false) ∧
        BindingMap.find held name = some binding ∧ binding.isReferencingType = true ∧
        binding.definition = some d) ∧
    ((∀ s ∈ scope.chain, ∀ b, BindingMap.find s name = some b →
        b.isReferencingType = true → b.definition ≠ none) →
      (scope.lookupType name = none ↔
        ∀ s ∈ scope.chain, ∀ b, BindingMap.find s name = some b →
          b.isReferencingType = false)) := by
  refine ⟨?_, NameBindings.lookupType_eq_some_iff scope name,
    NameBindings.lookupType_eq_none_iff scope name⟩
  intro binding
  simp only [Binding.isReferencingType]
  cases binding.referencedEntity <;> simp

/-- C19 at the sample chain: `A` is a local in the block and a class outside, `x`
is a local in the block and a data member outside. -/
theorem C19_lookupType_innermost_type_witness :
    sampleScope.lookupType "A" = some "class A" ∧ sampleScope.lookupType "x" = none :=
  ⟨by decide,
    ((C19_lookupType_innermost_type sampleScope "x").2.2 (by decide)).mpr (by decide)⟩

/-- C20: each of `insertLocalObject`, `insertClass`, `insertDataMember`,
`insertMethod` and `insertGenericTypeParameter` returns `true` exactly when the
identifier is not bound in the current scope, whatever the enclosing scopes
bind; on `true` the identifier is then bound locally to a binding of the
inserted kind with the given payload; on `false` the scope is unchanged. So in
a scope that does not bind it, inserting a local object twice succeeds the
first time and fails the second. -/
theorem C20_insert_contract {δ μ : Type} (scope : NameBindings δ μ) :
    (∀ localObject : VariableDeclaration,
      scope.InsertsAs localObject.identifier ⟨.LocalObject, none, some localObject, []⟩
        (scope.insertLocalObject localObject)) ∧
    (∀ (name : Identifier) (classDef : δ),
      scope.InsertsAs name ⟨.Class, some classDef, none, []⟩
        (scope.insertClass name classDef)) ∧
    (∀ (name : Identifier) (dataMemberDef : δ),
      scope.InsertsAs name ⟨.DataMember, some dataMemberDef, none, []⟩
        (scope.insertDataMember name dataMemberDef)) ∧
    (∀ (name : Identifier) (methodDef : μ),
      scope.InsertsAs name ⟨.Method, none, none, [methodDef]⟩
        (scope.insertMethod name methodDef)) ∧
    (∀ (name : Identifier) (genericTypeParameterDef : δ),
      scope.InsertsAs name ⟨.GenericTypeParameter, some genericTypeParameterDef, none, []⟩
        (scope.insertGenericTypeParameter name genericTypeParameterDef)) ∧
    (∀ (enclosing : Option (NameBindings δ μ)) (name : Identifier) (binding : Binding δ μ),
      ((NameBindings.mk scope.bindings enclosing).insertBinding name binding).1 =
        (scope.insertBinding name binding).1) ∧
    (∀ localObject : VariableDeclaration, scope.lookupLocal localObject.identifier = none →
      (scope.insertLocalObject localObject).1 = true ∧
      ((scope.insertLocalObject localObject).2.insertLocalObject localObject).1 = false) := by
  refine ⟨fun o => NameBindings.insertBinding_insertsAs scope _ _,
    fun n d => NameBindings.insertBinding_insertsAs scope _ _,
    fun n d => NameBindings.insertBinding_insertsAs scope _ _,
    fun n d => NameBindings.insertBinding_insertsAs scope _ _,
    fun n d => NameBindings.insertBinding_insertsAs scope _ _, fun _ _ _ => rfl, ?_⟩
  intro localObject hfree
  have first := NameBindings.insertBinding_insertsAs scope localObject.identifier
    (Binding.ofLocalObject .LocalObject localObject)
  have hfirst : (scope.insertLocalObject localObject).1 = true := first.1.mpr hfree
  refine ⟨hfirst, ?_⟩
  have hbound := first.2.1 hfirst
  have second := NameBindings.insertBinding_insertsAs (scope.insertLocalObject localObject).2
    localObject.identifier (Binding.ofLocalObject .LocalObject localObject)
  cases hs : ((scope.insertLocalObject localObject).2.insertLocalObject localObject).1 with
  | false => rfl
  | true =>
    have := second.1.mp hs
    rw [NameBindings.insertLocalObject] at this
    rw [hbound] at this
    simp at this

/-- C20 at the sample chain, inserting the local `y` twice. -/
theorem C20_insert_contract_witness :
    (sampleScope.insertLocalObject ⟨Ty.create "int", "y"⟩).1 = true ∧
    ((sampleScope.insertLocalObject ⟨Ty.create "int", "y"⟩).2.insertLocalObject
      ⟨Ty.create "int", "y"⟩).1 = false :=
  (C20_insert_contract sampleScope).2.2.2.2.2.2 ⟨Ty.create "int", "y"⟩ rfl

/-- Looking up in a scope rebuilt from its parts. -/
theorem NameBindings.lookupLocal_mk {δ μ : Type} (bindings : BindingMap δ μ)
    (enclosing : Option (NameBindings δ μ)) (name : Identifier) :
    (NameBindings.mk bindings enclosing).lookupLocal name = BindingMap.find bindings name :=
  rfl

/-- A change to the entry of a name shows in the binding found for that name. -/
theorem BindingMap.find_modify_self {δ μ : Type} (bindings : BindingMap δ μ)
    (name : Identifier) (change : Binding δ μ → Binding δ μ) :
    BindingMap.find (BindingMap.modify bindings name change) name =
      (BindingMap.find bindings name).map change := by
  induction bindings with
  | nil => rfl
  | cons entry rest ih =>
    obtain ⟨key, binding⟩ := entry
    by_cases h : key = name
    · simp [BindingMap.modify, BindingMap.find, h]
    · simp [BindingMap.modify, BindingMap.find, h, ih]

/-- A change to the entry of a name leaves the bindings of the other names. -/
theorem BindingMap.find_modify_other {δ μ : Type} (bindings : BindingMap δ μ)
    (name other : Identifier) (change : Binding δ μ → Binding δ μ) (h : other ≠ name) :
    BindingMap.find (BindingMap.modify bindings name change) other =
      BindingMap.find bindings other := by
  induction bindings with
  | nil => rfl
  | cons entry rest ih =>
    obtain ⟨key, binding⟩ := entry
    by_cases hk : key = name
    · have : key ≠ other := fun e => h (e ▸ hk)
      simp [BindingMap.modify, BindingMap.find, hk, this, h.symm]
    · by_cases ho : key = other
      · subst ho
        simp [BindingMap.modify, BindingMap.find, hk]
      · simp [BindingMap.modify, BindingMap.find, hk, ho, ih]

/-- An insertion leaves the bindings of the other names. -/
theorem BindingMap.find_insert_other {δ μ : Type} (bindings : BindingMap δ μ)
    (name other : Identifier) (binding : Binding δ μ) (h : other ≠ name) :
    BindingMap.find (BindingMap.insert bindings name binding).1 other =
      BindingMap.find bindings other := by
  simp only [BindingMap.insert]
  cases hf : BindingMap.find bindings name with
  | some found => rfl
  | none =>
    simp only [BindingMap.find_append, BindingMap.find, h.symm, if_false]
    cases BindingMap.find bindings other <;> rfl

/-- An insertion of a name that the map does not hold binds the name. -/
theorem BindingMap.find_insert_self {δ μ : Type} (bindings : BindingMap δ μ)
    (name : Identifier) (binding : Binding δ μ) (h : BindingMap.find bindings name = none) :
    BindingMap.find (BindingMap.insert bindings name binding).1 name = some binding := by
  simp [BindingMap.insert, h, BindingMap.find_append, BindingMap.find]

/-- C21: if the current scope binds the name to a binding that is not a method
binding, `overloadMethod(name, def)` returns `false` and leaves the scope, that
binding and its payload included, as it was. -/
theorem C21_overload_non_method_fails {δ μ : Type} (scope : NameBindings δ μ)
    (name : Identifier) (methodDef : μ) (binding : Binding δ μ)
    (hbound : scope.lookupLocal name = some binding)
    (hkind : binding.referencedEntity ≠ .Method) :
    scope.overloadMethod name methodDef = (false, scope) := by
  simp [NameBindings.overloadMethod, hbound, hkind]

/-- One more overload on a name bound to a method binding. -/
theorem NameBindings.overloadMethod_of_method {δ μ : Type} (scope : NameBindings δ μ)
    (name : Identifier) (methodDef : μ) (binding : Binding δ μ)
    (hbound : scope.lookupLocal name = some binding)
    (hkind : binding.referencedEntity = .Method) :
    (scope.overloadMethod name methodDef).1 = true ∧
    (scope.overloadMethod name methodDef).2.lookupLocal name =
      some { binding with methodList := binding.methodList ++ [methodDef] } ∧
    (scope.overloadMethod name methodDef).2.enclosing = scope.enclosing ∧
    ∀ other, other ≠ name →
      (scope.overloadMethod name methodDef).2.lookupLocal other = scope.lookupLocal other := by
  cases scope with
  | mk bindings enclosing =>
    simp only [NameBindings.lookupLocal, NameBindings.bindings] at hbound
    simp only [NameBindings.overloadMethod, NameBindings.lookupLocal, NameBindings.bindings,
      hbound, hkind, bne_self_eq_false, Bool.false_eq_true, if_false, NameBindings.enclosing,
      BindingMap.find_modify_self, Option.map_some', true_and]
    exact fun other h => BindingMap.find_modify_other bindings name other _ h

/-- The first overload on a name the scope does not bind. -/
theorem NameBindings.overloadMethod_of_absent {δ μ : Type} (scope : NameBindings δ μ)
    (name : Identifier) (methodDef : μ) (hfree : scope.lookupLocal name = none) :
    scope.overloadMethod name methodDef = scope.insertMethod name methodDef ∧
    (scope.overloadMethod name methodDef).1 = true ∧
    (scope.overloadMethod name methodDef).2.lookupLocal name =
      some ⟨.Method, none, none, [methodDef]⟩ ∧
    (scope.overloadMethod name methodDef).2.enclosing = scope.enclosing ∧
    ∀ other, other ≠ name →
      (scope.overloadMethod name methodDef).2.lookupLocal other = scope.lookupLocal other := by
  cases scope with
  | mk bindings enclosing =>
    simp only [NameBindings.lookupLocal, NameBindings.bindings] at hfree
    simp only [NameBindings.overloadMethod, NameBindings.lookupLocal, NameBindings.bindings,
      hfree, NameBindings.insertMethod, NameBindings.insertBinding, NameBindings.enclosing,
      true_and]
    refine ⟨by simp [BindingMap.insert, hfree], ?_, fun other h =>
      BindingMap.find_insert_other bindings name other _ h⟩
    rw [BindingMap.find_insert_self bindings name _ hfree]
    rfl

/-- Overloads on a name bound to a method binding: all succeed and append. -/
theorem NameBindings.overloadMethods_of_method {δ μ : Type} (name : Identifier) :
    ∀ (defs : List μ) (scope : NameBindings δ μ) (binding : Binding δ μ),
      scope.lookupLocal name = some binding → binding.referencedEntity = .Method →
      (scope.overloadMethods name defs).1 = List.replicate defs.length true ∧
      (scope.overloadMethods name defs).2.lookupLocal name =
        some { binding with methodList := binding.methodList ++ defs } ∧
      (scope.overloadMethods name defs).2.enclosing = scope.enclosing ∧
      ∀ other, other ≠ name →
        (scope.overloadMethods name defs).2.lookupLocal other = scope.lookupLocal other
  | [], scope, binding, hbound, _ => by
    simp [NameBindings.overloadMethods, hbound]
  | methodDef :: rest, scope, binding, hbound, hkind => by
    obtain ⟨h1, h2, h3, h4⟩ :=
      NameBindings.overloadMethod_of_method scope name methodDef binding hbound hkind
    obtain ⟨r1, r2, r3, r4⟩ :=
      NameBindings.overloadMethods_of_method name rest (scope.overloadMethod name methodDef).2
        { binding with methodList := binding.methodList ++ [methodDef] } h2 hkind
    refine ⟨?_, ?_, ?_, ?_⟩
    · simp [NameBindings.overloadMethods, h1, r1, List.replicate_succ]
    · simp only [NameBindings.overloadMethods, r2, List.append_assoc, List.singleton_append]
    · simp only [NameBindings.overloadMethods, r3, h3]
    · intro other h
      simp only [NameBindings.overloadMethods, r4 other h, h4 other h]

/-- C22: on a scope that does not bind the name locally, `k ≥ 1` successive calls
`overloadMethod(name, d1)`, ..., `overloadMethod(name, dk)` all return `true`
and leave the name bound to a method binding whose overload list is
`[d1, ..., dk]` in call order; the first call is `insertMethod(name, d1)`; the
enclosing scope and the binding of every other name are unchanged. -/
theorem C22_overloads_accumulate {δ μ : Type} (scope : NameBindings δ μ) (name : Identifier)
    (first : μ) (more : List μ) (hfree : scope.lookupLocal name = none) :
    (scope.overloadMethods name (first :: more)).1 =
      List.replicate (first :: more).length true ∧
    (scope.overloadMethods name (first :: more)).2.lookupLocal name =
      some ⟨.Method, none, none, first :: more⟩ ∧
    scope.overloadMethod name first = scope.insertMethod name first ∧
    (scope.overloadMethods name (first :: more)).2.enclosing = scope.enclosing ∧
    ∀ other, other ≠ name →
      (scope.overloadMethods name (first :: more)).2.lookupLocal other =
        scope.lookupLocal other := by
  obtain ⟨h0, h1, h2, h3, h4⟩ := NameBindings.overloadMethod_of_absent scope name first hfree
  obtain ⟨r1, r2, r3, r4⟩ :=
    NameBindings.overloadMethods_of_method name more (scope.overloadMethod name first).2
      ⟨.Method, none, none, [first]⟩ h2 rfl
  refine ⟨?_, ?_, h0, ?_, ?_⟩
  · simp [NameBindings.overloadMethods, h1, r1, List.replicate_succ]
  · simp only [NameBindings.overloadMethods, r2, List.singleton_append]
  · simp only [NameBindings.overloadMethods, r3, h3]
  · intro other h
    simp only [NameBindings.overloadMethods, r4 other h, h4 other h]

/-- C23: `insertLabel(n)` returns `true` exactly when `lookup(n)` is absent over
the whole chain; it returns `false` and changes nothing whenever the current
scope or an enclosing scope binds `n`; and on `true` the current scope, and
only it, gains a label binding for `n`, every other name keeping its binding. -/
theorem C23_insertLabel_whole_chain {δ μ : Type} (scope : NameBindings δ μ)
    (label : Identifier) :
    ((scope.insertLabel label).1 = true ↔ scope.lookup label = none) ∧
    ((∃ s ∈ scope.chain, BindingMap.find s label ≠ none) →
      scope.insertLabel label = (false, scope)) ∧
    ((scope.insertLabel label).1 = false → (scope.insertLabel label).2 = scope) ∧
    ((scope.insertLabel label).1 = true →
      (scope.insertLabel label).2.lookupLocal label = some ⟨.Label, none, none, []⟩ ∧
      (scope.insertLabel label).2.enclosing = scope.enclosing ∧
      ∀ other, other ≠ label →
        (scope.insertLabel label).2.lookupLocal other = scope.lookupLocal other) := by
  cases hl : scope.lookup label with
  | some found =>
    refine ⟨by simp [NameBindings.insertLabel, hl], fun _ => by simp [NameBindings.insertLabel, hl],
      fun _ => by simp [NameBindings.insertLabel, hl], fun h => ?_⟩
    simp [NameBindings.insertLabel, hl] at h
  | none =>
    have hnone := (NameBindings.lookup_eq_none_iff scope label).mp hl
    refine ⟨by simp [NameBindings.insertLabel, hl], ?_, fun h => ?_, fun _ => ?_⟩
    · rintro ⟨s, hs, hne⟩
      exact absurd (hnone s hs) hne
    · simp [NameBindings.insertLabel, hl] at h
    · cases scope with
      | mk bindings enclosing =>
        have hlocal : BindingMap.find bindings label = none := by
          apply hnone
          cases enclosing <;> simp [NameBindings.chain]
        simp only [NameBindings.insertLabel, hl, NameBindings.lookupLocal,
          NameBindings.bindings, NameBindings.enclosing, true_and]
        refine ⟨?_, fun other h => BindingMap.find_insert_other bindings label other _ h⟩
        rw [BindingMap.find_insert_self bindings label _ hlocal]
        rfl

/-- After erasing a name the map does not bind it. -/
theorem BindingMap.find_erase_self {δ μ : Type} (bindings : BindingMap δ μ)
    (name : Identifier) : BindingMap.find (BindingMap.erase bindings name) name = none := by
  induction bindings with
  | nil => rfl
  | cons entry rest ih =>
    obtain ⟨key, binding⟩ := entry
    by_cases h : key = name
    · simpa [BindingMap.erase, List.filter_cons, h] using ih
    · simpa [BindingMap.erase, List.filter_cons, h, BindingMap.find] using ih

/-- Erasing a name leaves the bindings of the other names. -/
theorem BindingMap.find_erase_other {δ μ : Type} (bindings : BindingMap δ μ)
    (name other : Identifier) (h : other ≠ name) :
    BindingMap.find (BindingMap.erase bindings name) other = BindingMap.find bindings other := by
  induction bindings with
  | nil => rfl
  | cons entry rest ih =>
    obtain ⟨key, binding⟩ := entry
    simp only [BindingMap.erase] at ih ⊢
    by_cases hk : key = name
    · subst hk
      have hne : ¬key = other := fun e => h e.symm
      simp only [List.filter_cons, bne_self_eq_false, Bool.false_eq_true, if_false,
        BindingMap.find, hne, ih]
    · have hkeep : (key != name) = true := by simpa using hk
      simp only [List.filter_cons, hkeep, if_true, BindingMap.find, ih]

/-- C25, refuted as stated: in a scope that binds `f` to a method binding,
`updateMethodName("f", "f")` returns `true`, although the new name is bound
locally, and `f` keeps its overload list. -/
theorem C25_counterexample_rename_to_itself :
    (sampleScopeOfMethods.lookupLocal "f").map (fun b => b.referencedEntity) = some .Method ∧
    (sampleScopeOfMethods.updateMethodName "f" "f").1 = true ∧
    ((sampleScopeOfMethods.updateMethodName "f" "f").2.lookupLocal "f").map
      (fun b => b.methodList) = some ["f(int)", "f(bool)"] := by
  decide

/-- C25, amended: `updateMethodName(old, new)` returns `true` exactly when the
current scope binds `old` to a method binding and `new` is `old` itself or is
not bound in the current scope. On success `lookupLocal(new)` is the former
binding of `old`, overload list included, and, for `new` other than `old`,
`lookupLocal(old)` is absent. -/
theorem C25_updateMethodName_contract {δ μ : Type} (scope : NameBindings δ μ)
    (oldName newName : Identifier) :
    ((scope.updateMethodName oldName newName).1 = true ↔
      ∃ binding, scope.lookupLocal oldName = some binding ∧
        binding.referencedEntity = .Method ∧
        (newName = oldName ∨ scope.lookupLocal newName = none)) ∧
    (∀ binding, scope.lookupLocal oldName = some binding →
      (scope.updateMethodName oldName newName).1 = true →
      (scope.updateMethodName oldName newName).2.lookupLocal newName = some binding ∧
      (newName ≠ oldName →
        (scope.updateMethodName oldName newName).2.lookupLocal oldName = none)) := by
  cases scope with
  | mk bindings enclosing =>
    simp only [NameBindings.updateMethodName, NameBindings.lookupLocal, NameBindings.bindings]
    cases hold : BindingMap.find bindings oldName with
    | none => simp
    | some binding =>
      by_cases hkind : binding.referencedEntity = .Method
      · have hk : (binding.referencedEntity != Binding.ReferencedEntity.Method) = false := by
          simp [hkind]
        simp only [hk, Bool.false_eq_true, if_false]
        have hselfErased := BindingMap.find_erase_self bindings oldName
        by_cases hsame : newName = oldName
        · subst hsame
          have hb := BindingMap.find_insert_self _ newName binding hselfErased
          constructor
          · simp only [BindingMap.insert, hselfErased, true_iff]
            exact ⟨binding, rfl, hkind, by simp⟩
          · intro b hb1 _
            simp only [Option.some.injEq] at hb1
            subst hb1
            exact ⟨hb, fun h => absurd rfl h⟩
        · have hother := BindingMap.find_erase_other bindings oldName newName hsame
          cases hnew : BindingMap.find bindings newName with
          | none =>
            have hfree : BindingMap.find (BindingMap.erase bindings oldName) newName = none := by
              rw [hother, hnew]
            constructor
            · simp only [BindingMap.insert, hfree, true_iff]
              exact ⟨binding, rfl, hkind, by simp⟩
            · intro b hb1 _
              simp only [Option.some.injEq] at hb1
              subst hb1
              refine ⟨BindingMap.find_insert_self _ newName binding hfree, fun _ => ?_⟩
              show BindingMap.find _ oldName = none
              rw [BindingMap.find_insert_other _ newName oldName binding (Ne.symm hsame)]
              exact hselfErased
          | some taken =>
            have htaken : BindingMap.find (BindingMap.erase bindings oldName) newName
                = some taken := by rw [hother, hnew]
            constructor
            · simp only [BindingMap.insert, htaken, Bool.false_eq_true, false_iff]
              rintro ⟨b, _, _, h3⟩
              rcases h3 with h3 | h3
              · exact hsame h3
              · exact absurd h3 (by simp)
            · intro b _ h
              simp [BindingMap.insert, htaken] at h
      · have hk : (binding.referencedEntity != Binding.ReferencedEntity.Method) = true := by
          simpa using hkind
        simp only [hk, if_true, Bool.false_eq_true, false_iff, false_implies, implies_true,
          and_true]
        rintro ⟨b, hb, hm, _⟩
        simp only [Option.some.injEq] at hb
        subst hb
        exact hkind hm

/-- C25 amended, at the sample class scope: `f` can be renamed `h`, and cannot be
renamed `g`, which is taken. -/
theorem C25_updateMethodName_contract_witness :
    (sampleScopeOfMethods.updateMethodName "f" "h").1 = true ∧
    (sampleScopeOfMethods.updateMethodName "f" "g").1 = false :=
  ⟨((C25_updateMethodName_contract sampleScopeOfMethods "f" "h").1).mpr
      ⟨_, rfl, rfl, Or.inr rfl⟩,
    by
      have h := (C25_updateMethodName_contract sampleScopeOfMethods "f" "g").1
      cases hr : (sampleScopeOfMethods.updateMethodName "f" "g").1 with
      | false => rfl
      | true =>
        obtain ⟨b, _, _, h3⟩ := h.mp hr
        rcases h3 with h3 | h3
        · exact absurd h3 (by decide)
        · exact absurd h3 (by simp [sampleScopeOfMethods, NameBindings.lookupLocal,
            NameBindings.bindings, BindingMap.find])⟩

/-- C26: if the name is bound locally to a method binding with overload list
`l ++ [d]`, `removeLastOverloadedMethod(name)` returns `true` and leaves the
name bound to that binding with overload list `l`, also when `l` is empty, and
leaves every other name as it was; if the name is absent locally or bound to a
binding that is not a method binding it returns `false` and changes nothing. -/
theorem C26_removeLastOverloadedMethod_contract {δ μ : Type} (scope : NameBindings δ μ)
    (name : Identifier) :
    (∀ (binding : Binding δ μ) (kept : List μ) (last : μ),
      scope.lookupLocal name = some binding → binding.referencedEntity = .Method →
      binding.methodList = kept ++ [last] →
      ∃ after, scope.removeLastOverloadedMethod name = .ok (true, after) ∧
        after.lookupLocal name = some { binding with methodList := kept } ∧
        after.enclosing = scope.enclosing ∧
        ∀ other, other ≠ name → after.lookupLocal other = scope.lookupLocal other) ∧
    (scope.lookupLocal name = none → scope.removeLastOverloadedMethod name = .ok (false, scope)) ∧
    (∀ binding : Binding δ μ, scope.lookupLocal name = some binding →
      binding.referencedEntity ≠ .Method →
      scope.removeLastOverloadedMethod name = .ok (false, scope)) := by
  refine ⟨?_, fun h => by simp [NameBindings.removeLastOverloadedMethod, h],
    fun binding hbound hkind => by simp [NameBindings.removeLastOverloadedMethod, hbound, hkind]⟩
  intro binding kept last hbound hkind hlist
  cases scope with
  | mk bindings enclosing =>
    simp only [NameBindings.lookupLocal, NameBindings.bindings] at hbound
    have hne : binding.methodList.isEmpty = false := by simp [hlist]
    refine ⟨.mk (BindingMap.modify bindings name fun found =>
        { found with methodList := found.methodList.dropLast }) enclosing, ?_, ?_, rfl,
      fun other h => BindingMap.find_modify_other bindings name other _ h⟩
    · simp [NameBindings.removeLastOverloadedMethod, NameBindings.lookupLocal,
        NameBindings.bindings, hbound, hkind, hne, NameBindings.enclosing]
    · simp [NameBindings.lookupLocal, NameBindings.bindings, BindingMap.find_modify_self,
        hbound, hlist]

/-- C26 at the sample class scope: removing the only overload of `g` leaves `g`
bound to an empty method binding. -/
theorem C26_removeLastOverloadedMethod_contract_witness :
    ∃ after, sampleScopeOfMethods.removeLastOverloadedMethod "g" = .ok (true, after) ∧
      after.lookupLocal "g" = some ⟨.Method, none, none, []⟩ :=
  match (C26_removeLastOverloadedMethod_contract sampleScopeOfMethods "g").1
      ⟨.Method, none, none, ["g()"]⟩ [] "g()" rfl rfl rfl with
  | ⟨after, h1, h2, _⟩ => ⟨after, h1, h2⟩

/-- An entry that a map holds gives a binding to its key. -/
theorem BindingMap.find_isSome_of_mem {δ μ : Type} (bindings : BindingMap δ μ)
    (name : Identifier) (binding : Binding δ μ) (h : (name, binding) ∈ bindings) :
    BindingMap.find bindings name ≠ none := by
  induction bindings with
  | nil => simp at h
  | cons entry rest ih =>
    obtain ⟨key, b⟩ := entry
    by_cases hk : key = name
    · simp [BindingMap.find, hk]
    · simp only [BindingMap.find, hk, if_false]
      apply ih
      rcases List.mem_cons.mp h with h1 | h1
      · simp only [Prod.mk.injEq] at h1
        exact absurd h1.1.symm hk
      · exact h1

/-- In a map with one entry per key, the binding found for a key is that of the
entry with the key. -/
theorem BindingMap.find_eq_of_mem {δ μ : Type} (bindings : BindingMap δ μ)
    (hunique : bindings.UniqueKeys) (name : Identifier) (binding : Binding δ μ)
    (h : (name, binding) ∈ bindings) : BindingMap.find bindings name = some binding := by
  induction bindings with
  | nil => simp at h
  | cons entry rest ih =>
    obtain ⟨key, b⟩ := entry
    simp only [BindingMap.UniqueKeys, List.map_cons, List.nodup_cons] at hunique
    rcases List.mem_cons.mp h with h1 | h1
    · simp only [Prod.mk.injEq] at h1
      simp [BindingMap.find, h1.1, h1.2]
    · have hne : key ≠ name := by
        intro e
        apply hunique.1
        rw [e]
        exact List.mem_map_of_mem Prod.fst h1
      simp only [BindingMap.find, hne, if_false]
      exact ih hunique.2 h1

/-- The binding found for a key belongs to an entry of the map. -/
theorem BindingMap.mem_of_find {δ μ : Type} (bindings : BindingMap δ μ)
    (name : Identifier) (binding : Binding δ μ)
    (h : BindingMap.find bindings name = some binding) : (name, binding) ∈ bindings := by
  induction bindings with
  | nil => simp [BindingMap.find] at h
  | cons entry rest ih =>
    obtain ⟨key, b⟩ := entry
    by_cases hk : key = name
    · simp only [BindingMap.find, hk, if_true, Option.some.injEq] at h
      simp [hk, h]
    · simp only [BindingMap.find, hk, if_false] at h
      exact List.mem_cons_of_mem _ (ih h)

/-- A copy of a binding is the same binding. -/
theorem Binding.copy_eq {δ μ : Type} (binding : Binding δ μ) : Binding.copy binding = binding :=
  rfl

/-- The loop of `copyFrom`: names the map binds already keep their binding, the
other names get the binding of the source. -/
theorem NameBindings.find_copyLoop {δ μ : Type} (name : Identifier) :
    ∀ (source bindings : BindingMap δ μ),
      BindingMap.find (source.foldl
        (fun acc entry => (BindingMap.insert acc entry.1 (Binding.copy entry.2)).1) bindings)
        name =
      (BindingMap.find bindings name).orElse fun _ => BindingMap.find source name
  | [], bindings => by
    simp only [List.foldl_nil, BindingMap.find]
    cases BindingMap.find bindings name <;> rfl
  | (key, binding) :: rest, bindings => by
    rw [List.foldl_cons, NameBindings.find_copyLoop name rest]
    by_cases hk : key = name
    · subst hk
      cases hf : BindingMap.find bindings key with
      | some found => simp [BindingMap.insert, hf, BindingMap.find]
      | none =>
        rw [BindingMap.find_insert_self bindings key _ hf]
        simp [BindingMap.find, Binding.copy_eq]
    · rw [BindingMap.find_insert_other bindings key name _ (Ne.symm hk)]
      simp [BindingMap.find, hk]

/-- C27, refuted as stated: the other scope binds `x` to a local object, this scope
binds `x` to a data member before the call, and after `copyFrom` this scope
still binds `x` to the data member. -/
theorem C27_counterexample_copy_keeps_existing :
    ((sampleScopeOfMethods.copyFrom sampleScope).lookupLocal "x").map
      (fun b => b.referencedEntity) = some .DataMember ∧
    (sampleScope.lookupLocal "x").map (fun b => b.referencedEntity) = some .LocalObject := by
  decide

/-- C27, amended: after `this.copyFrom(other)`, every name bound in the own scope of
`other` and not bound in this scope before is bound locally to a binding with
the kind, definition, local object and overload list of the binding in `other`;
every name this scope bound before keeps the binding it had; the enclosing
scope is unchanged. -/
theorem C27_copyFrom_contract {δ μ : Type} (scope other : NameBindings δ μ)
    (name : Identifier) :
    (∀ binding, other.lookupLocal name = some binding → scope.lookupLocal name = none →
      (scope.copyFrom other).lookupLocal name = some binding) ∧
    (∀ binding, scope.lookupLocal name = some binding →
      (scope.copyFrom other).lookupLocal name = some binding) ∧
    (scope.copyFrom other).enclosing = scope.enclosing := by
  have hafter : (scope.copyFrom other).lookupLocal name =
      (scope.lookupLocal name).orElse fun _ => other.lookupLocal name :=
    NameBindings.find_copyLoop name other.bindings scope.bindings
  refine ⟨fun binding ho hs => ?_, fun binding hs => ?_, rfl⟩
  · rw [hafter, hs, ho]
    rfl
  · rw [hafter, hs]
    rfl

/-- The loop of `use`: names the map binds already keep their binding, the other
names get the binding of the used namespace when its kind is imported. -/
theorem NameBindings.find_useLoop {δ μ : Type} (name : Identifier) :
    ∀ (used bindings : BindingMap δ μ), used.UniqueKeys →
      BindingMap.find (used.foldl
        (fun acc entry =>
          if NameBindings.isUsable entry.2.referencedEntity then
            (BindingMap.insert acc entry.1 (Binding.copy entry.2)).1
          else acc) bindings) name =
      (BindingMap.find bindings name).orElse fun _ =>
        (BindingMap.find used name).filter fun b => NameBindings.isUsable b.referencedEntity
  | [], bindings, _ => by
    simp only [List.foldl_nil, BindingMap.find]
    cases BindingMap.find bindings name <;> rfl
  | (key, binding) :: rest, bindings, hunique => by
    have hu : BindingMap.UniqueKeys rest ∧ key ∉ rest.map Prod.fst := by
      simp only [BindingMap.UniqueKeys, List.map_cons, List.nodup_cons] at hunique
      exact ⟨hunique.2, hunique.1⟩
    rw [List.foldl_cons, NameBindings.find_useLoop name rest _ hu.1]
    by_cases hk : key = name
    · subst hk
      have hrest : BindingMap.find rest key = none := by
        cases hr : BindingMap.find rest key with
        | none => rfl
        | some b =>
          exact absurd (List.mem_map_of_mem Prod.fst (BindingMap.mem_of_find rest key b hr)) hu.2
      by_cases hus : NameBindings.isUsable binding.referencedEntity = true
      · cases hf : BindingMap.find bindings key with
        | some found => simp [BindingMap.insert, hf, hus]
        | none =>
          simp only [hus, if_true]
          rw [BindingMap.find_insert_self bindings key _ hf]
          simp [BindingMap.find, Binding.copy_eq, hus, Option.filter]
      · simp [hus, BindingMap.find, hrest, Option.filter]
    · have hinner : BindingMap.find (if NameBindings.isUsable binding.referencedEntity = true
          then (BindingMap.insert bindings key (Binding.copy binding)).1 else bindings) name =
          BindingMap.find bindings name := by
        split
        · exact BindingMap.find_insert_other bindings key name _ (Ne.symm hk)
        · rfl
      simp only [hinner, BindingMap.find, hk, if_false]

/-- C28: after `this.use(other)`, where `other` holds one entry per name: a name not
bound in this scope before is bound locally afterwards exactly when the own
scope of `other` binds it to a class, method or data member binding, and then to a
copy of that binding; local object, generic type parameter and label bindings
of `other` are not imported; every name bound in this scope before keeps its
binding; the enclosing scope is unchanged. -/
theorem C28_use_contract {δ μ : Type} (scope other : NameBindings δ μ)
    (hunique : other.bindings.UniqueKeys) (name : Identifier) :
    (scope.lookupLocal name = none →
      ((scope.use other).lookupLocal name ≠ none ↔
        ∃ binding, other.lookupLocal name = some binding ∧
          (binding.referencedEntity = .Class ∨ binding.referencedEntity = .Method ∨
            binding.referencedEntity = .DataMember))) ∧
    (∀ binding, scope.lookupLocal name = none → other.lookupLocal name = some binding →
      (binding.referencedEntity = .Class ∨ binding.referencedEntity = .Method ∨
        binding.referencedEntity = .DataMember) →
      (scope.use other).lookupLocal name = some binding) ∧
    (∀ binding, scope.lookupLocal name = none → other.lookupLocal name = some binding →
      (binding.referencedEntity = .LocalObject ∨
        binding.referencedEntity = .GenericTypeParameter ∨
        binding.referencedEntity = .Label) →
      (scope.use other).lookupLocal name = none) ∧
    (∀ binding, scope.lookupLocal name = some binding →
      (scope.use other).lookupLocal name = some binding) ∧
    (scope.use other).enclosing = scope.enclosing := by
  have h := NameBindings.find_useLoop name other.bindings scope.bindings hunique
  have husable : ∀ binding : Binding δ μ,
      NameBindings.isUsable binding.referencedEntity = true ↔
        (binding.referencedEntity = .Class ∨ binding.referencedEntity = .Method ∨
          binding.referencedEntity = .DataMember) := by
    intro binding
    cases binding.referencedEntity <;> simp [NameBindings.isUsable]
  have hafter : (scope.use other).lookupLocal name =
      (scope.lookupLocal name).orElse fun _ =>
        (other.lookupLocal name).filter fun b => NameBindings.isUsable b.referencedEntity := h
  refine ⟨fun hs => ?_, fun binding hs ho hk => ?_, fun binding hs ho hk => ?_,
    fun binding hs => ?_, rfl⟩
  · rw [hafter, hs]
    cases ho : other.lookupLocal name with
    | none => simp [Option.filter]
    | some b =>
      by_cases hb : NameBindings.isUsable b.referencedEntity = true
      · simp [Option.filter, hb, (husable b).mp hb]
      · have hnot : ¬(b.referencedEntity = .Class ∨ b.referencedEntity = .Method ∨
            b.referencedEntity = .DataMember) := fun hh => hb ((husable b).mpr hh)
        simp only [Option.filter, hb, Option.orElse, ne_eq]
        constructor
        · intro hh
          exact absurd rfl hh
        · rintro ⟨x, hx, hh⟩
          simp only [Option.some.injEq] at hx
          rw [← hx] at hh
          exact absurd hh hnot
  · rw [hafter, hs, ho]
    simp [Option.filter, (husable binding).mpr hk]
  · rw [hafter, hs, ho]
    have : NameBindings.isUsable binding.referencedEntity = false := by
      rcases hk with hk | hk | hk <;> simp [NameBindings.isUsable, hk]
    simp [Option.filter, this]
  · rw [hafter, hs]
    simp

/-- An insertion keeps one entry per key. -/
theorem BindingMap.insert_uniqueKeys {δ μ : Type} (bindings : BindingMap δ μ)
    (name : Identifier) (binding : Binding δ μ) (h : bindings.UniqueKeys) :
    (BindingMap.insert bindings name binding).1.UniqueKeys := by
  simp only [BindingMap.insert]
  cases hf : BindingMap.find bindings name with
  | some found => exact h
  | none =>
    simp only [BindingMap.UniqueKeys, List.map_append, List.map_cons, List.map_nil]
    refine List.Nodup.append h (by simp) ?_
    intro key hk hs
    simp only [List.mem_singleton] at hs
    subst hs
    obtain ⟨entry, he, hkey⟩ := List.mem_map.mp hk
    obtain ⟨k, b⟩ := entry
    simp only at hkey
    subst hkey
    exact BindingMap.find_isSome_of_mem bindings k b he hf

/-- Erasing a name keeps one entry per key. -/
theorem BindingMap.erase_uniqueKeys {δ μ : Type} (bindings : BindingMap δ μ)
    (name : Identifier) (h : bindings.UniqueKeys) :
    (BindingMap.erase bindings name).UniqueKeys := by
  simp only [BindingMap.UniqueKeys, BindingMap.erase] at h ⊢
  exact (List.Sublist.map _ (List.filter_sublist _)).nodup h

/-- The loop of `removeObsoleteLocalBindings`, when it returns: it keeps exactly
the current entries, in their order. -/
theorem NameBindings.removeObsoleteLoop_spec {δ μ : Type} :
    ∀ (bindings kept : BindingMap δ μ), NameBindings.removeObsoleteLoop bindings = .ok kept →
      kept.Sublist bindings ∧
      (∀ entry ∈ kept, Binding.isCurrentUnder entry.1 entry.2) ∧
      (∀ entry ∈ bindings, Binding.isCurrentUnder entry.1 entry.2 → entry ∈ kept) ∧
      (∀ key binding, BindingMap.find bindings key = some binding →
        Binding.isCurrentUnder key binding → BindingMap.find kept key = some binding)
  | [], kept, h => by
    simp only [NameBindings.removeObsoleteLoop, Except.ok.injEq] at h
    subst h
    simp [BindingMap.find]
  | (key, binding) :: rest, kept, h => by
    have keepCase : ∀ keptRest, NameBindings.removeObsoleteLoop rest = .ok keptRest →
        kept = (key, binding) :: keptRest → Binding.isCurrentUnder key binding →
        kept.Sublist ((key, binding) :: rest) ∧
        (∀ entry ∈ kept, Binding.isCurrentUnder entry.1 entry.2) ∧
        (∀ entry ∈ (key, binding) :: rest, Binding.isCurrentUnder entry.1 entry.2 →
          entry ∈ kept) ∧
        (∀ k b, BindingMap.find ((key, binding) :: rest) k = some b →
          Binding.isCurrentUnder k b → BindingMap.find kept k = some b) := by
      intro keptRest hrest hkept hcur
      obtain ⟨h1, h2, h3, h4⟩ := NameBindings.removeObsoleteLoop_spec rest keptRest hrest
      subst hkept
      refine ⟨h1.cons₂ _, ?_, ?_, ?_⟩
      · intro entry he
        rcases List.mem_cons.mp he with e | e
        · rw [e]; exact hcur
        · exact h2 entry e
      · intro entry he hc
        rcases List.mem_cons.mp he with e | e
        · rw [e]; exact List.mem_cons_self _ _
        · exact List.mem_cons_of_mem _ (h3 entry e hc)
      · intro k b hf hc
        by_cases hk : key = k
        · simpa [BindingMap.find, hk] using hf
        · simp only [BindingMap.find, hk, if_false] at hf ⊢
          exact h4 k b hf hc
    simp only [NameBindings.removeObsoleteLoop] at h
    by_cases hlocal : binding.referencedEntity = .LocalObject
    · simp only [hlocal, if_true] at h
      cases hdecl : binding.localObject with
      | none => rw [hdecl] at h; exact absurd h (by simp)
      | some declaration =>
        rw [hdecl] at h
        simp only [] at h
        by_cases hname : key = declaration.identifier
        · have hb : (key != declaration.identifier) = false := by simp [hname]
          simp only [hb, Bool.false_eq_true, if_false] at h
          cases hrest : NameBindings.removeObsoleteLoop rest with
          | error e => rw [hrest] at h; exact absurd h (by simp)
          | ok keptRest =>
            rw [hrest] at h
            simp only [Except.ok.injEq] at h
            exact keepCase keptRest hrest h.symm (Or.inr ⟨declaration, hdecl, hname⟩)
        · have hb : (key != declaration.identifier) = true := by simpa using hname
          simp only [hb, if_true] at h
          obtain ⟨h1, h2, h3, h4⟩ := NameBindings.removeObsoleteLoop_spec rest kept h
          have hobsolete : ¬Binding.isCurrentUnder key binding := by
            rintro (hc | ⟨d, hd, hk⟩)
            · exact hc hlocal
            · rw [hdecl] at hd
              simp only [Option.some.injEq] at hd
              rw [← hd] at hk
              exact hname hk
          refine ⟨h1.cons _, h2, ?_, ?_⟩
          · intro entry he hc
            rcases List.mem_cons.mp he with e | e
            · rw [e] at hc; exact absurd hc hobsolete
            · exact h3 entry e hc
          · intro k b hf hc
            by_cases hk : key = k
            · simp only [BindingMap.find, hk, if_true, Option.some.injEq] at hf
              rw [← hk, ← hf] at hc
              exact absurd hc hobsolete
            · simp only [BindingMap.find, hk, if_false] at hf
              exact h4 k b hf hc
    · simp only [hlocal, if_false] at h
      cases hrest : NameBindings.removeObsoleteLoop rest with
      | error e => rw [hrest] at h; exact absurd h (by simp)
      | ok keptRest =>
        rw [hrest] at h
        simp only [Except.ok.injEq] at h
        exact keepCase keptRest hrest h.symm (Or.inl hlocal)

/-- The loop of `removeObsoleteLocalBindings` returns when every local object
binding holds its declaration. -/
theorem NameBindings.removeObsoleteLoop_returns {δ μ : Type} :
    ∀ bindings : BindingMap δ μ,
      (∀ entry ∈ bindings, entry.2.referencedEntity = .LocalObject →
        entry.2.localObject ≠ none) →
      ∃ kept, NameBindings.removeObsoleteLoop bindings = .ok kept
  | [], _ => ⟨[], rfl⟩
  | (key, binding) :: rest, h => by
    obtain ⟨keptRest, hrest⟩ := NameBindings.removeObsoleteLoop_returns rest
      (fun entry he => h entry (List.mem_cons_of_mem _ he))
    simp only [NameBindings.removeObsoleteLoop, hrest]
    by_cases hlocal : binding.referencedEntity = .LocalObject
    · have := h (key, binding) (List.mem_cons_self _ _) hlocal
      cases hdecl : binding.localObject with
      | none => exact absurd hdecl this
      | some declaration =>
        simp only [hlocal, if_true]
        by_cases hname : (key != declaration.identifier) = true
        · exact ⟨keptRest, by simp [hname]⟩
        · exact ⟨(key, binding) :: keptRest, by simp [hname]⟩
    · exact ⟨(key, binding) :: keptRest, by simp [hlocal]⟩

/-- C24: when `removeObsoleteLocalBindings` returns, every remaining local object
binding holds a declaration whose identifier is its key; every entry that is
not a local object binding, or whose key already was the identifier of its
declaration, is still there with its key and payload, and is still what
`lookupLocal` finds; nothing is added or reordered; the enclosing scope is
untouched. It returns whenever every local object binding holds its
declaration. -/
theorem C24_removeObsolete_contract {δ μ : Type} (scope : NameBindings δ μ) :
    (∀ after, scope.removeObsoleteLocalBindings = .ok after →
      (∀ entry ∈ after.bindings, entry.2.referencedEntity = .LocalObject →
        ∃ declaration, entry.2.localObject = some declaration ∧
          entry.1 = declaration.identifier) ∧
      (∀ entry ∈ scope.bindings, Binding.isCurrentUnder entry.1 entry.2 →
        entry ∈ after.bindings) ∧
      (∀ key binding, scope.lookupLocal key = some binding →
        Binding.isCurrentUnder key binding → after.lookupLocal key = some binding) ∧
      after.bindings.Sublist scope.bindings ∧
      after.enclosing = scope.enclosing) ∧
    ((∀ entry ∈ scope.bindings, entry.2.referencedEntity = .LocalObject →
        entry.2.localObject ≠ none) →
      ∃ after, scope.removeObsoleteLocalBindings = .ok after) := by
  constructor
  · intro after h
    simp only [NameBindings.removeObsoleteLocalBindings] at h
    cases hloop : NameBindings.removeObsoleteLoop scope.bindings with
    | error e => rw [hloop] at h; exact absurd h (by simp)
    | ok kept =>
      rw [hloop] at h
      simp only [Except.ok.injEq] at h
      subst h
      obtain ⟨h1, h2, h3, h4⟩ := NameBindings.removeObsoleteLoop_spec scope.bindings kept hloop
      refine ⟨?_, h3, h4, h1, rfl⟩
      intro entry he hlocal
      rcases h2 entry he with hc | hc
      · exact absurd hlocal hc
      · exact hc
  · intro hwf
    obtain ⟨kept, hk⟩ := NameBindings.removeObsoleteLoop_returns scope.bindings hwf
    exact ⟨.mk kept scope.enclosing, by simp [NameBindings.removeObsoleteLocalBindings, hk]⟩

/-- C29: a freshly built coverage holds `{"true", "false"}` for a boolean subject,
exactly the names of the members of the subject class that are enum constructor
methods for an enumeration subject, and `{"all"}` for any other subject; in
the last case not all cases are covered, and that stays so after
`markCaseAsCovered(n)` for any names `n` other than `all`. -/
theorem C29_fresh_coverage (t : Ty) :
    (t.isBoolean = true → MatchCoverage.create t = .ok ⟨{"true", "false"}⟩) ∧
    (∀ subjectClass : ClassDefinition, t.isEnumeration = true →
      t.definition = some (.Class subjectClass) → subjectClass.isEnumeration = true →
      ∃ fresh, MatchCoverage.create t = .ok fresh ∧
        ∀ name, name ∈ fresh.notCoveredCases ↔
          ∃ argumentCount, MemberDefinition.Method name true argumentCount
            ∈ subjectClass.members) ∧
    (t.isBoolean = false → t.isEnumeration = false →
      MatchCoverage.create t = .ok ⟨{"all"}⟩ ∧
      (⟨{"all"}⟩ : MatchCoverage).areAllCasesCovered = false ∧
      ∀ names : List Identifier, "all" ∉ names →
        ((⟨{"all"}⟩ : MatchCoverage).markCasesAsCovered names).areAllCasesCovered = false) := by
  refine ⟨fun hb => ?_, fun subjectClass henum hdef hcls => ?_, fun hb henum => ?_⟩
  · rw [MatchCoverage.create_of_isBoolean t hb]
    have : (insert boolFalseCaseName (insert boolTrueCaseName ∅) : Finset Identifier)
        = {"true", "false"} := by decide
    rw [this]
  · refine ⟨_, MatchCoverage.create_of_isEnumeration t subjectClass henum hdef hcls, ?_⟩
    intro name
    simp only [ClassDefinition.enumConstructorNames, List.mem_toFinset, List.mem_filterMap]
    constructor
    · rintro ⟨member, hm, hname⟩
      cases member with
      | Method n isEnumConstructor k =>
        cases isEnumConstructor
        · simp at hname
        · simp only [Option.some.injEq] at hname
          exact ⟨k, hname ▸ hm⟩
      | DataMember n => simp at hname
      | Other => simp at hname
    · rintro ⟨k, hm⟩
      exact ⟨_, hm, rfl⟩
  · refine ⟨by simp [MatchCoverage.create, hb, henum], by decide, ?_⟩
    have key : ∀ (names : List Identifier) (coverage : MatchCoverage),
        "all" ∉ names → "all" ∈ coverage.notCoveredCases →
        (coverage.markCasesAsCovered names).areAllCasesCovered = false := by
      intro names
      induction names with
      | nil =>
        intro coverage _ hin
        simp only [MatchCoverage.markCasesAsCovered, MatchCoverage.areAllCasesCovered,
          decide_eq_false_iff_not]
        intro he
        rw [he] at hin
        simp at hin
      | cons n rest ih =>
        intro coverage hnot hin
        simp only [List.mem_cons, not_or] at hnot
        apply ih _ hnot.2
        simp only [MatchCoverage.markCaseAsCovered, Finset.mem_erase]
        exact ⟨hnot.1, hin⟩
    intro names hnot
    exact key names _ hnot (by simp)

/-- The loop over data members and arguments of equal number, when every argument
rewrite returns: one member per argument, in order. -/
theorem decompositionMembersLoop_ok (resolution : CallResolution)
    (rewrite : ConstructorCall → Option (Result ClassDecompositionExpression))
    (memberName : Identifier → Expression) :
    ∀ (dataMembers : List Identifier) (patternArgs rewritten : List Expression),
      dataMembers.length = patternArgs.length →
      List.Forall₂ (fun a r => rewriteArgument resolution rewrite a = some (.ok r))
        patternArgs rewritten →
      decompositionMembersLoop resolution rewrite memberName dataMembers patternArgs =
        some (.ok (List.zipWith (fun f r => Member.mk (memberName f) (some r))
          dataMembers rewritten))
  | [], [], _, _, h => by
    cases h
    simp [decompositionMembersLoop]
  | [], _ :: _, _, hlen, _ => by simp at hlen
  | _ :: _, [], _, hlen, _ => by simp at hlen
  | f :: fs, a :: as, _, hlen, h => by
    cases h with
    | cons hhead htail =>
      have ih := decompositionMembersLoop_ok resolution rewrite memberName fs as _
        (by simpa using hlen) htail
      simp [decompositionMembersLoop, hhead, ih]

/-- The loop over data members and arguments of equal number returns members only
when every argument rewrite returned. -/
theorem decompositionMembersLoop_ok_inv (resolution : CallResolution)
    (rewrite : ConstructorCall → Option (Result ClassDecompositionExpression))
    (memberName : Identifier → Expression) :
    ∀ (dataMembers : List Identifier) (patternArgs : List Expression) (members : List Member),
      dataMembers.length = patternArgs.length →
      decompositionMembersLoop resolution rewrite memberName dataMembers patternArgs =
        some (.ok members) →
      ∃ rewritten,
        List.Forall₂ (fun a r => rewriteArgument resolution rewrite a = some (.ok r))
          patternArgs rewritten ∧
        members = List.zipWith (fun f r => Member.mk (memberName f) (some r))
          dataMembers rewritten
  | [], [], members, _, h => by
    simp only [decompositionMembersLoop, Option.some.injEq, Except.ok.injEq] at h
    exact ⟨[], .nil, by simp [← h]⟩
  | [], _ :: _, _, hlen, _ => by simp at hlen
  | _ :: _, [], _, hlen, _ => by simp at hlen
  | f :: fs, a :: as, members, hlen, h => by
    simp only [decompositionMembersLoop] at h
    cases ha : rewriteArgument resolution rewrite a with
    | none => rw [ha] at h; exact absurd h (by simp)
    | some ra =>
      cases ra with
      | error e => rw [ha] at h; exact absurd h (by simp)
      | ok r =>
        rw [ha] at h
        simp only [] at h
        cases hrest : decompositionMembersLoop resolution rewrite memberName fs as with
        | none => rw [hrest] at h; exact absurd h (by simp)
        | some rr =>
          cases rr with
          | error e => rw [hrest] at h; exact absurd h (by simp)
          | ok rest =>
            rw [hrest] at h
            simp only [Option.some.injEq, Except.ok.injEq] at h
            obtain ⟨rewritten, hall, hrw⟩ :=
              decompositionMembersLoop_ok_inv resolution rewrite memberName fs as rest
                (by simpa using hlen) hrest
            exact ⟨r :: rewritten, .cons ha hall, by simp [← h, hrw]⟩

/-- The argument rewrite returns the same when the recursive rewrite returns more. -/
theorem rewriteArgument_mono (resolution : CallResolution)
    (rewrite rewrite1 : ConstructorCall → Option (Result ClassDecompositionExpression))
    (hle : ∀ c r, rewrite c = some r → rewrite1 c = some r) (a : Expression)
    (r : Result Expression) (h : rewriteArgument resolution rewrite a = some r) :
    rewriteArgument resolution rewrite1 a = some r := by
  simp only [rewriteArgument] at h ⊢
  cases hc : getConstructorCall resolution a with
  | none => rw [hc] at h; exact h
  | some c =>
    rw [hc] at h
    simp only [] at h ⊢
    cases hr : rewrite c with
    | none => rw [hr] at h; exact absurd h (by simp)
    | some rr => rw [hle c rr hr]; rw [hr] at h; exact h

/-- The member loop returns the same when the recursive rewrite returns more. -/
theorem decompositionMembersLoop_mono (resolution : CallResolution)
    (rewrite rewrite1 : ConstructorCall → Option (Result ClassDecompositionExpression))
    (hle : ∀ c r, rewrite c = some r → rewrite1 c = some r)
    (memberName : Identifier → Expression) :
    ∀ (fs : List Identifier) (as : List Expression) (r : Result (List Member)),
      decompositionMembersLoop resolution rewrite memberName fs as = some r →
      decompositionMembersLoop resolution rewrite1 memberName fs as = some r
  | _, [], r, h => by simpa [decompositionMembersLoop] using h
  | [], _ :: _, r, h => by simpa [decompositionMembersLoop] using h
  | f :: fs, a :: as, r, h => by
    simp only [decompositionMembersLoop] at h ⊢
    cases ha : rewriteArgument resolution rewrite a with
    | none => rw [ha] at h; exact absurd h (by simp)
    | some ra =>
      rw [rewriteArgument_mono resolution rewrite rewrite1 hle a ra ha]
      rw [ha] at h
      cases ra with
      | error e => exact h
      | ok x =>
        simp only [] at h ⊢
        cases hrest : decompositionMembersLoop resolution rewrite memberName fs as with
        | none => rw [hrest] at h; exact absurd h (by simp)
        | some rr =>
          rw [decompositionMembersLoop_mono resolution rewrite rewrite1 hle memberName fs as rr
            hrest]
          rw [hrest] at h
          exact h

/-- The rewrite of a constructor call returns the same when the recursive rewrite
returns more. -/
theorem createClassDecompositionFromConstructorCall_mono (context : Context)
    (resolution : CallResolution)
    (rewrite rewrite1 : ConstructorCall → Option (Result ClassDecompositionExpression))
    (hle : ∀ c r, rewrite c = some r → rewrite1 c = some r) (c : ConstructorCall)
    (r : Result ClassDecompositionExpression)
    (h : createClassDecompositionFromConstructorCall context resolution rewrite c = some r) :
    createClassDecompositionFromConstructorCall context resolution rewrite1 c = some r := by
  simp only [createClassDecompositionFromConstructorCall] at h ⊢
  cases hcheck : context.typeCheck (.ClassDecomposition (Ty.create c.name) "" []) with
  | error e => rw [hcheck] at h; exact h
  | ok type =>
    rw [hcheck] at h
    simp only [] at h ⊢
    cases hdef : type.definition with
    | none => rw [hdef] at h; exact h
    | some d =>
      rw [hdef] at h
      cases d with
      | Class classDef =>
        simp only [] at h ⊢
        by_cases hlen : (classDef.primaryCtorArgDataMembers.length != c.arguments.length) = true
        · simp only [hlen, if_true] at h ⊢
          exact h
        · simp only [hlen, if_false] at h ⊢
          cases hl : decompositionMembersLoop resolution rewrite (fun name => .NamedEntity name)
              classDef.primaryCtorArgDataMembers c.arguments with
          | none => rw [hl] at h; exact absurd h (by simp)
          | some rr =>
            rw [decompositionMembersLoop_mono resolution rewrite rewrite1 hle _ _ _ rr hl]
            rw [hl] at h
            exact h
      | GenericTypeParameter concreteType => exact h
      | Other => exact h

/-- The rewrite of an enum constructor call returns the same when the recursive
rewrite returns more. -/
theorem createClassDecompositionFromEnumCtorCall_mono (context : Context)
    (resolution : CallResolution)
    (rewrite rewrite1 : ConstructorCall → Option (Result ClassDecompositionExpression))
    (hle : ∀ c r, rewrite c = some r → rewrite1 c = some r) (c : ConstructorCall)
    (enumConstructor : EnumConstructor) (r : Result ClassDecompositionExpression)
    (h : createClassDecompositionFromEnumCtorCall context resolution rewrite c enumConstructor
      = some r) :
    createClassDecompositionFromEnumCtorCall context resolution rewrite1 c enumConstructor
      = some r := by
  simp only [createClassDecompositionFromEnumCtorCall] at h ⊢
  cases hcheck : context.typeCheck
      (.ClassDecomposition (Ty.create enumConstructor.enumName) enumConstructor.name []) with
  | error e => rw [hcheck] at h; exact h
  | ok type =>
    rw [hcheck] at h
    simp only [] at h ⊢
    by_cases hlen : (enumConstructor.argumentCount != c.arguments.length) = true
    · simp only [hlen, if_true] at h ⊢
      exact h
    · simp only [hlen, if_false] at h ⊢
      by_cases hempty : c.arguments.isEmpty = true
      · simp only [hempty, if_true] at h ⊢
        exact h
      · simp only [hempty, if_false] at h ⊢
        cases hv : enumConstructor.variantDataMembers with
        | none => rw [hv] at h; exact h
        | some variantDataMembers =>
          rw [hv] at h
          simp only [] at h ⊢
          by_cases hl2 : (variantDataMembers.length != c.arguments.length) = true
          · simp only [hl2, if_true] at h ⊢
            exact h
          · simp only [hl2, if_false] at h ⊢
            cases hl : decompositionMembersLoop resolution rewrite
                (fun name =>
                  .MemberSelector
                    (.NamedEntity (Symbol.makeEnumVariantDataName enumConstructor.name))
                    (.NamedEntity name))
                variantDataMembers c.arguments with
            | none => rw [hl] at h; exact absurd h (by simp)
            | some rr =>
              rw [decompositionMembersLoop_mono resolution rewrite rewrite1 hle _ _ _ rr hl]
              rw [hl] at h
              exact h

/-- A rewrite that returns with some fuel returns the same with more. -/
theorem createClassDecompositionExpr_fuel_succ (context : Context)
    (resolution : CallResolution) :
    ∀ (fuel : Nat) (constructorCall : ConstructorCall)
      (result : Result ClassDecompositionExpression),
      createClassDecompositionExpr context resolution fuel constructorCall = some result →
      createClassDecompositionExpr context resolution (fuel + 1) constructorCall = some result
  | 0, _, _, h => by simp [createClassDecompositionExpr] at h
  | fuel + 1, c, r, h => by
    have ih := createClassDecompositionExpr_fuel_succ context resolution fuel
    rw [createClassDecompositionExpr] at h ⊢
    cases hk : c.enumCtorMethodDefinition with
    | some enumConstructor =>
      rw [hk] at h
      exact createClassDecompositionFromEnumCtorCall_mono context resolution _ _ ih c
        enumConstructor r h
    | none =>
      rw [hk] at h
      exact createClassDecompositionFromConstructorCall_mono context resolution _ _ ih c r h

/-- A rewrite that returns with some fuel returns the same with any larger fuel. -/
theorem createClassDecompositionExpr_fuel_le (context : Context) (resolution : CallResolution)
    (fuel more : Nat) (constructorCall : ConstructorCall)
    (result : Result ClassDecompositionExpression)
    (h : createClassDecompositionExpr context resolution fuel constructorCall = some result) :
    createClassDecompositionExpr context resolution (fuel + more) constructorCall
      = some result := by
  induction more with
  | zero => exact h
  | succ more ih =>
    exact createClassDecompositionExpr_fuel_succ context resolution (fuel + more) _ _ ih

/-- C30, refuted as stated: `Box` has one primary constructor data member and the
call `Box(Point(1))` has one argument, yet the rewrite is fatal with "Wrong
number of arguments in constructor pattern.", from the nested call `Point(1)`
of the class `Point(x, y)`. -/
theorem C30_counterexample_nested_arity :
    createClassDecompositionExpr sampleClassContext sampleResolution 2
        ⟨"Box", [.MethodCall "Point" [.IntegerLiteral 1]], none⟩ =
      some (.error (.fatal "Wrong number of arguments in constructor pattern.")) ∧
    createClassDecompositionExpr sampleClassContext sampleResolution 3
        ⟨"Box", [.MethodCall "Point" [.IntegerLiteral 1]], none⟩ =
      some (.error (.fatal "Wrong number of arguments in constructor pattern.")) ∧
    ∃ type, sampleClassContext.typeCheck (.ClassDecomposition (Ty.create "Box") "" []) =
        .ok type ∧
      type.definition = some (.Class ⟨"Box", false, false, false, false, [], ["content"]⟩) ∧
      (["content"] : List Identifier).length =
        ([Expression.MethodCall "Point" [.IntegerLiteral 1]]).length :=
  ⟨rfl, rfl, _, rfl, rfl, rfl⟩

/-- C30, amended: for a constructor call `C(a1, ..., an)` that is not an enum
constructor call, whose type check gives the class with primary constructor
data members `f1, ..., fm`: if `m ≠ n` the rewrite is fatal with "Wrong number
of arguments in constructor pattern."; if `m = n` and the rewrite of every
argument returns `ai'`, it returns the class decomposition of type `C` with
exactly `n` members, the i-th being `(fi, ai')`; it returns a decomposition
only so; `ai'` is `ai` for an argument that is not a constructor call and the
decomposition of the nested call otherwise; and the pattern created from the
call is the pattern created from the decomposition it is rewritten to. -/
theorem C30_constructor_call_rewrite (context : Context) (resolution : CallResolution)
    (call : ConstructorCall) (type : Ty) (classDef : ClassDefinition)
    (hplain : call.enumCtorMethodDefinition = none)
    (hcheck : context.typeCheck (.ClassDecomposition (Ty.create call.name) "" []) = .ok type)
    (hclass : type.definition = some (.Class classDef)) :
    (classDef.primaryCtorArgDataMembers.length ≠ call.arguments.length →
      ∀ fuel, createClassDecompositionExpr context resolution (fuel + 1) call =
        some (.error (.fatal "Wrong number of arguments in constructor pattern."))) ∧
    (classDef.primaryCtorArgDataMembers.length = call.arguments.length →
      ∀ (fuel : Nat) (rewritten : List Expression),
        List.Forall₂
          (fun a r => rewriteArgument resolution
            (createClassDecompositionExpr context resolution fuel) a = some (.ok r))
          call.arguments rewritten →
        createClassDecompositionExpr context resolution (fuel + 1) call =
          some (.ok ⟨Ty.create call.name, "",
            List.zipWith (fun f r => Member.mk (.NamedEntity f) (some r))
              classDef.primaryCtorArgDataMembers rewritten⟩) ∧
        (List.zipWith (fun f r => Member.mk (.NamedEntity f) (some r))
          classDef.primaryCtorArgDataMembers rewritten).length = call.arguments.length) ∧
    (∀ (fuel : Nat) (decomposition : ClassDecompositionExpression),
      createClassDecompositionExpr context resolution (fuel + 1) call =
        some (.ok decomposition) →
      classDef.primaryCtorArgDataMembers.length = call.arguments.length ∧
      ∃ rewritten,
        List.Forall₂
          (fun a r => rewriteArgument resolution
            (createClassDecompositionExpr context resolution fuel) a = some (.ok r))
          call.arguments rewritten ∧
        decomposition = ⟨Ty.create call.name, "",
          List.zipWith (fun f r => Member.mk (.NamedEntity f) (some r))
            classDef.primaryCtorArgDataMembers rewritten⟩) ∧
    (∀ (rewrite : ConstructorCall → Option (Result ClassDecompositionExpression))
      (a : Expression),
      (getConstructorCall resolution a = none →
        rewriteArgument resolution rewrite a = some (.ok a)) ∧
      (∀ inner, getConstructorCall resolution a = some inner →
        ∀ r, rewriteArgument resolution rewrite a = some (.ok r) ↔
          ∃ d, rewrite inner = some (.ok d) ∧ r = d.toExpression)) ∧
    (∀ (fuel : Nat) (e : Expression) (decomposition : ClassDecompositionExpression),
      getConstructorCall resolution e = some call →
      createClassDecompositionExpr context resolution fuel call = some (.ok decomposition) →
      Pattern.create context resolution fuel e =
        Pattern.create context resolution fuel decomposition.toExpression) := by
  have unfolded : ∀ fuel, createClassDecompositionExpr context resolution (fuel + 1) call =
      if classDef.primaryCtorArgDataMembers.length != call.arguments.length then
        some (.error (.fatal "Wrong number of arguments in constructor pattern."))
      else
        match decompositionMembersLoop resolution
            (createClassDecompositionExpr context resolution fuel)
            (fun name => .NamedEntity name) classDef.primaryCtorArgDataMembers
            call.arguments with
        | none => none
        | some (.error e) => some (.error e)
        | some (.ok members) => some (.ok ⟨Ty.create call.name, "", members⟩) := by
    intro fuel
    rw [createClassDecompositionExpr, hplain]
    simp only [createClassDecompositionFromConstructorCall, hcheck, hclass]
  refine ⟨?_, ?_, ?_, ?_, ?_⟩
  · intro hne fuel
    have : (classDef.primaryCtorArgDataMembers.length != call.arguments.length) = true := by
      simpa using hne
    rw [unfolded, this]
    rfl
  · intro hlen fuel rewritten hall
    have : (classDef.primaryCtorArgDataMembers.length != call.arguments.length) = false := by
      simpa using hlen
    rw [unfolded, this]
    rw [decompositionMembersLoop_ok resolution _ _ _ _ rewritten hlen hall]
    refine ⟨rfl, ?_⟩
    rw [List.length_zipWith, hlen, ← hall.length_eq, Nat.min_self]
  · intro fuel decomposition h
    rw [unfolded] at h
    by_cases hlen : classDef.primaryCtorArgDataMembers.length = call.arguments.length
    · have hb : (classDef.primaryCtorArgDataMembers.length != call.arguments.length)
          = false := by simpa using hlen
      rw [hb] at h
      simp only [Bool.false_eq_true, if_false] at h
      refine ⟨hlen, ?_⟩
      cases hl : decompositionMembersLoop resolution
          (createClassDecompositionExpr context resolution fuel)
          (fun name => .NamedEntity name) classDef.primaryCtorArgDataMembers
          call.arguments with
      | none => rw [hl] at h; exact absurd h (by simp)
      | some rr =>
        rw [hl] at h
        cases rr with
        | error e => exact absurd h (by simp)
        | ok members =>
          simp only [Option.some.injEq, Except.ok.injEq] at h
          obtain ⟨rewritten, hall, hm⟩ :=
            decompositionMembersLoop_ok_inv resolution _ _ _ _ members hlen hl
          exact ⟨rewritten, hall, by rw [← h, hm]⟩
    · have hb : (classDef.primaryCtorArgDataMembers.length != call.arguments.length)
          = true := by simpa using hlen
      rw [hb] at h
      exact absurd h (by simp)
  · intro rewrite a
    constructor
    · intro hnone
      simp [rewriteArgument, hnone]
    · intro inner hsome r
      simp only [rewriteArgument, hsome]
      cases hr : rewrite inner with
      | none => simp
      | some rr =>
        cases rr with
        | error e => simp
        | ok d =>
          simp only [Option.some.injEq, Except.ok.injEq, exists_eq_left']
          exact eq_comm
  · intro fuel e decomposition hcall hrewrite
    have hright : Pattern.create context resolution fuel decomposition.toExpression =
        some (.ok (.ClassDecompositionPattern decomposition.type decomposition.enumVariantName
          decomposition.members)) := rfl
    rw [hright]
    cases e with
    | MethodCall name arguments => simp only [Pattern.create, hcall, hrewrite]
    | NamedEntity identifier => simp only [Pattern.create, hcall, hrewrite]
    | MemberSelector left right => simp only [Pattern.create, hcall, hrewrite]
    | _ => simp [getConstructorCall] at hcall

/-- C30 amended, at the call `Box(Point(1, y))`. -/
theorem C30_constructor_call_rewrite_witness :
    createClassDecompositionExpr sampleClassContext sampleResolution 2
        ⟨"Box", [.MethodCall "Point" [.IntegerLiteral 1, .NamedEntity "y"]], none⟩ =
      some (.ok ⟨Ty.create "Box", "",
        [.mk (.NamedEntity "content")
          (some (.ClassDecomposition (Ty.create "Point") ""
            [.mk (.NamedEntity "x") (some (.IntegerLiteral 1)),
              .mk (.NamedEntity "y") (some (.NamedEntity "y"))]))]⟩) :=
  ((C30_constructor_call_rewrite sampleClassContext sampleResolution
      ⟨"Box", [.MethodCall "Point" [.IntegerLiteral 1, .NamedEntity "y"]], none⟩ _
      ⟨"Box", false, false, false, false, [], ["content"]⟩ rfl rfl rfl).2.1 rfl 1 _
    (.cons rfl .nil)).1

/-- C21 at the sample class scope, whose `x` is a data member. -/
theorem C21_overload_non_method_fails_witness :
    sampleScopeOfMethods.overloadMethod "x" "x()" = (false, sampleScopeOfMethods) :=
  C21_overload_non_method_fails sampleScopeOfMethods "x" "x()"
    (Binding.ofDefinition .DataMember "member x") rfl (by decide)

/-- C22 at the empty scope, overloading `f` three times. -/
theorem C22_overloads_accumulate_witness :
    ((NameBindings.empty : NameBindings String String).overloadMethods "f"
      ["f(int)", "f(bool)", "f()"]).1 = [true, true, true] ∧
    ((NameBindings.empty : NameBindings String String).overloadMethods "f"
      ["f(int)", "f(bool)", "f()"]).2.lookupLocal "f" =
      some ⟨.Method, none, none, ["f(int)", "f(bool)", "f()"]⟩ :=
  ⟨(C22_overloads_accumulate NameBindings.empty "f" "f(int)" ["f(bool)", "f()"] rfl).1,
    (C22_overloads_accumulate NameBindings.empty "f" "f(int)" ["f(bool)", "f()"] rfl).2.1⟩

/-- C23 at the sample chain: `fresh` is bound nowhere, `f` is a method of the
enclosing class scope. -/
theorem C23_insertLabel_whole_chain_witness :
    (sampleScope.insertLabel "fresh").1 = true ∧
    sampleScope.insertLabel "f" = (false, sampleScope) :=
  ⟨(C23_insertLabel_whole_chain sampleScope "fresh").1.mpr rfl,
    (C23_insertLabel_whole_chain sampleScope "f").2.1
      ⟨[("A", Binding.ofDefinition .Class "class A"),
          ("x", Binding.ofDefinition .DataMember "member x"),
          ("f", Binding.ofMethod .Method "method f")],
        List.mem_cons_of_mem _ (List.mem_singleton.mpr rfl), by simp [BindingMap.find]⟩⟩

/-- C24 at the sample block scope whose declaration bound as `x` was renamed. -/
theorem C24_removeObsolete_contract_witness :
    ∃ after, sampleScopeAfterRename.removeObsoleteLocalBindings = .ok after :=
  (C24_removeObsolete_contract sampleScopeAfterRename).2
    (by simp [sampleScopeAfterRename, NameBindings.bindings, Binding.ofLocalObject,
      Binding.ofEntity])

/-- C27 amended, copying the sample class scope into the empty scope. -/
theorem C27_copyFrom_contract_witness :
    ((NameBindings.empty : NameBindings String String).copyFrom
      sampleScopeOfMethods).lookupLocal "f" =
      some ⟨.Method, none, none, ["f(int)", "f(bool)"]⟩ :=
  (C27_copyFrom_contract NameBindings.empty sampleScopeOfMethods "f").1 _ rfl rfl

/-- C28, using the sample block scope, whose `x` is a local object, and the sample
class scope, whose `f` is a method. -/
theorem C28_use_contract_witness :
    ((NameBindings.empty : NameBindings String String).use sampleScope).lookupLocal "x"
      = none ∧
    ((NameBindings.empty : NameBindings String String).use
      sampleScopeOfMethods).lookupLocal "f" =
      some ⟨.Method, none, none, ["f(int)", "f(bool)"]⟩ :=
  ⟨(C28_use_contract NameBindings.empty sampleScope
      (by unfold BindingMap.UniqueKeys; decide) "x").2.2.1 _ rfl rfl (Or.inl rfl),
    (C28_use_contract NameBindings.empty sampleScopeOfMethods
      (by unfold BindingMap.UniqueKeys; decide) "f").2.1 _ rfl rfl (Or.inr (Or.inl rfl))⟩

/-- C29 at the subject type `int`. -/
theorem C29_fresh_coverage_witness :
    MatchCoverage.create (Ty.create "int") = .ok ⟨{"all"}⟩ :=
  ((C29_fresh_coverage (Ty.create "int")).2.2 rfl rfl).1

/-! ## Theorems: type equality and common types, continued -/

/-- One step of the loop of `areTypeParametersMatching`: it returns `true` exactly
when the heads are equal under `==` and the loop over the tails returns `true`. -/
theorem Ty.typeParametersLoop_cons_ok_true (ext : Externals) (l r : Ty) (ls rs : List Ty) :
    Ty.typeParametersLoop ext (l :: ls) (r :: rs) = .ok true ↔
      Ty.areEqualNoConstCheck ext l r true = .ok true ∧ l.constant = r.constant ∧
        Ty.typeParametersLoop ext ls rs = .ok true := by
  simp only [Ty.typeParametersLoop]
  cases hk : Ty.areEqualNoConstCheck ext l r true with
  | error e => simp
  | ok eq =>
    cases eq
    · simp
    · by_cases hc : l.constant = r.constant
      · simp [hc]
      · simp [hc]

/-- Outside the placeholder rule, `areEqualNoConstCheck` returns `true` exactly when
kind, name, reference and array agree, the signatures of function types are
present and equal, and, when type parameters are checked, the parameter lists
have one length and pass the loop. -/
theorem Ty.areEqualNoConstCheck_ok_true_iff (ext : Externals)
    (lb : BuiltInType) (ln : Identifier) (lg : List Ty) (ld : Option Definition)
    (lf : Option FunctionSignature) (lc lr la : Bool)
    (rb : BuiltInType) (rn : Identifier) (rg : List Ty) (rd : Option Definition)
    (rf : Option FunctionSignature) (rc rr ra : Bool) (checkTypeParameters : Bool)
    (hl : lb ≠ .Placeholder) (hr : rb ≠ .Placeholder) :
    Ty.areEqualNoConstCheck ext (.mk lb ln lg ld lf lc lr la) (.mk rb rn rg rd rf rc rr ra)
        checkTypeParameters = .ok true ↔
      lb = rb ∧ ln = rn ∧ lr = rr ∧ la = ra ∧
      (lb = .Function → ∃ ls rs, lf = some ls ∧ rf = some rs ∧
        ext.signatureEquals ls rs = true) ∧
      (checkTypeParameters = true → lg.length = rg.length ∧
        Ty.typeParametersLoop ext lg rg = .ok true) := by
  have hl1 : (lb == BuiltInType.Placeholder) = false := by simpa using hl
  have hr1 : (rb == BuiltInType.Placeholder) = false := by simpa using hr
  simp only [Ty.areEqualNoConstCheck, hl1, hr1, Bool.or_self, Bool.false_eq_true, if_false]
  by_cases hf : (lb == rb && ln == rn && lr == rr && la == ra) = true
  · have hf1 : lb = rb ∧ ln = rn ∧ lr = rr ∧ la = ra := by
      simpa [Bool.and_eq_true, and_assoc] using hf
    obtain ⟨h1, h2, h3, h4⟩ := hf1
    subst h1 h2 h3 h4
    simp only [beq_self_eq_true, Bool.and_self, if_true, true_and]
    by_cases hfn : lb = BuiltInType.Function
    · subst hfn
      simp only [beq_self_eq_true, if_true, true_implies]
      cases lf with
      | none => simp
      | some ls =>
        cases rf with
        | none => simp
        | some rs =>
          cases hs : ext.signatureEquals ls rs
          · simp [hs]
          · cases checkTypeParameters
            · simp [hs]
            · by_cases hlen : lg.length = rg.length
              · simp [hs, hlen]
              · simp [hs, hlen]
    · have hfn1 : (lb == BuiltInType.Function) = false := by simpa using hfn
      simp only [hfn1, Bool.false_eq_true, if_false, hfn, false_implies, true_and]
      cases checkTypeParameters
      · simp
      · by_cases hlen : lg.length = rg.length
        · simp [hlen]
        · simp [hlen]
  · have hf0 : (lb == rb && ln == rn && lr == rr && la == ra) = false := by
      simpa using hf
    simp only [hf0, Bool.false_eq_true, if_false]
    constructor
    · intro h; exact absurd h (by simp)
    · rintro ⟨h1, h2, h3, h4, _⟩
      subst h1 h2 h3 h4
      simp at hf0

/-- Under the placeholder rule `areEqualNoConstCheck` compares the array flags
only. -/
theorem Ty.areEqualNoConstCheck_placeholder (ext : Externals) (left right : Ty)
    (checkTypeParameters : Bool)
    (hp : left.isPlaceholder = true ∨ right.isPlaceholder = true) :
    Ty.areEqualNoConstCheck ext left right checkTypeParameters
      = .ok (decide (left.array = right.array)) := by
  cases left with
  | mk lb ln lg ld lf lc lr la =>
    cases right with
    | mk rb rn rg rd rf rc rr ra =>
      simp only [Ty.isPlaceholder, Ty.builtInType] at hp
      have hp1 : (lb == BuiltInType.Placeholder || rb == BuiltInType.Placeholder) = true := by
        rcases hp with h | h <;> simp [h]
      simp only [Ty.areEqualNoConstCheck, hp1, if_true, Ty.array]
      cases la <;> cases ra <;> rfl

mutual
/-- With a symmetric `FunctionSignature::equals`, `areEqualNoConstCheck` is
symmetric. -/
theorem Ty.areEqualNoConstCheck_symm (ext : Externals)
    (hsymm : ∀ a b, ext.signatureEquals a b = true → ext.signatureEquals b a = true) :
    ∀ (left right : Ty) (checkTypeParameters : Bool),
      Ty.areEqualNoConstCheck ext left right checkTypeParameters = .ok true →
      Ty.areEqualNoConstCheck ext right left checkTypeParameters = .ok true
  | .mk lb ln lg ld lf lc lr la, .mk rb rn rg rd rf rc rr ra, checkTypeParameters, h => by
    by_cases hp : lb = .Placeholder ∨ rb = .Placeholder
    · have hp1 : (Ty.mk lb ln lg ld lf lc lr la).isPlaceholder = true ∨
          (Ty.mk rb rn rg rd rf rc rr ra).isPlaceholder = true := by
        simpa [Ty.isPlaceholder, Ty.builtInType] using hp
      rw [Ty.areEqualNoConstCheck_placeholder ext _ _ _ hp1] at h
      rw [Ty.areEqualNoConstCheck_placeholder ext _ _ _ hp1.symm]
      have ha : la = ra := by simpa [Ty.array] using h
      simp [Ty.array, ha]
    · have hl : lb ≠ .Placeholder := fun e => hp (Or.inl e)
      have hr : rb ≠ .Placeholder := fun e => hp (Or.inr e)
      rw [Ty.areEqualNoConstCheck_ok_true_iff ext _ _ _ _ _ _ _ _ _ _ _ _ _ _ _ _ _ hl hr] at h
      rw [Ty.areEqualNoConstCheck_ok_true_iff ext _ _ _ _ _ _ _ _ _ _ _ _ _ _ _ _ _ hr hl]
      obtain ⟨h1, h2, h3, h4, h5, h6⟩ := h
      refine ⟨h1.symm, h2.symm, h3.symm, h4.symm, ?_, ?_⟩
      · intro hfn
        obtain ⟨ls, rs, e1, e2, e3⟩ := h5 (h1.trans hfn)
        exact ⟨rs, ls, e2, e1, hsymm ls rs e3⟩
      · intro hc
        obtain ⟨hlen, hloop⟩ := h6 hc
        exact ⟨hlen.symm, Ty.typeParametersLoop_symm ext hsymm lg rg hloop hlen⟩
/-- The loop of `areTypeParametersMatching` is symmetric in its two lists. -/
theorem Ty.typeParametersLoop_symm (ext : Externals)
    (hsymm : ∀ a b, ext.signatureEquals a b = true → ext.signatureEquals b a = true) :
    ∀ ls rs : List Ty, Ty.typeParametersLoop ext ls rs = .ok true →
      ls.length = rs.length → Ty.typeParametersLoop ext rs ls = .ok true
  | [], [], _, _ => by simp [Ty.typeParametersLoop]
  | [], _ :: _, _, hlen => by simp at hlen
  | _ :: _, [], _, hlen => by simp at hlen
  | l :: ls, r :: rs, h, hlen => by
    rw [Ty.typeParametersLoop_cons_ok_true] at h ⊢
    have hlen1 : ls.length = rs.length := by simpa using hlen
    exact ⟨Ty.areEqualNoConstCheck_symm ext hsymm l r true h.1, h.2.1.symm,
      Ty.typeParametersLoop_symm ext hsymm ls rs h.2.2 hlen1⟩
end


mutual
/-- With a transitive `FunctionSignature::equals`, `areEqualNoConstCheck` is
transitive on types that contain no placeholder. -/
theorem Ty.areEqualNoConstCheck_trans (ext : Externals)
    (htrans : ∀ a b c, ext.signatureEquals a b = true → ext.signatureEquals b c = true →
      ext.signatureEquals a c = true) :
    ∀ (left middle right : Ty) (checkTypeParameters : Bool),
      left.hasNoPlaceholder = true → middle.hasNoPlaceholder = true →
      right.hasNoPlaceholder = true →
      Ty.areEqualNoConstCheck ext left middle checkTypeParameters = .ok true →
      Ty.areEqualNoConstCheck ext middle right checkTypeParameters = .ok true →
      Ty.areEqualNoConstCheck ext left right checkTypeParameters = .ok true
  | .mk lb ln lg ld lf lc lr la, .mk mb mn mg md mf mc mr ma, .mk rb rn rg rd rf rc rr ra,
      checkTypeParameters, hl, hm, hr, h1, h2 => by
    simp only [Ty.hasNoPlaceholder, Bool.and_eq_true, bne_iff_ne, ne_eq] at hl hm hr
    rw [Ty.areEqualNoConstCheck_ok_true_iff ext _ _ _ _ _ _ _ _ _ _ _ _ _ _ _ _ _ hl.1 hm.1]
      at h1
    rw [Ty.areEqualNoConstCheck_ok_true_iff ext _ _ _ _ _ _ _ _ _ _ _ _ _ _ _ _ _ hm.1 hr.1]
      at h2
    rw [Ty.areEqualNoConstCheck_ok_true_iff ext _ _ _ _ _ _ _ _ _ _ _ _ _ _ _ _ _ hl.1 hr.1]
    obtain ⟨a1, a2, a3, a4, a5, a6⟩ := h1
    obtain ⟨b1, b2, b3, b4, b5, b6⟩ := h2
    refine ⟨a1.trans b1, a2.trans b2, a3.trans b3, a4.trans b4, ?_, ?_⟩
    · intro hfn
      obtain ⟨ls, ms, e1, e2, e3⟩ := a5 hfn
      obtain ⟨ms1, rs, e4, e5, e6⟩ := b5 (a1.symm.trans hfn)
      have hms : ms = ms1 := by
        rw [e2] at e4
        exact Option.some.inj e4
      subst hms
      exact ⟨ls, rs, e1, e5, htrans ls ms rs e3 e6⟩
    · intro hc
      obtain ⟨hlen1, hloop1⟩ := a6 hc
      obtain ⟨hlen2, hloop2⟩ := b6 hc
      exact ⟨hlen1.trans hlen2,
        Ty.typeParametersLoop_trans ext htrans lg mg rg hl.2 hm.2 hr.2 hloop1 hloop2⟩
/-- The loop of `areTypeParametersMatching` is transitive on lists of types that
contain no placeholder. -/
theorem Ty.typeParametersLoop_trans (ext : Externals)
    (htrans : ∀ a b c, ext.signatureEquals a b = true → ext.signatureEquals b c = true →
      ext.signatureEquals a c = true) :
    ∀ ls ms rs : List Ty, Ty.hasNoPlaceholderAll ls = true →
      Ty.hasNoPlaceholderAll ms = true → Ty.hasNoPlaceholderAll rs = true →
      Ty.typeParametersLoop ext ls ms = .ok true → Ty.typeParametersLoop ext ms rs = .ok true →
      Ty.typeParametersLoop ext ls rs = .ok true
  | [], _, _, _, _, _, _, _ => by simp [Ty.typeParametersLoop]
  | _ :: _, [], _, _, _, _, h1, _ => by simp [Ty.typeParametersLoop] at h1
  | _ :: _, _ :: _, [], _, _, _, _, h2 => by simp [Ty.typeParametersLoop] at h2
  | l :: ls, m :: ms, r :: rs, hl, hm, hr, h1, h2 => by
    simp only [Ty.hasNoPlaceholderAll, Bool.and_eq_true] at hl hm hr
    rw [Ty.typeParametersLoop_cons_ok_true] at h1 h2 ⊢
    exact ⟨Ty.areEqualNoConstCheck_trans ext htrans l m r true hl.1 hm.1 hr.1 h1.1 h2.1,
      h1.2.1.trans h2.2.1,
      Ty.typeParametersLoop_trans ext htrans ls ms rs hl.2 hm.2 hr.2 h1.2.2 h2.2.2⟩
end

/-- The operator `==` returns `true` exactly when `areEqualNoConstCheck` with checked
type parameters does and the constant flags agree. -/
theorem Ty.equal_ok_true_iff (ext : Externals) (left right : Ty) :
    Ty.equal ext left right = .ok true ↔
      Ty.areEqualNoConstCheck ext left right true = .ok true ∧ left.constant = right.constant := by
  simp only [Ty.equal]
  cases hk : Ty.areEqualNoConstCheck ext left right true with
  | error e => simp
  | ok eq =>
    cases eq
    · simp
    · by_cases hc : left.constant = right.constant
      · simp [hc]
      · simp [hc]

/-- C40, refuted as stated: the function type that `Type::create(Function)` gives
contains no placeholder, and the sample signature equality, which equates every
two signatures, is an equivalence; yet `t == t` does not return `true`: it
dereferences the null signature of the type. -/
theorem C40_counterexample_function_without_signature :
    (Ty.createBuiltIn .Function).hasNoPlaceholder = true ∧
    (∀ a b, sampleExternals.signatureEquals a b = true) ∧
    Ty.equal sampleExternals (Ty.createBuiltIn .Function) (Ty.createBuiltIn .Function)
      = .error .nullDereference :=
  ⟨by decide, fun _ _ => rfl, by decide⟩

/-- C40, amended: with a `FunctionSignature::equals` that is reflexive, symmetric
and transitive, on types that contain no placeholder the operator `==` is
reflexive for every type whose function types, nested ones included, carry a
signature, and it is symmetric and transitive. -/
theorem C40_equality_is_equivalence (ext : Externals)
    (hrefl : ∀ a, ext.signatureEquals a a = true)
    (hsymm : ∀ a b, ext.signatureEquals a b = true → ext.signatureEquals b a = true)
    (htrans : ∀ a b c, ext.signatureEquals a b = true → ext.signatureEquals b c = true →
      ext.signatureEquals a c = true)
    (left middle right : Ty) (hl : left.hasNoPlaceholder = true)
    (hm : middle.hasNoPlaceholder = true) (hr : right.hasNoPlaceholder = true) :
    (left.signaturesPresent = true → Ty.equal ext left left = .ok true) ∧
    (Ty.equal ext left right = .ok true → Ty.equal ext right left = .ok true) ∧
    (Ty.equal ext left middle = .ok true → Ty.equal ext middle right = .ok true →
      Ty.equal ext left right = .ok true) := by
  refine ⟨?_, ?_, ?_⟩
  · intro hs
    rw [Ty.equal_ok_true_iff]
    exact ⟨Ty.areEqualNoConstCheck_self ext hrefl left true hs, rfl⟩
  · intro h
    rw [Ty.equal_ok_true_iff] at h ⊢
    exact ⟨Ty.areEqualNoConstCheck_symm ext hsymm left right true h.1, h.2.symm⟩
  · intro h1 h2
    rw [Ty.equal_ok_true_iff] at h1 h2 ⊢
    exact ⟨Ty.areEqualNoConstCheck_trans ext htrans left middle right true hl hm hr h1.1 h2.1,
      h1.2.trans h2.2⟩

/-- The null rule of `areInitializable`: a reference slot takes the null type; for
a placeholder slot the placeholder rule runs first and asks for equal array
flags. -/
theorem Ty.areInitializable_of_null (ext : Externals) (left right : Ty)
    (hn : right.isNull = true) (hr : left.isReference = true)
    (hp : left.isPlaceholder = true → left.isArray = right.isArray) :
    Ty.areInitializable ext left right = .ok true := by
  have hrp : right.isPlaceholder = false := by
    have hk : right.builtInType = .Null := by simpa [Ty.isNull] using hn
    simp [Ty.isPlaceholder, hk]
  by_cases hlp : left.isPlaceholder = true
  · simp [Ty.areInitializable, hlp, hp hlp]
  · have hlp0 : left.isPlaceholder = false := by simpa using hlp
    simp [Ty.areInitializable, hlp0, hrp, hr, hn]

/-- With a symmetric `FunctionSignature::equals`, two enumerations that
`areInitializable` accepts in one order are accepted in the other. -/
theorem Ty.areInitializable_enumerations_symm (ext : Externals)
    (hsymm : ∀ a b, ext.signatureEquals a b = true → ext.signatureEquals b a = true)
    (prev cur : Ty) (hp : prev.isEnumeration = true) (hc : cur.isEnumeration = true)
    (h : Ty.areInitializable ext prev cur = .ok true) :
    Ty.areInitializable ext cur prev = .ok true := by
  have hlen := Ty.areInitializable_enumerations_length ext prev cur hp hc h
  have hpk : prev.builtInType = .Enumeration := by simpa [Ty.isEnumeration] using hp
  have hck : cur.builtInType = .Enumeration := by simpa [Ty.isEnumeration] using hc
  have h1 : prev.isPlaceholder = false := by simp [Ty.isPlaceholder, hpk]
  have h2 : cur.isPlaceholder = false := by simp [Ty.isPlaceholder, hck]
  have h3 : cur.isNull = false := by simp [Ty.isNull, hck]
  have h4 : prev.isNull = false := by simp [Ty.isNull, hpk]
  simp only [Ty.areInitializable, Ty.kindsAreInitializable, h1, h2, h3, h4, hp, hc,
    Bool.or_self, Bool.and_false, Bool.and_self, Bool.false_eq_true, if_false, if_true,
    Ty.areTypeParametersMatching, hlen, bne_self_eq_false] at h ⊢
  by_cases hname : prev.name = cur.name
  · have hn1 : (prev.name != cur.name) = false := by simpa using hname
    have hn2 : (cur.name != prev.name) = false := by simpa using hname.symm
    rw [hn1] at h
    rw [hn2]
    simp only [Bool.false_eq_true, if_false] at h ⊢
    cases hloop : Ty.typeParametersLoop ext prev.genericTypeParameters
        cur.genericTypeParameters with
    | error e => rw [hloop] at h; exact absurd h (by simp)
    | ok b =>
      cases b
      · rw [hloop] at h; exact absurd h (by simp)
      · rw [hloop] at h
        rw [Ty.typeParametersLoop_symm ext hsymm _ _ hloop hlen]
        by_cases ha : prev.array = cur.array
        · simp [ha]
        · have : (prev.array != cur.array) = true := by simpa using ha
          simp [this] at h
  · have hn1 : (prev.name != cur.name) = true := by simpa using hname
    rw [hn1] at h
    simp at h

/-- C38, refuted as stated: for the array of placeholders as previous type and the
null type as current type `calculateCommonType` returns the previous type,
which `areInitializable` does not accept the null type into; and for the
function type that `Type::create(Function)` gives, which has no signature yet,
it returns that type, on which `areInitializable` against itself dereferences
the null signature. -/
theorem C38_counterexample_placeholder_array_and_null :
    (Ty.calculateCommonType sampleExternals (some ((Ty.createBuiltIn .Placeholder).setArray true))
        Ty.nullTypeInstance = .ok (some ((Ty.createBuiltIn .Placeholder).setArray true)) ∧
      Ty.areInitializable sampleExternals ((Ty.createBuiltIn .Placeholder).setArray true)
        Ty.nullTypeInstance = .ok false) ∧
    (Ty.calculateCommonType sampleExternals (some (Ty.createBuiltIn .Function))
        Ty.nullTypeInstance = .ok (some (Ty.createBuiltIn .Function)) ∧
      Ty.areInitializable sampleExternals (Ty.createBuiltIn .Function)
        (Ty.createBuiltIn .Function) = .error .nullDereference) :=
  ⟨⟨rfl, by decide⟩, ⟨rfl, by decide⟩⟩

/-- C38, amended: with a reflexive and symmetric `FunctionSignature::equals`, for
present types `prev` and `cur` such that a placeholder paired with a null type
has the array flag of that null type, whenever `calculateCommonType(prev, cur)`
returns a type `c` in which every function type carries a signature, `c` is
`prev` or `cur`, and `areInitializable(c, prev)` and `areInitializable(c, cur)`
both return `true`. -/
theorem C38_common_type_accepts_inputs (ext : Externals)
    (hrefl : ∀ a, ext.signatureEquals a a = true)
    (hsymm : ∀ a b, ext.signatureEquals a b = true → ext.signatureEquals b a = true)
    (prev cur c : Ty)
    (hpn : prev.isPlaceholder = true → cur.isNull = true → prev.isArray = cur.isArray)
    (hcn : cur.isPlaceholder = true → prev.isNull = true → cur.isArray = prev.isArray)
    (h : Ty.calculateCommonType ext (some prev) cur = .ok (some c))
    (hs : c.signaturesPresent = true) :
    (c = prev ∨ c = cur) ∧ Ty.areInitializable ext c prev = .ok true ∧
      Ty.areInitializable ext c cur = .ok true := by
  simp only [Ty.calculateCommonType] at h
  by_cases h1 : (cur.isNull && prev.isReference) = true
  · rw [if_pos h1] at h
    have hc : c = prev := by
      have := Except.ok.inj h
      exact (Option.some.inj this).symm
    subst hc
    have h1' : cur.isNull = true ∧ c.isReference = true := by
      simpa [Bool.and_eq_true] using h1
    exact ⟨Or.inl rfl, Ty.areInitializable_self ext hrefl c hs,
      Ty.areInitializable_of_null ext c cur h1'.1 h1'.2 (fun hp => hpn hp h1'.1)⟩
  · rw [if_neg h1] at h
    by_cases h2 : (prev.isNull && cur.isReference) = true
    · rw [if_pos h2] at h
      have hc : c = cur := by
        have := Except.ok.inj h
        exact (Option.some.inj this).symm
      subst hc
      have h2' : prev.isNull = true ∧ c.isReference = true := by
        simpa [Bool.and_eq_true] using h2
      exact ⟨Or.inr rfl,
        Ty.areInitializable_of_null ext c prev h2'.1 h2'.2 (fun hp => hcn hp h2'.1),
        Ty.areInitializable_self ext hrefl c hs⟩
    · rw [if_neg h2] at h
      cases hinit : Ty.areInitializable ext prev cur with
      | error e => rw [hinit] at h; exact absurd h (by simp)
      | ok b =>
        rw [hinit] at h
        cases b
        · exact absurd h (by simp)
        · simp only [] at h
          by_cases he : (prev.isEnumeration && cur.isEnumeration) = true
          · have he1 : prev.isEnumeration = true ∧ cur.isEnumeration = true := by
              simpa [Bool.and_eq_true] using he
            have hlen := Ty.areInitializable_enumerations_length ext prev cur he1.1 he1.2 hinit
            rw [if_pos he, hlen] at h
            simp only [bne_self_eq_false, Bool.false_eq_true, if_false] at h
            by_cases hloop : Ty.commonTypeLoop prev.genericTypeParameters
                cur.genericTypeParameters = true
            · rw [if_pos hloop] at h
              have hc : c = cur := by
                have := Except.ok.inj h
                exact (Option.some.inj this).symm
              subst hc
              exact ⟨Or.inr rfl,
                Ty.areInitializable_enumerations_symm ext hsymm prev c he1.1 he1.2 hinit,
                Ty.areInitializable_self ext hrefl c hs⟩
            · rw [if_neg hloop] at h
              have hc : c = prev := by
                have := Except.ok.inj h
                exact (Option.some.inj this).symm
              subst hc
              exact ⟨Or.inl rfl, Ty.areInitializable_self ext hrefl c hs, hinit⟩
          · rw [if_neg he] at h
            have hc : c = prev := by
              have := Except.ok.inj h
              exact (Option.some.inj this).symm
            subst hc
            exact ⟨Or.inl rfl, Ty.areInitializable_self ext hrefl c hs, hinit⟩

/-- C39: in the sample class scope, where `f` and `g` are methods,
`updateMethodName("f", "g")` returns `false` because `g` is taken, and the scope
it leaves no longer binds `f`: the binding was erased before the insertion was
tried. -/
theorem C39_failed_rename_drops_old_name :
    (sampleScopeOfMethods.lookupLocal "f").map (fun b => b.methodList)
      = some ["f(int)", "f(bool)"] ∧
    (sampleScopeOfMethods.lookupLocal "g").map (fun b => b.methodList) = some ["g()"] ∧
    (sampleScopeOfMethods.updateMethodName "f" "g").1 = false ∧
    ((sampleScopeOfMethods.updateMethodName "f" "g").2.lookupLocal "f").isNone = true ∧
    ((sampleScopeOfMethods.updateMethodName "f" "g").2.lookupLocal "g").map
      (fun b => b.methodList) = some ["g()"] := by
  decide

/-! ## Theorems: lowering of array patterns -/

/-- The loop of the length comparison in closed form: it is fatal exactly when a
wildcard is met while one is already present, and otherwise counts the
elements that are not wildcards. -/
theorem ArrayPattern.lengthLoop_eq :
    ∀ (elements : List Expression) (numberOfElements : Int) (wildcardPresent : Bool),
      ArrayPattern.lengthLoop elements numberOfElements wildcardPresent =
        if 2 ≤ (if wildcardPresent then 1 else 0) + elements.countP Expression.isWildcard then
          .error (.fatal "Wilcard \x27..\x27 can only be present once in an array pattern.")
        else
          .ok (numberOfElements + ((elements.countP fun e => !e.isWildcard : Nat) : Int),
            wildcardPresent || decide (1 ≤ elements.countP Expression.isWildcard))
  | [], k, w => by
    cases w <;> simp [ArrayPattern.lengthLoop]
  | element :: rest, k, w => by
    have ih1 := ArrayPattern.lengthLoop_eq rest k true
    have ih2 := ArrayPattern.lengthLoop_eq rest (k + 1) w
    simp only [ArrayPattern.lengthLoop, List.countP_cons, ih1, ih2]
    cases hw : element.isWildcard
    · simp only [Bool.false_eq_true, if_false, Bool.not_false, if_true, Nat.add_zero,
        Nat.cast_add, Nat.cast_one]
      have harith : k + 1 + ((List.countP (fun e => !e.isWildcard) rest : Nat) : Int) =
          k + (((List.countP (fun e => !e.isWildcard) rest : Nat) : Int) + 1) := by omega
      rw [harith]
    · cases w
      · simp only [if_true, Bool.false_eq_true, if_false, Bool.not_true, Nat.add_zero,
          Nat.zero_add, Bool.true_or, Bool.false_or]
        by_cases h2 : 2 ≤ 1 + List.countP Expression.isWildcard rest
        · have h3 : 2 ≤ List.countP Expression.isWildcard rest + 1 := by omega
          simp [h2, h3]
        · have h3 : ¬ 2 ≤ List.countP Expression.isWildcard rest + 1 := by omega
          simp [h2, h3]
      · have h3 : 2 ≤ 1 + (List.countP Expression.isWildcard rest + 1) := by omega
        simp [h3]

/-- The length comparison in closed form. -/
theorem ArrayPattern.generateLengthComparisonExpression_eq (elements : List Expression) :
    ArrayPattern.generateLengthComparisonExpression elements =
      if 2 ≤ elements.countP Expression.isWildcard then
        .error (.fatal "Wilcard \x27..\x27 can only be present once in an array pattern.")
      else
        .ok (.Binary
          (if 1 ≤ elements.countP Expression.isWildcard then Operator.GreaterOrEqual
            else Operator.Equal)
          (.NamedEntity matchSubjectLengthName)
          (.IntegerLiteral ((elements.countP fun e => !e.isWildcard : Nat) : Int))) := by
  simp only [ArrayPattern.generateLengthComparisonExpression, ArrayPattern.lengthLoop_eq,
    Bool.false_eq_true, if_false, Nat.zero_add, Bool.false_or, zero_add]
  by_cases h2 : 2 ≤ elements.countP Expression.isWildcard
  · simp [h2]
  · by_cases h1 : 1 ≤ elements.countP Expression.isWildcard
    · simp [h2, h1]
    · simp [h2, h1]

/-- C31: `generateLengthComparisonExpression` is fatal exactly when the array
pattern holds two or more wildcards; with one wildcard it returns
`__match_subject_length >= K` and with none `__match_subject_length == K`,
where `K` counts the elements that are not wildcards, placeholders and names
included; for `[a, .., b]` the test is `__match_subject_length >= 2`. -/
theorem C31_length_comparison (elements : List Expression) :
    ((∃ failure, ArrayPattern.generateLengthComparisonExpression elements = .error failure) ↔
      2 ≤ elements.countP Expression.isWildcard) ∧
    (2 ≤ elements.countP Expression.isWildcard →
      ArrayPattern.generateLengthComparisonExpression elements =
        .error (.fatal "Wilcard \x27..\x27 can only be present once in an array pattern.")) ∧
    (elements.countP Expression.isWildcard = 1 →
      ArrayPattern.generateLengthComparisonExpression elements =
        .ok (.Binary .GreaterOrEqual (.NamedEntity "__match_subject_length")
          (.IntegerLiteral ((elements.countP fun e => !e.isWildcard : Nat) : Int)))) ∧
    (elements.countP Expression.isWildcard = 0 →
      ArrayPattern.generateLengthComparisonExpression elements =
        .ok (.Binary .Equal (.NamedEntity "__match_subject_length")
          (.IntegerLiteral ((elements.countP fun e => !e.isWildcard : Nat) : Int)))) ∧
    ArrayPattern.generateLengthComparisonExpression
        [.NamedEntity "a", .Wildcard, .NamedEntity "b"] =
      .ok (.Binary .GreaterOrEqual (.NamedEntity "__match_subject_length")
        (.IntegerLiteral 2)) ∧
    ArrayPattern.generateLengthComparisonExpression
        [.Placeholder, .NamedEntity "a", .IntegerLiteral 7] =
      .ok (.Binary .Equal (.NamedEntity "__match_subject_length") (.IntegerLiteral 3)) := by
  rw [ArrayPattern.generateLengthComparisonExpression_eq]
  refine ⟨?_, ?_, ?_, ?_, rfl, rfl⟩
  · by_cases h2 : 2 ≤ elements.countP Expression.isWildcard
    · simp [h2]
    · simp [h2]
  · intro h2
    simp [h2]
  · intro h1
    simp [h1, matchSubjectLengthName]
  · intro h0
    simp [h0, matchSubjectLengthName]

/-- C31 at the patterns `[.., 1, ..]`, `[1, ..]` and `[1, _]`. -/
theorem C31_length_comparison_witness :
    ArrayPattern.generateLengthComparisonExpression [.Wildcard, .IntegerLiteral 1, .Wildcard] =
      .error (.fatal "Wilcard \x27..\x27 can only be present once in an array pattern.") ∧
    ArrayPattern.generateLengthComparisonExpression [.IntegerLiteral 1, .Wildcard] =
      .ok (.Binary .GreaterOrEqual (.NamedEntity "__match_subject_length")
        (.IntegerLiteral 1)) ∧
    ArrayPattern.generateLengthComparisonExpression [.IntegerLiteral 1, .Placeholder] =
      .ok (.Binary .Equal (.NamedEntity "__match_subject_length") (.IntegerLiteral 2)) :=
  ⟨(C31_length_comparison [.Wildcard, .IntegerLiteral 1, .Wildcard]).2.1 (by decide),
    (C31_length_comparison [.IntegerLiteral 1, .Wildcard]).2.2.1 (by decide),
    (C31_length_comparison [.IntegerLiteral 1, .Placeholder]).2.2.2.1 (by decide)⟩

/-- The subscript that the loop builds at an iterator is the subscript of the
position of the iterator, when the flag tells whether a wildcard stands before
it. -/
theorem ArrayPattern.generateArraySubscriptExpression_eq (subject : Expression)
    (before : List Expression) (element : Expression) (after : List Expression) :
    ArrayPattern.generateArraySubscriptExpression subject ⟨before, element, after⟩
        (before.any Expression.isWildcard) =
      .ArraySubscript subject (ArrayPattern.indexAt (before ++ element :: after) before.length) := by
  have htake : List.take before.length (before ++ element :: after) = before := by simp
  have hlen : (before ++ element :: after).length - before.length = after.length + 1 := by
    simp
  simp only [ArrayPattern.generateArraySubscriptExpression, ArrayPattern.indexAt, htake, hlen]

/-- One element of the loop adds the contribution of its position. -/
theorem ArrayPattern.generateElementComparisonExpression_eq (subject : Expression)
    (context : Context) (before : List Expression) (element : Expression)
    (after : List Expression) (lists : PatternLists) :
    ArrayPattern.generateElementComparisonExpression subject ⟨before, element, after⟩ context
        (before.any Expression.isWildcard) lists =
      ((ArrayPattern.contributionAt context subject (before ++ element :: after) before.length
          element).1,
        ⟨lists.declarations ++
          (ArrayPattern.contributionAt context subject (before ++ element :: after)
            before.length element).2.toList, lists.temporaries⟩) := by
  have hsub := ArrayPattern.generateArraySubscriptExpression_eq subject before element after
  cases lists with
  | mk declarations temporaries =>
    cases element <;>
      simp only [ArrayPattern.generateElementComparisonExpression,
        ArrayPattern.generateNamedEntityElementComparisonExpression,
        ArrayPattern.contributionAt, hsub, Option.toList, List.append_nil]
    all_goals
      first
        | rfl
        | (split <;> simp only [Option.toList, List.append_nil])

/-- The loop of the array lowering in closed form: from an iterator after the
elements `before`, with the flag telling whether a wildcard is among them, it
conjoins the conjuncts and appends the declarations of the remaining
positions, in order. -/
theorem ArrayPattern.elementsLoop_eq (subject : Expression) (context : Context) :
    ∀ (remaining before : List Expression) (comparison : Expression) (lists : PatternLists),
      ArrayPattern.elementsLoop subject context before remaining
          (before.any Expression.isWildcard) comparison lists =
        (conjoinAll comparison
            (((remaining.enumFrom before.length).map fun pe =>
              ArrayPattern.contributionAt context subject (before ++ remaining) pe.1 pe.2).filterMap
              Prod.fst),
          ⟨lists.declarations ++
            (((remaining.enumFrom before.length).map fun pe =>
              ArrayPattern.contributionAt context subject (before ++ remaining) pe.1
                pe.2).filterMap Prod.snd), lists.temporaries⟩)
  | [], before, comparison, lists => by
    cases lists
    simp [ArrayPattern.elementsLoop, conjoinAll]
  | element :: after, before, comparison, lists => by
    have hflag : (if element.isWildcard then true else before.any Expression.isWildcard) =
        (before ++ [element]).any Expression.isWildcard := by
      cases hw : element.isWildcard <;> simp [hw]
    have happ : (before ++ [element]) ++ after = before ++ element :: after := by simp
    have hlen : (before ++ [element]).length = before.length + 1 := by simp
    have ih := ArrayPattern.elementsLoop_eq subject context after (before ++ [element])
    simp only [happ, hlen] at ih
    simp only [ArrayPattern.elementsLoop, hflag,
      ArrayPattern.generateElementComparisonExpression_eq, ih, List.enumFrom_cons, List.map_cons]
    cases hc : ArrayPattern.contributionAt context subject (before ++ element :: after)
        before.length element with
    | mk term declaration =>
      cases term <;> cases declaration <;>
        simp [conjoinAll, Option.toList]

/-- C32: for an array pattern with at most one wildcard, `generateComparisonExpression`
returns the length test conjoined, left to right, with the conjuncts of the
positions, and appends the declarations of the positions in order; the element
at position `p` is lowered with the subscript index `p` before the wildcard
and `__match_subject_length - (n - p)` after it; a wildcard or placeholder
contributes nothing, a named entity that introduces a binding the declaration
`var name = subject[index]`, any other element the conjunct
`subject[index] == element`. For `[a, .., b]` on `xs` the declarations are
`var a = xs[0]` and `var b = xs[__match_subject_length - 1]` and the comparison
is the length test alone. -/
theorem C32_array_elements_lowering (elements : List Expression) (subject : Expression)
    (context : Context) (lists : PatternLists)
    (hw : elements.countP Expression.isWildcard ≤ 1) :
    (∃ lengthTest,
      ArrayPattern.generateLengthComparisonExpression elements = .ok lengthTest ∧
      ArrayPattern.generateComparisonExpression elements subject context lists =
        .ok (conjoinAll lengthTest
            ((ArrayPattern.contributions context subject elements).filterMap Prod.fst),
          ⟨lists.declarations ++
            (ArrayPattern.contributions context subject elements).filterMap Prod.snd,
            lists.temporaries⟩)) ∧
    (∀ p, p < elements.length →
      ((elements.take p).any Expression.isWildcard = false →
        ArrayPattern.indexAt elements p = .IntegerLiteral ((p : Nat) : Int)) ∧
      ((elements.take p).any Expression.isWildcard = true →
        ArrayPattern.indexAt elements p =
          .Binary .Subtraction (.NamedEntity "__match_subject_length")
            (.IntegerLiteral ((elements.length - p : Nat) : Int)))) ∧
    (∀ p, ArrayPattern.contributionAt context subject elements p .Wildcard = (none, none) ∧
      ArrayPattern.contributionAt context subject elements p .Placeholder = (none, none)) ∧
    (∀ p name, patternExpressionCreatesVariable (.NamedEntity name) context = true →
      ArrayPattern.contributionAt context subject elements p (.NamedEntity name) =
        (none, some (VariableDeclarationStatement.create (Ty.createBuiltIn .Implicit) name
          (some (.ArraySubscript subject (ArrayPattern.indexAt elements p)))))) ∧
    (∀ p element, element.isWildcard = false → element.isPlaceholder = false →
      (element.isNamedEntity = true →
        patternExpressionCreatesVariable element context = false) →
      ArrayPattern.contributionAt context subject elements p element =
        (some (.Binary .Equal (.ArraySubscript subject (ArrayPattern.indexAt elements p))
          element), none)) ∧
    ArrayPattern.generateComparisonExpression
        [.NamedEntity "a", .Wildcard, .NamedEntity "b"] (.NamedEntity "xs")
        (sampleLoweringContext ((Ty.create "int").setArray true)) PatternLists.empty =
      .ok (.Binary .GreaterOrEqual (.NamedEntity "__match_subject_length") (.IntegerLiteral 2),
        ⟨[VariableDeclarationStatement.create (Ty.createBuiltIn .Implicit) "a"
            (some (.ArraySubscript (.NamedEntity "xs") (.IntegerLiteral 0))),
          VariableDeclarationStatement.create (Ty.createBuiltIn .Implicit) "b"
            (some (.ArraySubscript (.NamedEntity "xs")
              (.Binary .Subtraction (.NamedEntity "__match_subject_length")
                (.IntegerLiteral 1))))], []⟩) := by
  refine ⟨?_, ?_, ?_, ?_, ?_, rfl⟩
  · have hlen := ArrayPattern.generateLengthComparisonExpression_eq elements
    have h2 : ¬ 2 ≤ elements.countP Expression.isWildcard := by omega
    rw [if_neg h2] at hlen
    refine ⟨_, hlen, ?_⟩
    have hloop := ArrayPattern.elementsLoop_eq subject context elements [] 
    simp only [List.any_nil, List.length_nil, List.nil_append] at hloop
    simp only [ArrayPattern.generateComparisonExpression, hlen, hloop,
      ArrayPattern.contributions, List.enum]
  · intro p _
    constructor
    · intro h
      simp [ArrayPattern.indexAt, h]
    · intro h
      simp [ArrayPattern.indexAt, h, matchSubjectLengthName]
  · intro p
    exact ⟨rfl, rfl⟩
  · intro p name h
    simp [ArrayPattern.contributionAt, h]
  · intro p element h1 h2 h3
    cases element <;>
      first
        | rfl
        | (simp [Expression.isWildcard] at h1; done)
        | (simp [Expression.isPlaceholder] at h2; done)
        | (have h4 := h3 rfl
           simp [ArrayPattern.contributionAt, h4])

/-- A wildcard is among the elements exactly when the count of wildcards is not
zero. -/
theorem ArrayPattern.any_isWildcard_iff (elements : List Expression) :
    elements.any Expression.isWildcard = true ↔ 0 < elements.countP Expression.isWildcard := by
  rw [List.countP_pos_iff, List.any_eq_true]

/-- The elements of a list split into wildcards and the rest. -/
theorem ArrayPattern.countP_not_isWildcard (elements : List Expression) :
    elements.countP (fun e => !e.isWildcard) + elements.countP Expression.isWildcard
      = elements.length := by
  induction elements with
  | nil => rfl
  | cons e rest ih =>
    simp only [List.countP_cons, List.length_cons]
    cases e.isWildcard <;> simp <;> omega

/-- The value of the subscript index at an iterator, in terms of the position:
the forward index before the wildcard, the length less the reverse index after
it. -/
theorem ArrayPattern.indexValue_subscript (subject : Expression) (i : ElementIterator)
    (flag : Bool) (length : Int) :
    ∃ index, ArrayPattern.generateArraySubscriptExpression subject i flag
        = .ArraySubscript subject index ∧
      ArrayPattern.indexValue length index =
        some (if flag then length - ((i.after.length + 1 : Nat) : Int)
          else ((i.before.length : Nat) : Int)) := by
  cases flag
  · exact ⟨_, rfl, rfl⟩
  · refine ⟨_, rfl, ?_⟩
    simp [ArrayPattern.indexValue, matchSubjectLengthName]

/-- A length test that holds bounds the length from below by the count of the
elements that are not wildcards, and fixes it when no wildcard is present. -/
theorem ArrayPattern.lengthTestHolds_bounds (elements : List Expression) (test : Expression)
    (length : Int)
    (htest : ArrayPattern.generateLengthComparisonExpression elements = .ok test)
    (hholds : ArrayPattern.lengthTestHolds length test = some true) :
    elements.countP Expression.isWildcard ≤ 1 ∧
    ((elements.countP (fun e => !e.isWildcard) : Nat) : Int) ≤ length ∧
    (elements.countP Expression.isWildcard = 0 →
      length = ((elements.countP (fun e => !e.isWildcard) : Nat) : Int)) := by
  rw [ArrayPattern.generateLengthComparisonExpression_eq] at htest
  by_cases h2 : 2 ≤ elements.countP Expression.isWildcard
  · rw [if_pos h2] at htest
    exact absurd htest (by simp)
  · rw [if_neg h2] at htest
    have htest1 := (Except.ok.inj htest).symm
    subst htest1
    by_cases h1 : 1 ≤ elements.countP Expression.isWildcard
    · simp only [h1, if_true, ArrayPattern.lengthTestHolds, ArrayPattern.indexValue,
        matchSubjectLengthName, Option.some.injEq, decide_eq_true_eq] at hholds
      exact ⟨by omega, hholds, fun h0 => by omega⟩
    · simp only [h1, if_false, ArrayPattern.lengthTestHolds, ArrayPattern.indexValue,
        matchSubjectLengthName, if_true, Option.some.injEq, decide_eq_true_eq] at hholds
      exact ⟨by omega, by omega, fun _ => hholds⟩

/-- C36: for an array pattern whose length test is generated, and a subject length
that satisfies the test, the subscript index generated at every element that
is not a wildcard, the forward index before the wildcard and the length less
the reverse index after it, has a value from 0 up to, and not including, the
length; and the index of an element to the left of the wildcard is smaller
than the index of an element to the right of it. -/
theorem C36_subscripts_in_bounds (subject : Expression) (elements : List Expression)
    (test : Expression) (length : Int)
    (htest : ArrayPattern.generateLengthComparisonExpression elements = .ok test)
    (hholds : ArrayPattern.lengthTestHolds length test = some true) :
    (∀ i : ElementIterator, i.elements = elements → i.element.isWildcard = false →
      ∃ index value,
        ArrayPattern.generateArraySubscriptExpression subject i
          (i.before.any Expression.isWildcard) = .ArraySubscript subject index ∧
        ArrayPattern.indexValue length index = some value ∧ 0 ≤ value ∧ value < length) ∧
    (∀ i j : ElementIterator, i.elements = elements → j.elements = elements →
      i.element.isWildcard = false → j.element.isWildcard = false →
      i.before.any Expression.isWildcard = false →
      j.before.any Expression.isWildcard = true →
      ∀ indexI indexJ valueI valueJ,
        ArrayPattern.generateArraySubscriptExpression subject i false
          = .ArraySubscript subject indexI →
        ArrayPattern.generateArraySubscriptExpression subject j true
          = .ArraySubscript subject indexJ →
        ArrayPattern.indexValue length indexI = some valueI →
        ArrayPattern.indexValue length indexJ = some valueJ →
        valueI < valueJ) := by
  obtain ⟨hw, hlow, hexact⟩ := ArrayPattern.lengthTestHolds_bounds elements test length htest hholds
  have hsplit := ArrayPattern.countP_not_isWildcard elements
  constructor
  · intro i hi hne
    obtain ⟨index, h1, h2⟩ := ArrayPattern.indexValue_subscript subject i
      (i.before.any Expression.isWildcard) length
    refine ⟨index, _, h1, h2, ?_⟩
    have hcount : elements.countP Expression.isWildcard =
        i.before.countP Expression.isWildcard + i.after.countP Expression.isWildcard := by
      rw [← hi, ElementIterator.elements, List.countP_append, List.countP_cons]
      simp [hne]
    have hlen : elements.length = i.before.length + (i.after.length + 1) := by
      rw [← hi, ElementIterator.elements]
      simp
    have hb : i.before.countP Expression.isWildcard ≤ i.before.length :=
      List.countP_le_length _
    have ha : i.after.countP Expression.isWildcard ≤ i.after.length :=
      List.countP_le_length _
    cases hflag : i.before.any Expression.isWildcard
    · have hb0 : i.before.countP Expression.isWildcard = 0 := by
        by_contra hpos
        have := (ArrayPattern.any_isWildcard_iff i.before).2 (Nat.pos_of_ne_zero hpos)
        rw [hflag] at this
        exact absurd this (by simp)
      simp only [Bool.false_eq_true, if_false]
      by_cases h0 : elements.countP Expression.isWildcard = 0
      · have := hexact h0
        constructor <;> omega
      · constructor <;> omega
    · have hb1 := (ArrayPattern.any_isWildcard_iff i.before).1 hflag
      simp only [if_true]
      constructor <;> omega
  · intro i j hi hj hni hnj hfi hfj indexI indexJ valueI valueJ e1 e2 e3 e4
    obtain ⟨xi, h1, h2⟩ := ArrayPattern.indexValue_subscript subject i false length
    obtain ⟨xj, h3, h4⟩ := ArrayPattern.indexValue_subscript subject j true length
    rw [h1] at e1
    rw [h3] at e2
    have e1' : xi = indexI := by injection e1
    have e2' : xj = indexJ := by injection e2
    subst e1' e2'
    rw [h2] at e3
    rw [h4] at e4
    simp only [Bool.false_eq_true, if_false, if_true, Option.some.injEq] at e3 e4
    subst e3 e4
    -- the prefix up to and including `i` holds no wildcard, the prefix before `j` holds one
    have hpi : (i.before ++ [i.element]) <+: elements := by
      rw [← hi, ElementIterator.elements]
      exact ⟨i.after, by simp⟩
    have hpj : j.before <+: elements := by
      rw [← hj, ElementIterator.elements]
      exact ⟨j.element :: j.after, rfl⟩
    have hci : (i.before ++ [i.element]).countP Expression.isWildcard = 0 := by
      rw [List.countP_append]
      have hb0 : i.before.countP Expression.isWildcard = 0 := by
        by_contra hpos
        have := (ArrayPattern.any_isWildcard_iff i.before).2 (Nat.pos_of_ne_zero hpos)
        rw [hfi] at this
        exact absurd this (by simp)
      simp [hb0, hni]
    have hcj := (ArrayPattern.any_isWildcard_iff j.before).1 hfj
    have hlt : (i.before ++ [i.element]).length < j.before.length := by
      by_contra hge
      have hle : j.before.length ≤ (i.before ++ [i.element]).length := by omega
      have hpre := List.prefix_of_prefix_length_le hpj hpi hle
      have := hpre.sublist.countP_le Expression.isWildcard
      omega
    have hleni : (i.before ++ [i.element]).length = i.before.length + 1 := by simp
    have hlenj : elements.length = j.before.length + (j.after.length + 1) := by
      rw [← hj, ElementIterator.elements]
      simp
    have hcountj : 1 ≤ elements.countP Expression.isWildcard := by
      have := hpj.sublist.countP_le Expression.isWildcard
      omega
    omega

/-! ## Theorems: lowering of typed and class decomposition patterns -/

/-- C33: for the pattern `x: T` whose typed expression has the type `T` after type
checking, `TypedPattern::generateComparisonExpression` on subject `s` appends
exactly one temporary, the uninitialised and non-constant variable of type `T`
named `__<name of T>_<s.generateVariableName()>`, returns the test
`(tmp = (T)(s)) != null`, and appends exactly the declaration `var x = tmp` of
implicit type when the result name is a named entity and none otherwise. For
`p: Cat` on `o`, mangled as `m`: temporary `__Cat_m` of type `Cat`, comparison
`(__Cat_m = (Cat)(o)) != null`, declaration `var p = __Cat_m`. -/
theorem C33_typed_pattern_lowering (targetType : Ty) (resultName subject : Expression)
    (context : Context) (lists : PatternLists) (checkedType : Ty)
    (htype : context.getType (.Typed targetType resultName) = some checkedType) :
    TypedPattern.generateComparisonExpression targetType resultName subject context lists =
      .ok (.Binary .NotEqual
          (.Binary .AssignmentExpression
            (.LocalVariable (checkedType.setConstant false)
              ((("__" ++ checkedType.name) ++ "_") ++ context.generateVariableName subject))
            (.TypeCast (checkedType.setConstant false) subject))
          .Null,
        ⟨lists.declarations ++
            (match resultName with
              | .NamedEntity name =>
                [⟨⟨Ty.createBuiltIn .Implicit, name⟩,
                  some (.LocalVariable (checkedType.setConstant false)
                    ((("__" ++ checkedType.name) ++ "_") ++
                      context.generateVariableName subject))⟩]
              | _ => []),
          lists.temporaries ++
            [⟨⟨checkedType.setConstant false,
              (("__" ++ checkedType.name) ++ "_") ++ context.generateVariableName subject⟩,
              none⟩]⟩) ∧
    (checkedType.setConstant false).constant = false ∧
    (checkedType.setConstant false).name = checkedType.name ∧
    TypedPattern.generateComparisonExpression (Ty.create "Cat") (.NamedEntity "p")
        (.NamedEntity "o") (sampleLoweringContext (Ty.create "object")) PatternLists.empty =
      .ok (.Binary .NotEqual
          (.Binary .AssignmentExpression
            (.LocalVariable ((Ty.create "Cat").setConstant false) "__Cat_m")
            (.TypeCast ((Ty.create "Cat").setConstant false) (.NamedEntity "o")))
          .Null,
        ⟨[⟨⟨Ty.createBuiltIn .Implicit, "p"⟩,
            some (.LocalVariable ((Ty.create "Cat").setConstant false) "__Cat_m")⟩],
          [⟨⟨(Ty.create "Cat").setConstant false, "__Cat_m"⟩, none⟩]⟩) := by
  refine ⟨?_, ?_, ?_, rfl⟩
  · simp only [TypedPattern.generateComparisonExpression, htype, castComparison,
      castedSubjectName, Ty.clone, VariableDeclarationStatement.create]
    cases resultName <;> simp
  · cases checkedType; rfl
  · cases checkedType; rfl

/-- C33 at the pattern `_: Cat` on `o`, whose result name is no named entity: one
temporary and no declaration. -/
theorem C33_typed_pattern_lowering_witness :
    TypedPattern.generateComparisonExpression (Ty.create "Cat") .Placeholder
        (.NamedEntity "o") (sampleLoweringContext (Ty.create "object")) PatternLists.empty =
      .ok (.Binary .NotEqual
          (.Binary .AssignmentExpression
            (.LocalVariable ((Ty.create "Cat").setConstant false) "__Cat_m")
            (.TypeCast ((Ty.create "Cat").setConstant false) (.NamedEntity "o")))
          .Null,
        ⟨[], [⟨⟨(Ty.create "Cat").setConstant false, "__Cat_m"⟩, none⟩]⟩) :=
  (C33_typed_pattern_lowering (Ty.create "Cat") .Placeholder (.NamedEntity "o")
    (sampleLoweringContext (Ty.create "object")) PatternLists.empty (Ty.create "Cat") rfl).1

/-- An irrefutable member adds no term, and the declaration of its contribution. -/
theorem ClassDecompositionPattern.member_irrefutable_step (context : Context)
    (subject : Expression) (member : Member) (lists : PatternLists)
    (h : memberPatternIsIrrefutable member.patternExpr context = true) :
    (ClassDecompositionPattern.memberContribution context subject member).1 = none ∧
    ClassDecompositionPattern.generateVariableCreatedByMemberPattern member subject context lists
      = ⟨lists.declarations ++
          (ClassDecompositionPattern.memberContribution context subject member).2.toList,
        lists.temporaries⟩ := by
  cases lists with
  | mk declarations temporaries =>
    cases member with
    | mk nameExpr patternExpr =>
      cases patternExpr with
      | none =>
        cases nameExpr <;>
          simp [ClassDecompositionPattern.memberContribution,
            ClassDecompositionPattern.generateVariableCreatedByMemberPattern, Member.patternExpr,
            Member.nameExpr, generateMatchSubjectMemberSelector, Option.toList]
      | some e =>
        cases e <;>
          simp only [memberPatternIsIrrefutable, Member.patternExpr, Expression.isPlaceholder,
            Expression.isNamedEntity, Bool.false_and, Bool.true_and, Bool.false_eq_true,
            if_false, if_true] at h <;>
          first
            | (simp [ClassDecompositionPattern.memberContribution,
                ClassDecompositionPattern.generateVariableCreatedByMemberPattern,
                Member.patternExpr, Member.nameExpr, Option.toList]; done)
            | (have h1 : patternExpressionCreatesVariable (.NamedEntity ‹Identifier›) context
                  = true := by
                by_contra hc
                simp [hc] at h
               simp [ClassDecompositionPattern.memberContribution,
                ClassDecompositionPattern.generateVariableCreatedByMemberPattern,
                Member.patternExpr, Member.nameExpr, generateMatchSubjectMemberSelector,
                Option.toList, h1])

/-- A refutable member whose sub-pattern is no class decomposition adds the term of
its contribution and no declaration. -/
theorem ClassDecompositionPattern.member_refutable_step (context : Context)
    (analysis : SelectorAnalysis) (subject : Expression) (member : Member)
    (lists : PatternLists)
    (h : memberPatternIsIrrefutable member.patternExpr context = false)
    (hn : member.isNestedDecomposition = false) :
    ∃ term, ClassDecompositionPattern.memberContribution context subject member
        = (some term, none) ∧
      ClassDecompositionPattern.generateMemberComparisonExpression context analysis member
        subject lists = .ok (some term, lists) := by
  cases member with
  | mk nameExpr patternExpr =>
    cases patternExpr with
    | none => simp [memberPatternIsIrrefutable, Member.patternExpr] at h
    | some e =>
      cases e <;>
        first
          | (simp [memberPatternIsIrrefutable, Member.patternExpr,
              Expression.isPlaceholder] at h; done)
          | (simp [Member.isNestedDecomposition, Member.patternExpr] at hn; done)
          | exact ⟨_, rfl, rfl⟩
          | (have h1 : patternExpressionCreatesVariable (.NamedEntity ‹Identifier›) context
                = false := by
              simpa [memberPatternIsIrrefutable, Member.patternExpr,
                Expression.isPlaceholder, Expression.isNamedEntity] using h
             refine ⟨_, ?_, rfl⟩
             simp [ClassDecompositionPattern.memberContribution, Member.patternExpr,
               Member.nameExpr, h1, generateMatchSubjectMemberSelector])

/-- The loop over members none of which holds a nested class decomposition, in
closed form: the terms are conjoined after the comparison on entry and the
declarations appended, in member order; the temporaries stay. -/
theorem ClassDecompositionPattern.membersLoop_simple (context : Context)
    (analysis : SelectorAnalysis) (subject : Expression) :
    ∀ (members : List Member) (comparison : Option Expression) (lists : PatternLists),
      (∀ member ∈ members, member.isNestedDecomposition = false) →
      ClassDecompositionPattern.membersLoop context analysis members subject comparison lists =
        .ok (ClassDecompositionPattern.conjunction comparison
            ((members.map (ClassDecompositionPattern.memberContribution context subject)).filterMap
              Prod.fst),
          ⟨lists.declarations ++
            (members.map (ClassDecompositionPattern.memberContribution context
              subject)).filterMap Prod.snd, lists.temporaries⟩)
  | [], comparison, lists, _ => by
    cases lists
    simp [ClassDecompositionPattern.membersLoop, ClassDecompositionPattern.conjunction]
  | member :: rest, comparison, lists, hsimple => by
    have hrest : ∀ m ∈ rest, m.isNestedDecomposition = false :=
      fun m hm => hsimple m (List.mem_cons_of_mem _ hm)
    have hm := hsimple member (List.mem_cons_self _ _)
    cases hirr : memberPatternIsIrrefutable member.patternExpr context
    · obtain ⟨term, h1, h2⟩ := ClassDecompositionPattern.member_refutable_step context analysis
        subject member lists hirr hm
      have ih := ClassDecompositionPattern.membersLoop_simple context analysis subject rest
      simp only [ClassDecompositionPattern.membersLoop, hirr, Bool.false_eq_true, if_false, h2,
        List.map_cons, h1]
      cases comparison <;>
        simp [ClassDecompositionPattern.conjoin, ih _ _ hrest,
          ClassDecompositionPattern.conjunction]
    · obtain ⟨h1, h2⟩ := ClassDecompositionPattern.member_irrefutable_step context subject
        member lists hirr
      have ih := ClassDecompositionPattern.membersLoop_simple context analysis subject rest
      simp only [ClassDecompositionPattern.membersLoop, hirr, if_true, h2, ih _ _ hrest,
        List.map_cons]
      cases hc : ClassDecompositionPattern.memberContribution context subject member with
      | mk term declaration =>
        rw [hc] at h1
        simp only at h1
        subst h1
        cases declaration <;> simp [Option.toList]

/-- C34: the type discrimination of a class decomposition pattern, for a pattern
and a subject that carry their types. (1) With an enum variant name `V` the
term is `subject.__tag == <EnumName>.__V_tag`, no temporary is added and the
subject stays. (2) Otherwise, when `areEqualNoConstCheck(subject type, pattern
type, false)` holds, there is no term and no temporary and the subject stays.
(3) Otherwise exactly one uninitialised, non-constant temporary
`__<TypeName>_<subject.generateVariableName()>` of the pattern type is
appended, the term is `(tmp = (T)(subject)) != null`, and the loop over the
members runs against `tmp`. -/
theorem C34_type_discrimination (context : Context) (type : Ty)
    (enumVariantName : Identifier) (members : List Member) (subject : Expression)
    (lists : PatternLists) (patternType subjectTy : Ty)
    (hp : context.getType (.ClassDecomposition type enumVariantName members) = some patternType)
    (hs : context.getType subject = some subjectTy) :
    (enumVariantName ≠ "" →
      ClassDecompositionPattern.generateTypeComparisonExpression context type enumVariantName
          members subject lists =
        .ok (some (.Binary .Equal (.MemberSelector subject (.NamedEntity "__tag"))
            (.MemberSelector (.NamedEntity subjectTy.getFullConstructedName)
              (.NamedEntity (("__" ++ enumVariantName) ++ "_tag")))),
          subject, lists)) ∧
    (enumVariantName = "" →
      Ty.areEqualNoConstCheck context.externals subjectTy patternType false = .ok true →
      ClassDecompositionPattern.generateTypeComparisonExpression context type enumVariantName
          members subject lists = .ok (none, subject, lists)) ∧
    (enumVariantName = "" →
      Ty.areEqualNoConstCheck context.externals subjectTy patternType false = .ok false →
      ClassDecompositionPattern.generateTypeComparisonExpression context type enumVariantName
          members subject lists =
        .ok (some (.Binary .NotEqual
            (.Binary .AssignmentExpression
              (.LocalVariable (patternType.setConstant false)
                ((("__" ++ patternType.name) ++ "_") ++ context.generateVariableName subject))
              (.TypeCast (patternType.setConstant false) subject))
            .Null),
          .LocalVariable (patternType.setConstant false)
            ((("__" ++ patternType.name) ++ "_") ++ context.generateVariableName subject),
          ⟨lists.declarations,
            lists.temporaries ++
              [⟨⟨patternType.setConstant false,
                (("__" ++ patternType.name) ++ "_") ++ context.generateVariableName subject⟩,
                none⟩]⟩) ∧
      (patternType.setConstant false).constant = false ∧
      ∀ analysis : SelectorAnalysis,
        ClassDecompositionPattern.generateComparisonExpression context analysis type
            enumVariantName members subject lists =
          ClassDecompositionPattern.membersLoop context analysis members
            (.LocalVariable (patternType.setConstant false)
              ((("__" ++ patternType.name) ++ "_") ++ context.generateVariableName subject))
            (some (.Binary .NotEqual
              (.Binary .AssignmentExpression
                (.LocalVariable (patternType.setConstant false)
                  ((("__" ++ patternType.name) ++ "_") ++ context.generateVariableName subject))
                (.TypeCast (patternType.setConstant false) subject))
              .Null))
            ⟨lists.declarations,
              lists.temporaries ++
                [⟨⟨patternType.setConstant false,
                  (("__" ++ patternType.name) ++ "_") ++ context.generateVariableName subject⟩,
                  none⟩]⟩) := by
  refine ⟨?_, ?_, ?_⟩
  · intro hev
    have hev1 : (enumVariantName != "") = true := by simpa using hev
    simp [ClassDecompositionPattern.generateTypeComparisonExpression, hev1,
      ClassDecompositionPattern.generateEnumVariantTagComparisonExpression, subjectType, hs,
      CommonNames.enumTagVariableName, Symbol.makeEnumVariantTagName]
  · intro hev heq
    subst hev
    simp [ClassDecompositionPattern.generateTypeComparisonExpression, hp, hs, heq]
  · intro hev heq
    subst hev
    have hgen : ClassDecompositionPattern.generateTypeComparisonExpression context type ""
          members subject lists =
        .ok (some (.Binary .NotEqual
            (.Binary .AssignmentExpression
              (.LocalVariable (patternType.setConstant false)
                ((("__" ++ patternType.name) ++ "_") ++ context.generateVariableName subject))
              (.TypeCast (patternType.setConstant false) subject))
            .Null),
          .LocalVariable (patternType.setConstant false)
            ((("__" ++ patternType.name) ++ "_") ++ context.generateVariableName subject),
          ⟨lists.declarations,
            lists.temporaries ++
              [⟨⟨patternType.setConstant false,
                (("__" ++ patternType.name) ++ "_") ++ context.generateVariableName subject⟩,
                none⟩]⟩) := by
      simp [ClassDecompositionPattern.generateTypeComparisonExpression, hp, hs, heq,
        castComparison, castedSubjectName, Ty.clone, VariableDeclarationStatement.create]
    refine ⟨hgen, ?_, ?_⟩
    · cases patternType; rfl
    · intro analysis
      simp only [ClassDecompositionPattern.generateComparisonExpression, hgen]

/-- C34 at three patterns: the variant `V(3)` on a subject of the enumeration `E`;
`Point(x: 0, y: y)` on a subject of type `Point`; and the same pattern on a
subject of type `object`, where the members are read from the temporary
`__Point_m`. -/
theorem C34_type_discrimination_witness :
    ClassDecompositionPattern.generateComparisonExpression
        (sampleLoweringContext (Ty.create "E")) sampleSelectorAnalysis (Ty.create "E") "V"
        [.mk (.MemberSelector (.NamedEntity "__V_data") (.NamedEntity "x"))
          (some (.IntegerLiteral 3))]
        (.NamedEntity "e") PatternLists.empty =
      .ok (some (.Binary .LogicalAnd
          (.Binary .Equal (.MemberSelector (.NamedEntity "e") (.NamedEntity "__tag"))
            (.MemberSelector (.NamedEntity "E") (.NamedEntity "__V_tag")))
          (.Binary .Equal
            (.MemberSelector (.NamedEntity "e")
              (.MemberSelector (.NamedEntity "__V_data") (.NamedEntity "x")))
            (.IntegerLiteral 3))),
        ⟨[], []⟩) ∧
    ClassDecompositionPattern.generateTypeComparisonExpression
        (sampleLoweringContext (Ty.create "Point")) (Ty.create "Point") "" samplePointMembers
        (.NamedEntity "subject") PatternLists.empty =
      .ok (none, .NamedEntity "subject", PatternLists.empty) ∧
    ClassDecompositionPattern.generateComparisonExpression
        (sampleLoweringContext (Ty.create "object")) sampleSelectorAnalysis (Ty.create "Point")
        "" samplePointMembers (.NamedEntity "subject") PatternLists.empty =
      .ok (some (.Binary .LogicalAnd
          (.Binary .NotEqual
            (.Binary .AssignmentExpression
              (.LocalVariable ((Ty.create "Point").setConstant false) "__Point_m")
              (.TypeCast ((Ty.create "Point").setConstant false) (.NamedEntity "subject")))
            .Null)
          (.Binary .Equal
            (.MemberSelector
              (.LocalVariable ((Ty.create "Point").setConstant false) "__Point_m")
              (.NamedEntity "x"))
            (.IntegerLiteral 0))),
        ⟨[⟨⟨Ty.createBuiltIn .Implicit, "y"⟩,
            some (.MemberSelector
              (.LocalVariable ((Ty.create "Point").setConstant false) "__Point_m")
              (.NamedEntity "y"))⟩],
          [⟨⟨(Ty.create "Point").setConstant false, "__Point_m"⟩, none⟩]⟩) :=
  ⟨rfl,
    (C34_type_discrimination (sampleLoweringContext (Ty.create "Point")) (Ty.create "Point") ""
      samplePointMembers (.NamedEntity "subject") PatternLists.empty (Ty.create "Point")
      (Ty.create "Point") rfl rfl).2.1 rfl (by decide),
    rfl⟩

/-- C35: for members none of which holds a nested class decomposition,
`generateComparisonExpression` conjoins, left to right after the discrimination
term if there is one, the terms of the members against the effective subject,
and appends their declarations in member order. A member whose sub-pattern is
a named entity that introduces a binding contributes exactly the declaration
`var name = s.<member>` and no term; a placeholder contributes neither; any
refutable sub-pattern `p` that is no decomposition contributes the term
`s.<member> == p` and no declaration. For `Point(x: 0, y: y)` on a subject of
type `Point` the comparison is `subject.x == 0` and the declarations are
`var y = subject.y`. -/
theorem C35_member_decomposition (context : Context) (analysis : SelectorAnalysis)
    (type : Ty) (enumVariantName : Identifier) (members : List Member) (subject : Expression)
    (lists : PatternLists)
    (hsimple : ∀ member ∈ members, member.isNestedDecomposition = false) :
    (ClassDecompositionPattern.generateComparisonExpression context analysis type
        enumVariantName members subject lists =
      match ClassDecompositionPattern.generateTypeComparisonExpression context type
          enumVariantName members subject lists with
      | .error e => .error e
      | .ok (discrimination, s, lists1) =>
        .ok (ClassDecompositionPattern.conjunction discrimination
            ((members.map (ClassDecompositionPattern.memberContribution context s)).filterMap
              Prod.fst),
          ⟨lists1.declarations ++
            (members.map (ClassDecompositionPattern.memberContribution context s)).filterMap
              Prod.snd, lists1.temporaries⟩)) ∧
    (∀ s nameExpr name, patternExpressionCreatesVariable (.NamedEntity name) context = true →
      ClassDecompositionPattern.memberContribution context s
          (.mk nameExpr (some (.NamedEntity name))) =
        (none, some ⟨⟨Ty.createBuiltIn .Implicit, name⟩, some (.MemberSelector s nameExpr)⟩)) ∧
    (∀ s nameExpr,
      ClassDecompositionPattern.memberContribution context s (.mk nameExpr (some .Placeholder))
        = (none, none)) ∧
    (∀ s nameExpr p, memberPatternIsIrrefutable (some p) context = false →
      (Member.mk nameExpr (some p)).isNestedDecomposition = false →
      ClassDecompositionPattern.memberContribution context s (.mk nameExpr (some p)) =
        (some (.Binary .Equal (.MemberSelector s nameExpr) p), none)) ∧
    (∀ (discrimination : Expression) (t1 t2 : Expression),
      ClassDecompositionPattern.conjunction (some discrimination) [t1, t2] =
          some (.Binary .LogicalAnd (.Binary .LogicalAnd discrimination t1) t2) ∧
        ClassDecompositionPattern.conjunction none [t1, t2] =
          some (.Binary .LogicalAnd t1 t2)) ∧
    ClassDecompositionPattern.generateComparisonExpression
        (sampleLoweringContext (Ty.create "Point")) sampleSelectorAnalysis (Ty.create "Point")
        "" samplePointMembers (.NamedEntity "subject") PatternLists.empty =
      .ok (some (.Binary .Equal (.MemberSelector (.NamedEntity "subject") (.NamedEntity "x"))
          (.IntegerLiteral 0)),
        ⟨[⟨⟨Ty.createBuiltIn .Implicit, "y"⟩,
            some (.MemberSelector (.NamedEntity "subject") (.NamedEntity "y"))⟩], []⟩) := by
  refine ⟨?_, ?_, ?_, ?_, ?_, rfl⟩
  · simp only [ClassDecompositionPattern.generateComparisonExpression]
    cases ClassDecompositionPattern.generateTypeComparisonExpression context type
        enumVariantName members subject lists with
    | error e => rfl
    | ok r =>
      obtain ⟨discrimination, s, lists1⟩ := r
      exact ClassDecompositionPattern.membersLoop_simple context analysis s members
        discrimination lists1 hsimple
  · intro s nameExpr name h
    simp [ClassDecompositionPattern.memberContribution, Member.patternExpr, Member.nameExpr, h,
      VariableDeclarationStatement.create]
  · intro s nameExpr
    rfl
  · intro s nameExpr p hirr hn
    obtain ⟨term, h1, h2⟩ := ClassDecompositionPattern.member_refutable_step context
      sampleSelectorAnalysis s (.mk nameExpr (some p)) PatternLists.empty hirr hn
    rw [h1]
    cases p <;>
      first
        | (simp [Member.isNestedDecomposition, Member.patternExpr] at hn; done)
        | (simp only [ClassDecompositionPattern.generateMemberComparisonExpression,
            generateMatchSubjectMemberSelector, Except.ok.injEq, Prod.mk.injEq, and_true,
            Option.some.injEq] at h2
           rw [← h2])
  · intro discrimination t1 t2
    exact ⟨rfl, rfl⟩

/-- C35 at the members of `Point(x: 0, y: y)` against the subject `s`. -/
theorem C35_member_decomposition_witness :
    ClassDecompositionPattern.generateComparisonExpression
        (sampleLoweringContext (Ty.create "Point")) sampleSelectorAnalysis (Ty.create "Point")
        "" samplePointMembers (.NamedEntity "s") PatternLists.empty =
      .ok (some (.Binary .Equal (.MemberSelector (.NamedEntity "s") (.NamedEntity "x"))
          (.IntegerLiteral 0)),
        ⟨[⟨⟨Ty.createBuiltIn .Implicit, "y"⟩,
            some (.MemberSelector (.NamedEntity "s") (.NamedEntity "y"))⟩], []⟩) :=
  (C35_member_decomposition (sampleLoweringContext (Ty.create "Point")) sampleSelectorAnalysis
    (Ty.create "Point") "" samplePointMembers (.NamedEntity "s") PatternLists.empty
    (by decide)).1

/-- Members that are all irrefutable hold no nested class decomposition. -/
theorem ClassDecompositionPattern.irrefutable_members_simple (context : Context) :
    ∀ members : List Member,
      ClassDecompositionPattern.areAllMemberPatternsIrrefutable members context = true →
      ∀ member ∈ members, memberPatternIsIrrefutable member.patternExpr context = true
  | [], _, member, hm => by simp at hm
  | first :: rest, h, member, hm => by
    simp only [ClassDecompositionPattern.areAllMemberPatternsIrrefutable] at h
    cases hf : memberPatternIsIrrefutable first.patternExpr context
    · simp [hf] at h
    · simp only [hf, Bool.not_true, Bool.false_eq_true, if_false] at h
      rcases List.mem_cons.1 hm with heq | hin
      · rw [heq]; exact hf
      · exact ClassDecompositionPattern.irrefutable_members_simple context rest h member hin

/-- The loop over members that are all irrefutable leaves the comparison and the
temporaries as they are. -/
theorem ClassDecompositionPattern.membersLoop_irrefutable (context : Context)
    (analysis : SelectorAnalysis) (subject : Expression) :
    ∀ (members : List Member) (comparison : Option Expression) (lists : PatternLists),
      (∀ member ∈ members, memberPatternIsIrrefutable member.patternExpr context = true) →
      ∃ after, ClassDecompositionPattern.membersLoop context analysis members subject
          comparison lists = .ok (comparison, after) ∧
        after.temporaries = lists.temporaries
  | [], comparison, lists, _ => ⟨lists, rfl, rfl⟩
  | member :: rest, comparison, lists, h => by
    have hm := h member (List.mem_cons_self _ _)
    have hrest : ∀ m ∈ rest, memberPatternIsIrrefutable m.patternExpr context = true :=
      fun m hin => h m (List.mem_cons_of_mem _ hin)
    obtain ⟨after, h1, h2⟩ := ClassDecompositionPattern.membersLoop_irrefutable context analysis
      subject rest comparison
      (ClassDecompositionPattern.generateVariableCreatedByMemberPattern member subject context
        lists) hrest
    refine ⟨after, ?_, ?_⟩
    · simp only [ClassDecompositionPattern.membersLoop, hm, if_true, h1]
    · rw [h2, (ClassDecompositionPattern.member_irrefutable_step context subject member lists
        hm).2]

/-- C37: when type checking leaves on the class decomposition the type it returns,
and `ClassDecompositionPattern::isMatchExhaustive` returns `true` for a pattern
without enum variant name, `generateComparisonExpression` for the same subject
and context returns no comparison and adds nothing to the temporaries. -/
theorem C37_exhaustive_needs_no_comparison (context : Context) (analysis : SelectorAnalysis)
    (type : Ty) (members : List Member) (subject : Expression) (coverage after : MatchCoverage)
    (isMatchGuardPresent : Bool) (lists : PatternLists)
    (hcoherent : ∀ checked, context.typeCheck (.ClassDecomposition type "" members)
      = .ok checked → context.getType (.ClassDecomposition type "" members) = some checked)
    (h : ClassDecompositionPattern.isMatchExhaustive type "" members subject coverage
      isMatchGuardPresent context = .ok (true, after)) :
    ∃ listsAfter,
      ClassDecompositionPattern.generateComparisonExpression context analysis type "" members
        subject lists = .ok (none, listsAfter) ∧
      listsAfter.temporaries = lists.temporaries := by
  simp only [ClassDecompositionPattern.isMatchExhaustive] at h
  cases hcheck : context.typeCheck (.ClassDecomposition type "" members) with
  | error e => rw [hcheck] at h; exact absurd h (by simp)
  | ok classPatternType =>
    rw [hcheck] at h
    have hget := hcoherent classPatternType hcheck
    simp only [bne_self_eq_false, Bool.false_eq_true, if_false, subjectType] at h
    cases hsub : context.getType subject with
    | none => rw [hsub] at h; exact absurd h (by simp)
    | some t =>
      rw [hsub] at h
      simp only at h
      cases heq : Ty.areEqualNoConstCheck context.externals t classPatternType false with
      | error e => rw [heq] at h; exact absurd h (by simp)
      | ok b =>
        rw [heq] at h
        cases b
        · exact absurd h (by simp)
        · simp only at h
          by_cases hall : (!isMatchGuardPresent &&
              ClassDecompositionPattern.areAllMemberPatternsIrrefutable members context) = true
          · have hall1 : ClassDecompositionPattern.areAllMemberPatternsIrrefutable members
                context = true := by
              simp only [Bool.and_eq_true] at hall
              exact hall.2
            have hirr := ClassDecompositionPattern.irrefutable_members_simple context members
              hall1
            obtain ⟨listsAfter, h1, h2⟩ := ClassDecompositionPattern.membersLoop_irrefutable
              context analysis subject members none lists hirr
            refine ⟨listsAfter, ?_, h2⟩
            simp [ClassDecompositionPattern.generateComparisonExpression,
              ClassDecompositionPattern.generateTypeComparisonExpression, hget, hsub, heq, h1]
          · rw [if_neg hall] at h
            exact absurd h (by simp)

/-- C37 at `Point(x: a, y: _)` on a subject of type `Point`: the pattern is
exhaustive, and the lowering gives no comparison and no temporary. -/
theorem C37_exhaustive_needs_no_comparison_witness :
    ClassDecompositionPattern.isMatchExhaustive (Ty.create "Point") ""
        [.mk (.NamedEntity "x") (some (.NamedEntity "a")),
          .mk (.NamedEntity "y") (some .Placeholder)]
        (.NamedEntity "subject") ⟨{"all"}⟩ false (sampleLoweringContext (Ty.create "Point"))
      = .ok (true, ⟨{"all"}⟩) ∧
    ∃ listsAfter,
      ClassDecompositionPattern.generateComparisonExpression
        (sampleLoweringContext (Ty.create "Point")) sampleSelectorAnalysis (Ty.create "Point")
        ""
        [.mk (.NamedEntity "x") (some (.NamedEntity "a")),
          .mk (.NamedEntity "y") (some .Placeholder)]
        (.NamedEntity "subject") PatternLists.empty = .ok (none, listsAfter) ∧
      listsAfter.temporaries = PatternLists.empty.temporaries :=
  ⟨by decide,
    C37_exhaustive_needs_no_comparison (sampleLoweringContext (Ty.create "Point"))
      sampleSelectorAnalysis (Ty.create "Point")
      [.mk (.NamedEntity "x") (some (.NamedEntity "a")),
        .mk (.NamedEntity "y") (some .Placeholder)]
      (.NamedEntity "subject") ⟨{"all"}⟩ ⟨{"all"}⟩ false PatternLists.empty
      (fun checked hc => by
        have : checked = Ty.create "Point" := (Except.ok.inj hc).symm
        rw [this]; rfl)
      (by decide)⟩

/-! ## Witnesses of the lowering and of the type algebra -/

/-- C32 at `[a, .., b]` on `xs`. -/
theorem C32_array_elements_lowering_witness :
    sampleArrayPattern.countP Expression.isWildcard ≤ 1 ∧
    ∃ lengthTest,
      ArrayPattern.generateLengthComparisonExpression sampleArrayPattern = .ok lengthTest ∧
      ArrayPattern.generateComparisonExpression sampleArrayPattern (.NamedEntity "xs")
          (sampleLoweringContext ((Ty.create "int").setArray true)) PatternLists.empty =
        .ok (conjoinAll lengthTest
            ((ArrayPattern.contributions (sampleLoweringContext ((Ty.create "int").setArray true))
              (.NamedEntity "xs") sampleArrayPattern).filterMap Prod.fst),
          ⟨PatternLists.empty.declarations ++
            (ArrayPattern.contributions (sampleLoweringContext ((Ty.create "int").setArray true))
              (.NamedEntity "xs") sampleArrayPattern).filterMap Prod.snd,
            PatternLists.empty.temporaries⟩) :=
  ⟨by decide,
    (C32_array_elements_lowering sampleArrayPattern (.NamedEntity "xs")
      (sampleLoweringContext ((Ty.create "int").setArray true)) PatternLists.empty
      (by decide)).1⟩

/-- C36 at `[a, .., b]` and a subject of length 5: the index of `b`, the last
element, has the value 4. -/
theorem C36_subscripts_in_bounds_witness :
    ArrayPattern.generateLengthComparisonExpression sampleArrayPattern =
      .ok (.Binary .GreaterOrEqual (.NamedEntity "__match_subject_length")
        (.IntegerLiteral 2)) ∧
    ArrayPattern.lengthTestHolds 5 (.Binary .GreaterOrEqual
      (.NamedEntity "__match_subject_length") (.IntegerLiteral 2)) = some true ∧
    ArrayPattern.indexValue 5 (.Binary .Subtraction (.NamedEntity "__match_subject_length")
      (.IntegerLiteral 1)) = some 4 ∧
    ∃ index value,
      ArrayPattern.generateArraySubscriptExpression (.NamedEntity "xs")
          ⟨[.NamedEntity "a", .Wildcard], .NamedEntity "b", []⟩
          ([Expression.NamedEntity "a", Expression.Wildcard].any Expression.isWildcard) =
        .ArraySubscript (.NamedEntity "xs") index ∧
      ArrayPattern.indexValue 5 index = some value ∧ 0 ≤ value ∧ value < 5 :=
  ⟨rfl, by decide, by decide,
    (C36_subscripts_in_bounds (.NamedEntity "xs") sampleArrayPattern
      (.Binary .GreaterOrEqual (.NamedEntity "__match_subject_length") (.IntegerLiteral 2)) 5
      rfl (by decide)).1 ⟨[.NamedEntity "a", .Wildcard], .NamedEntity "b", []⟩ rfl rfl⟩

/-- C38 amended, at `string` against the null type and at `int` against `byte`. -/
theorem C38_common_type_accepts_inputs_witness :
    (Ty.calculateCommonType sampleExternals (some (Ty.create "string")) Ty.nullTypeInstance
        = .ok (some (Ty.create "string")) ∧
      Ty.areInitializable sampleExternals (Ty.create "string") (Ty.create "string")
        = .ok true ∧
      Ty.areInitializable sampleExternals (Ty.create "string") Ty.nullTypeInstance
        = .ok true) ∧
    (Ty.calculateCommonType sampleExternals (some (Ty.create "int")) (Ty.create "byte")
        = .ok (some (Ty.create "int")) ∧
      Ty.areInitializable sampleExternals (Ty.create "int") (Ty.create "int") = .ok true ∧
      Ty.areInitializable sampleExternals (Ty.create "int") (Ty.create "byte") = .ok true) :=
  ⟨⟨rfl,
      (C38_common_type_accepts_inputs sampleExternals (fun _ => rfl) (fun _ _ _ => rfl)
        (Ty.create "string") Ty.nullTypeInstance (Ty.create "string") (by decide) (by decide)
        rfl (by decide)).2⟩,
    ⟨rfl,
      (C38_common_type_accepts_inputs sampleExternals (fun _ => rfl) (fun _ _ _ => rfl)
        (Ty.create "int") (Ty.create "byte") (Ty.create "int") (by decide) (by decide)
        rfl (by decide)).2⟩⟩

/-- C40 amended, at `List<int>` and at the type `Point` with and without its
definition, which `==` does not compare. -/
theorem C40_equality_is_equivalence_witness :
    Ty.equal sampleExternals sampleListOfInt sampleListOfInt = .ok true ∧
    Ty.equal sampleExternals
        ((Ty.create "Point").setDefinition (.Class ⟨"Point", false, false, false, false, [], []⟩))
        (Ty.create "Point") = .ok true ∧
    Ty.equal sampleExternals (Ty.create "Point") (Ty.create "Point") = .ok true :=
  ⟨(C40_equality_is_equivalence sampleExternals (fun _ => rfl) (fun _ _ _ => rfl)
      (fun _ _ _ _ _ => rfl) sampleListOfInt sampleListOfInt sampleListOfInt (by decide)
      (by decide) (by decide)).1 (by decide),
    (C40_equality_is_equivalence sampleExternals (fun _ => rfl) (fun _ _ _ => rfl)
      (fun _ _ _ _ _ => rfl) (Ty.create "Point")
      ((Ty.create "Point").setDefinition (.Class ⟨"Point", false, false, false, false, [], []⟩))
      ((Ty.create "Point").setDefinition (.Class ⟨"Point", false, false, false, false, [], []⟩))
      (by decide) (by decide) (by decide)).2.1 (by decide),
    (C40_equality_is_equivalence sampleExternals (fun _ => rfl) (fun _ _ _ => rfl)
      (fun _ _ _ _ _ => rfl) (Ty.create "Point")
      ((Ty.create "Point").setDefinition (.Class ⟨"Point", false, false, false, false, [], []⟩))
      (Ty.create "Point") (by decide) (by decide) (by decide)).2.2 (by decide) (by decide)⟩

end Buhrlang
